import Mathlib

/-!
TCMalloc: huge-page-aware allocator configuration and the HugePageFiller fuzz harness.

A shallow embedding of

* `tcmalloc/huge_page_aware_allocator.cc` (`decide_subrelease`), and
* `tcmalloc/huge_page_filler_fuzz.cc` (`FuzzFiller` and its mocks),

together with a model of the `HugePageFiller` / `PageTracker` interface the harness drives.
`huge_page_filler.h` is not among the sources, so the filler, the page tracker and the range
tracker are modelled from the specification; each such definition says so in its doc comment.

Conventions of the embedding:

* A failed `CHECK`, a `TC_BUG` and the fatal contract violations of the filler are results of
  type `Failure`; a run is an `Except Failure _`.
* A `PageTracker*` is represented by the location (huge page number) of the tracker, which the
  harness takes from a counter that only grows.
* A bitmap and the hash set of released pages are finite sets of naturals; the hash map
  `allocs` is a list of entries in insertion order (the claims about the shutdown loop are
  proved for every order of the entries).
* Machine integers are naturals or integers without wrap-around: `value` is below `2^32` by
  construction, and an input of at most 100000 bytes cannot drive the page ids, the huge page
  counter or the clock to the limits of their types.
* The callbacks of the filler act on a state they own; for the harness that state is its
  globals, whose values at the entry of `FuzzFiller` are a parameter.
* Operations 5, 8 and 9 of the harness only print or gather statistics; they are the identity
  on the modelled state.
-/

namespace TCMalloc

/-! ## Part 1. Definitions -/

/-- Ways in which a run stops without a result: a failed `CHECK` of the harness (identified by
its line in `huge_page_filler_fuzz.cc`), a `TC_BUG` report, or one of the fatal contract
violations of the filler (range error on `Get`, `Put` of a range that is not allocated, `Put`
on a tracker the filler does not own). -/
inductive Failure where
  | check (line : Nat)
  | tc_bug
  | range_error
  | double_free
  | not_owned
  deriving DecidableEq, Repr

/-- The character `e[0]` of a NUL-terminated C string whose contents are `e`: the first
character, or the terminating NUL when the string is empty. -/
def firstChar (e : List Char) : Char :=
  match e with
  | [] => Char.ofNat 0
  | c :: _ => c

/-- Embedding of `decide_subrelease` (huge_page_aware_allocator.cc:44-69).
`e` is the result of `thread_safe_getenv("TCMALLOC_HPAA_CONTROL")` (`none` for a null pointer),
`default_subrelease` is the weak hook: `none` when it is not linked, `some d` when it is linked
and returns `d`. `TC_BUG` does not return; it is the error `Failure.tc_bug`. -/
def decide_subrelease (e : Option (List Char)) (default_subrelease : Option Int) :
    Except Failure Bool :=
  let fallthrough : Except Failure Bool :=
    match default_subrelease with
    | some decision => if decision ≠ 0 then .ok (decide (decision > 0)) else .ok true
    | none => .ok true
  match e with
  | some s =>
    if firstChar s = '0' then fallthrough
    else if firstChar s = '1' then .ok false
    else if firstChar s = '2' then .ok true
    else .error Failure.tc_bug
  | none => fallthrough

/-! ### Basic types of the allocator -/

/-- A `Range` is `(PageId start, Length n)`; page ids and lengths are small-page counts. -/
structure Range where
  p : Nat
  n : Nat
  deriving DecidableEq, Repr, Inhabited

/-- The density hint `AccessDensityPrediction`. -/
inductive AccessDensityPrediction where
  | kSparse
  | kDense
  deriving DecidableEq, Repr, Inhabited

/-- The record `SpanAllocInfo = { objects_per_span, density }`. -/
structure SpanAllocInfo where
  objects_per_span : Nat
  density : AccessDensityPrediction
  deriving DecidableEq, Repr, Inhabited

/-- The two kinds of sparse tracker, fixed at filler construction. -/
inductive HugePageFillerSparseTrackerType where
  | kExactLongestFreeRange
  | kCoarseLongestFreeRange
  deriving DecidableEq, Repr

/-- The record `SkipSubreleaseIntervals`; each interval is a whole number of seconds
(`absl::Seconds`), zero by default. -/
structure SkipSubreleaseIntervals where
  peak_interval : Nat
  short_interval : Nat
  long_interval : Nat
  deriving DecidableEq, Repr

/-- Modelled from the spec: `SkipSubreleaseEnabled()` of `huge_page_subrelease.h`, which is not
among the sources. "If all zero, the policy is disabled." -/
def SkipSubreleaseIntervals.SkipSubreleaseEnabled (i : SkipSubreleaseIntervals) : Bool :=
  i.peak_interval != 0 || i.short_interval != 0 || i.long_interval != 0

/-- One sample of the demand history kept for the subrelease policy. -/
structure DemandSample where
  time : Int
  used_pages : Nat
  free_pages : Nat
  deriving DecidableEq, Repr

/-- Constants and policy details that the sources use but do not define.

* `kPagesPerHugePage`: small pages per huge page (`tcmalloc/common.h`).
* `kMaxResidencyBits`: width of a residency bitmap (`tcmalloc/internal/residency.h`).
* `kPartialAllocPagesRelease`: the fraction of `HugePageFiller`, kept as the exact ratio
  `kPartialAllocPagesReleaseNum / kPartialAllocPagesReleaseDen`.
* `demandFloor`: the number of free pages the skip-subrelease policy retains, "pure and
  deterministic given the history and the intervals"; the spec gives no formula.
* `residencyPermitsCollapse`: whether the residency bitmaps (unbacked, swapped) of a huge page
  permit collapsing it; the spec gives no formula. -/
structure Params where
  kPagesPerHugePage : Nat
  kMaxResidencyBits : Nat
  kPartialAllocPagesReleaseNum : Nat
  kPartialAllocPagesReleaseDen : Nat
  demandFloor : List DemandSample → SkipSubreleaseIntervals → Int → Nat
  residencyPermitsCollapse : Finset Nat → Finset Nat → Bool

/-- What the development assumes of the constants: a huge page has at least two small pages
(so that `std::clamp(v, 1, kPagesPerHugePage - 1)` is well formed), and
`kPartialAllocPagesRelease` is a fraction between 0 and 1. -/
def Params.Valid (P : Params) : Prop :=
  2 ≤ P.kPagesPerHugePage ∧ 0 < P.kPartialAllocPagesReleaseDen ∧
    P.kPartialAllocPagesReleaseNum ≤ P.kPartialAllocPagesReleaseDen

/-! ### RangeTracker (modelled from the spec, section 4.1)

A bitmap is the finite set of its set bits. -/

/-- Whether the `n` bits from `i` are all zero in `bits`. -/
def isFreeRun (bits : Finset Nat) (i n : Nat) : Bool :=
  (List.range n).all fun j => decide (i + j ∉ bits)

/-- Whether the `n` bits from `i` are all set in `bits`. -/
def isMarkedRun (bits : Finset Nat) (i n : Nat) : Bool :=
  (List.range n).all fun j => decide (i + j ∈ bits)

/-- Modelled from the spec: `RangeTracker::FindAndMark` (`range_tracker.h` is not among the
sources). "First zero run of length >= n; sets those bits. First-fit scan from index 0;
tie-break by lowest index." Returns the index and the new bitmap, `none` for -1. -/
def FindAndMark (capacity : Nat) (bits : Finset Nat) (n : Nat) : Option (Nat × Finset Nat) :=
  match (List.range (capacity + 1 - n)).find? (fun i => isFreeRun bits i n) with
  | some i => some (i, bits ∪ Finset.Ico i (i + n))
  | none => none

/-- Modelled from the spec: `RangeTracker::Unmark(i, n)`, "clears n bits starting at i". -/
def Unmark (bits : Finset Nat) (i n : Nat) : Finset Nat :=
  bits \ Finset.Ico i (i + n)

/-- Modelled from the spec: `RangeTracker::LongestFreeRange`, the length of the longest run of
zero bits inside the capacity. -/
def LongestFreeRange (capacity : Nat) (bits : Finset Nat) : Nat :=
  Nat.findGreatest
    (fun n => (List.range (capacity + 1 - n)).any fun i => isFreeRun bits i n) capacity

/-- The maximal runs of indices in `[i, i + len)` that satisfy `pred`, in increasing order
(the iteration `NextFreeRange` performs). -/
def maximalRuns (pred : Nat → Bool) : Nat → Nat → List Range
  | 0, _ => []
  | len + 1, i =>
    if pred i then
      match maximalRuns pred len (i + 1) with
      | [] => [⟨i, 1⟩]
      | r :: rest => if r.p = i + 1 then ⟨i, r.n + 1⟩ :: rest else ⟨i, 1⟩ :: r :: rest
    else maximalRuns pred len (i + 1)

/-! ### Callbacks supplied to the filler

The callbacks act on a state `σ` owned by whoever supplies them (the harness: its globals). -/

/-- A `MemoryModifyFunction`: called on a range, reports success, may change the state. -/
abbrev MemoryModifyFunction (σ : Type) := Range → σ → Bool × σ

/-- The callbacks a `HugePageFiller` is constructed with: the clock's `now`, the two unback
callbacks and the collapse callback. (`set_anon_vma_name` has no observable effect and is
left out.) -/
structure FillerCallbacks (σ : Type) where
  now : σ → Int
  unback : MemoryModifyFunction σ
  unback_without_lock : MemoryModifyFunction σ
  collapse : MemoryModifyFunction σ

/-- The interface `PageFlagsBase`, reduced to `IsHugepageBacked` (argument: the first page of
the huge page asked about). -/
structure PageFlagsBase (σ : Type) where
  IsHugepageBacked : Nat → σ → Bool

/-- The interface `Residency`, reduced to the two members the filler uses. The bitmaps are
(unbacked, swapped). -/
structure Residency (σ : Type) where
  GetUnbackedAndSwappedBitmaps : Nat → σ → Finset Nat × Finset Nat
  GetNativePagesInHugePage : Nat

/-! ### PageTracker (modelled from the spec, sections 3 and 4.2) -/

/-- The `PageTracker` entity: one per huge page. `location` is the huge page number; it also
serves as the identity of the tracker (the harness gives every tracker a fresh one).
`bitmap` holds the allocated small-page indices, `released_bitmap` the released ones. -/
structure PageTracker where
  location : Nat
  was_donated : Bool
  alloc_time : Int
  bitmap : Finset Nat
  released_bitmap : Finset Nat
  density : AccessDensityPrediction
  nallocs : Nat
  nused_pages : Nat
  deriving DecidableEq

/-- The constructor `PageTracker(HugePage p, bool was_donated, int64 now)`: nothing allocated,
nothing released. -/
def PageTracker.create (p : Nat) (was_donated : Bool) (now : Int) : PageTracker :=
  { location := p, was_donated := was_donated, alloc_time := now, bitmap := ∅,
    released_bitmap := ∅, density := AccessDensityPrediction.kSparse, nallocs := 0,
    nused_pages := 0 }

/-- The first small page of the tracker's huge page, `location().first_page()`. -/
def PageTracker.first_page (P : Params) (t : PageTracker) : Nat :=
  t.location * P.kPagesPerHugePage

/-- Accessor `longest_free_range`. -/
def PageTracker.longest_free_range (P : Params) (t : PageTracker) : Nat :=
  LongestFreeRange P.kPagesPerHugePage t.bitmap

/-- Accessor `free_pages`: small pages of the huge page that are not allocated. -/
def PageTracker.free_pages (P : Params) (t : PageTracker) : Nat :=
  P.kPagesPerHugePage - t.nused_pages

/-- Accessor `unbroken`: no small page is in `released_bitmap`. -/
def PageTracker.unbroken (t : PageTracker) : Bool :=
  decide (t.released_bitmap = ∅)

/-- Spec, data model, invariant 3: "if `nused_pages == 0` and `nallocs == 0` it is empty". -/
def PageTracker.empty (t : PageTracker) : Bool :=
  t.nused_pages == 0 && t.nallocs == 0

/-- Spec, data model, invariant 3: "if `nused_pages == kPagesPerHugePage` the tracker is full". -/
def PageTracker.full (P : Params) (t : PageTracker) : Bool :=
  t.nused_pages == P.kPagesPerHugePage

/-- Modelled from the spec: `PageTracker::Get` (`huge_page_filler.h` is not among the sources).
"Requires `LongestFreeRange() >= n`" (otherwise the fatal range error). "Uses first-fit; updates
`nallocs`, `nused_pages`, density, and invalidates release bits for the carved range. The
returned range is a contiguous subrange of this huge page." -/
def PageTracker.Get (P : Params) (t : PageTracker) (n : Nat) (info : SpanAllocInfo) :
    Except Failure (PageTracker × Range) :=
  if t.longest_free_range P < n then .error Failure.range_error
  else
    match FindAndMark P.kPagesPerHugePage t.bitmap n with
    | none => .error Failure.range_error
    | some (i, bits) =>
      .ok ({ t with
              bitmap := bits
              released_bitmap := t.released_bitmap \ Finset.Ico i (i + n)
              density := info.density
              nallocs := t.nallocs + 1
              nused_pages := t.nused_pages + n },
           ⟨t.first_page P + i, n⟩)

/-- Modelled from the spec: `PageTracker::Put`. "Releases bits; returns true iff the tracker
became empty." A range that does not lie in this huge page, or whose bits are not all
allocated, is the fatal "`Put` on a range not currently allocated". -/
def PageTracker.Put (P : Params) (t : PageTracker) (r : Range) (_info : SpanAllocInfo) :
    Except Failure (PageTracker × Bool) :=
  if r.p < t.first_page P ∨ t.first_page P + P.kPagesPerHugePage < r.p + r.n then
    .error Failure.double_free
  else if isMarkedRun t.bitmap (r.p - t.first_page P) r.n = false then
    .error Failure.double_free
  else
    let t' : PageTracker :=
      { t with
          bitmap := Unmark t.bitmap (r.p - t.first_page P) r.n
          nallocs := t.nallocs - 1
          nused_pages := t.nused_pages - r.n }
    .ok (t', t'.empty)

/-- Calls `unback` on each run in turn (`first_page` turns indices into page ids); a run whose
call succeeds is added to the released bitmap and to the count, a run whose call fails is left
as it was. -/
def unbackRuns {σ : Type} (unback : MemoryModifyFunction σ) (first_page : Nat) :
    List Range → Finset Nat → Nat → σ → Finset Nat × Nat × σ
  | [], released, count, s => (released, count, s)
  | r :: rs, released, count, s =>
    match unback ⟨first_page + r.p, r.n⟩ s with
    | (true, s') =>
      unbackRuns unback first_page rs (released ∪ Finset.Ico r.p (r.p + r.n)) (count + r.n) s'
    | (false, s') => unbackRuns unback first_page rs released count s'

/-- Unbacks every maximal run of small pages that are free, not yet released, and selected by
`sel`; returns the tracker, the number of pages newly released and the callback state. -/
def PageTracker.releaseWhere {σ : Type} (P : Params) (unback : MemoryModifyFunction σ)
    (sel : Nat → Bool) (t : PageTracker) (s : σ) : PageTracker × Nat × σ :=
  let runs := maximalRuns
    (fun i => decide (i ∉ t.bitmap) && decide (i ∉ t.released_bitmap) && sel i)
    P.kPagesPerHugePage 0
  match unbackRuns unback (t.first_page P) runs t.released_bitmap 0 s with
  | (released, count, s') => ({ t with released_bitmap := released }, count, s')

/-- Modelled from the spec: `PageTracker::ReleaseFree`. "Invokes the unback callback on every
maximal free, non-released small-page run; on success, marks those bits in `released_bitmap`
and returns total pages newly released. If the callback fails for a run, that run remains
unreleased and the tracker state is consistent." -/
def PageTracker.ReleaseFree {σ : Type} (P : Params) (unback : MemoryModifyFunction σ)
    (t : PageTracker) (s : σ) : PageTracker × Nat × σ :=
  t.releaseWhere P unback (fun _ => true) s

/-- Modelled from the spec (`TreatHugepageTrackers`): "free pages that are also swapped-out are
unbacked eagerly". Bit `i` of the swapped bitmap stands for small page `i`. -/
def PageTracker.ReleaseFreeSwapped {σ : Type} (P : Params) (unback : MemoryModifyFunction σ)
    (swapped : Finset Nat) (t : PageTracker) (s : σ) : PageTracker × Nat × σ :=
  t.releaseWhere P unback (fun i => decide (i ∈ swapped)) s

/-- What `MaybeCollapse` did. -/
inductive CollapseAction where
  | kNotAttempted
  | kCollapsed
  | kCollapseFailed
  deriving DecidableEq, Repr

/-- Modelled from the spec: `PageTracker::MaybeCollapse`. "If the huge page is currently not
backed by a real huge page, residency permits it, and `released_bitmap` is empty, invokes the
collapse callback." The tracker itself is not changed. -/
def PageTracker.MaybeCollapse {σ : Type} (P : Params) (pageflags : PageFlagsBase σ)
    (residency : Residency σ) (collapse : MemoryModifyFunction σ) (t : PageTracker) (s : σ) :
    CollapseAction × σ :=
  let maps := residency.GetUnbackedAndSwappedBitmaps (t.first_page P) s
  if !pageflags.IsHugepageBacked (t.first_page P) s &&
      P.residencyPermitsCollapse maps.1 maps.2 && t.unbroken then
    match collapse ⟨t.first_page P, P.kPagesPerHugePage⟩ s with
    | (true, s') => (CollapseAction.kCollapsed, s')
    | (false, s') => (CollapseAction.kCollapseFailed, s')
  else (CollapseAction.kNotAttempted, s)

/-! ### HugePageFiller (modelled from the spec, sections 3 and 4.3-4.4)

The filler owns a population of trackers. The bucket a tracker belongs to is determined by the
tracker's own state ("the PageTracker itself exposes the inputs, the filler computes the
classification"), so the model keeps one list and computes the buckets from it. A tracker
pointer is represented by the tracker's `location`. -/

/-- One call of `Contribute`: the tracker as it was handed over, the `donated` argument (the
list the tracker was asked to join) and the `SpanAllocInfo` argument. -/
structure Contribution where
  tracker : PageTracker
  donated : Bool
  info : SpanAllocInfo

/-- The `HugePageFiller` entity: the owned trackers, the demand history of the subrelease
policy, and the calls of `Contribute` so far (which list each contributed tracker joined, and
with which `SpanAllocInfo`). -/
structure HugePageFiller where
  sparse_tracker_type : HugePageFillerSparseTrackerType
  trackers : List PageTracker
  history : List DemandSample
  contributed : List Contribution

/-- A filler as constructed: it owns nothing. -/
def HugePageFiller.create (ty : HugePageFillerSparseTrackerType) : HugePageFiller :=
  { sparse_tracker_type := ty, trackers := [], history := [], contributed := [] }

/-- The result of `TryGet`: `pt` is the tracker pointer (`none` for null) and `page` the first
page of the carved range. -/
structure TryGetResult where
  pt : Option Nat
  page : Nat
  deriving DecidableEq, Repr

/-- Modelled from the spec: `size()`, "the number of PageTrackers it owns". -/
def HugePageFiller.size (f : HugePageFiller) : Nat :=
  f.trackers.length

/-- Modelled from the spec: `used_pages()`, the allocated small pages of all owned trackers. -/
def HugePageFiller.used_pages (f : HugePageFiller) : Nat :=
  (f.trackers.map fun t => t.nused_pages).sum

/-- Modelled from the spec: `unmapped_pages()`, "the sum over owned trackers of
`popcount(released_bitmap)`". -/
def HugePageFiller.unmapped_pages (f : HugePageFiller) : Nat :=
  (f.trackers.map fun t => t.released_bitmap.card).sum

/-- Modelled from the spec: `free_pages()`, the small pages of owned huge pages that are neither
used nor unmapped. -/
def HugePageFiller.free_pages (P : Params) (f : HugePageFiller) : Nat :=
  f.size * P.kPagesPerHugePage - f.used_pages - f.unmapped_pages

/-- Spec, bucket model: a tracker is partial when it "has free pages but is not empty". -/
def PageTracker.partlyUsed (P : Params) (t : PageTracker) : Bool :=
  decide (0 < t.free_pages P) && !t.empty

/-- Modelled from the spec: `FreePagesInPartialAllocs()`, the free (not used, not unmapped)
small pages of the partial trackers. -/
def HugePageFiller.FreePagesInPartialAllocs (P : Params) (f : HugePageFiller) : Nat :=
  ((f.trackers.filter fun t => t.partlyUsed P).map fun t =>
    P.kPagesPerHugePage - t.nused_pages - t.released_bitmap.card).sum

/-- Whether `a` is to be preferred to `b` when carving: more used pages first, ties broken by
the lowest address. -/
def moreFull (a b : PageTracker) : Bool :=
  decide (b.nused_pages < a.nused_pages) ||
    (decide (a.nused_pages = b.nused_pages) && decide (a.location ≤ b.location))

/-- The most full tracker of a list (lowest address among equally full ones). -/
def mostFull : List PageTracker → Option PageTracker
  | [] => none
  | t :: ts =>
    match mostFull ts with
    | none => some t
    | some u => if moreFull t u then some t else some u

/-- Modelled from the spec: the selection priority of `TryGet`.
1. "Donated list first for large-ish sparse requests (`n > kPagesPerHugePage/2`): carve from
   the most-full donated tracker that fits."
2. "Regular lists matching density": (a) trackers already released whose LFR is at least `n`,
   (b) otherwise the most-full unreleased tracker with LFR at least `n`.
3. With no regular tracker that fits, a sparse request is still served from a donated tracker
   that fits (end-to-end scenario 3). Otherwise nothing is selected.
The spec does not say how the sparse tracker kind changes the order; the model orders by
occupancy for both kinds. -/
def HugePageFiller.select (P : Params) (f : HugePageFiller) (n : Nat) (info : SpanAllocInfo) :
    Option PageTracker :=
  let fit := f.trackers.filter fun t => decide (n ≤ t.longest_free_range P)
  let donated := fit.filter fun t => t.was_donated
  let regular := fit.filter fun t => !t.was_donated && decide (t.density = info.density)
  let sparse := decide (info.density = AccessDensityPrediction.kSparse)
  match (if sparse && decide (P.kPagesPerHugePage / 2 < n) then mostFull donated else none) with
  | some t => some t
  | none =>
    match mostFull (regular.filter fun t => !t.unbroken) with
    | some t => some t
    | none =>
      match mostFull (regular.filter fun t => t.unbroken) with
      | some t => some t
      | none => if sparse then mostFull donated else none

/-- Replaces the tracker at the location of `t'` by `t'`. -/
def replaceTracker (t' : PageTracker) (ts : List PageTracker) : List PageTracker :=
  ts.map fun t => if t.location = t'.location then t' else t

/-- Removes the tracker at location `loc`. -/
def removeTracker (loc : Nat) (ts : List PageTracker) : List PageTracker :=
  ts.filter fun t => decide (t.location ≠ loc)

/-- Modelled from the spec: `HugePageFiller::TryGet`. Selects a tracker by the priority above;
"on success, the tracker is removed from its current bucket, `Get` is called on it, then it is
re-filed"; "if nothing fits, return `(null, _)`". -/
def HugePageFiller.TryGet (P : Params) (f : HugePageFiller) (n : Nat) (info : SpanAllocInfo) :
    Except Failure (HugePageFiller × TryGetResult) :=
  match f.select P n info with
  | none => .ok (f, { pt := none, page := 0 })
  | some t =>
    match t.Get P n info with
    | .error e => .error e
    | .ok (t', r) =>
      .ok ({ f with trackers := replaceTracker t' f.trackers },
           { pt := some t.location, page := r.p })

/-- Modelled from the spec: `HugePageFiller::Contribute`. "Transfers ownership to the filler.
If `donated`, tracker joins the donated list. Otherwise, joins regular-sparse or regular-dense
according to `alloc_info.density`." The list joined and the `SpanAllocInfo` are kept in
`contributed`. After the first mutating call the bucket is the sticky one "per `was_donated`"
(spec, bucket model), which is what `select` reads. -/
def HugePageFiller.Contribute (f : HugePageFiller) (t : PageTracker) (donated : Bool)
    (info : SpanAllocInfo) : HugePageFiller :=
  { f with
      trackers := f.trackers ++ [{ t with density := info.density }]
      contributed := f.contributed ++ [{ tracker := t, donated := donated, info := info }] }

/-- Modelled from the spec: `HugePageFiller::Put`. "Removes the tracker from its current bucket,
calls `PageTracker::Put`. If the huge page becomes entirely empty, removes the tracker from the
filler and returns it to the caller. Otherwise refiles." A tracker the filler does not own is
fatal. The result is the new filler and the returned tracker (`none` for null). -/
def HugePageFiller.Put (P : Params) (f : HugePageFiller) (pt : Nat) (r : Range)
    (info : SpanAllocInfo) : Except Failure (HugePageFiller × Option PageTracker) :=
  match f.trackers.find? (fun t => decide (t.location = pt)) with
  | none => .error Failure.not_owned
  | some t =>
    match t.Put P r info with
    | .error e => .error e
    | .ok (t', true) => .ok ({ f with trackers := removeTracker pt f.trackers }, some t')
    | .ok (t', false) => .ok ({ f with trackers := replaceTracker t' f.trackers }, none)

/-- Release priority order: "released trackers before unreleased, dense before sparse, emptier
before fuller, oldest before newest". -/
def releaseBefore (a b : PageTracker) : Bool :=
  if a.unbroken ≠ b.unbroken then !a.unbroken
  else if a.density ≠ b.density then decide (a.density = AccessDensityPrediction.kDense)
  else if a.nused_pages ≠ b.nused_pages then decide (a.nused_pages < b.nused_pages)
  else decide (a.alloc_time ≤ b.alloc_time)

/-- Walks the trackers in the given order and invokes `ReleaseFree` on each "until the allowed
count is reached". `released` is the number of pages released so far. -/
def releaseWalk {σ : Type} (P : Params) (unback : MemoryModifyFunction σ) (allowed : Nat) :
    List PageTracker → Nat → σ → List PageTracker × Nat × σ
  | [], released, s => ([], released, s)
  | t :: ts, released, s =>
    if allowed ≤ released then (t :: ts, released, s)
    else
      match t.ReleaseFree P unback s with
      | (t', n, s') =>
        match releaseWalk P unback allowed ts (released + n) s' with
        | (ts', total, s'') => (t' :: ts', total, s'')

/-- The least number of pages that is at least `kPartialAllocPagesRelease * free`. -/
def partialAllocPagesTarget (P : Params) (free : Nat) : Nat :=
  (P.kPartialAllocPagesReleaseNum * free + (P.kPartialAllocPagesReleaseDen - 1)) /
    P.kPartialAllocPagesReleaseDen

/-- Modelled from the spec: the first two steps of `HugePageFiller::ReleasePages`, the number of
pages the call is allowed to release.
1. With `release_partial_allocs` the number of pages to release is raised to what the guarantee
   "released >= `kPartialAllocPagesRelease` x `free_pages_in_partial_allocs`" asks for.
2. The subrelease policy is consulted ("skipped if `hit_limit`"; disabled when all intervals
   are zero): it "permits releasing at most `max(0, F - K)` but never more than `D`". -/
def HugePageFiller.allowedToRelease (P : Params) (f : HugePageFiller) (now : Int)
    (desired : Nat) (intervals : SkipSubreleaseIntervals) (release_partial_allocs : Bool)
    (hit_limit : Bool) : Nat :=
  let target :=
    if release_partial_allocs then
      max desired (partialAllocPagesTarget P (f.FreePagesInPartialAllocs P))
    else desired
  if hit_limit || !intervals.SkipSubreleaseEnabled then target
  else min target (f.free_pages P - P.demandFloor f.history intervals now)

/-- Modelled from the spec: `HugePageFiller::ReleasePages`. After the allowed count has been
determined (`allowedToRelease`), the trackers are walked in release priority order,
`ReleaseFree` on each, "until the allowed count is reached". A demand sample is recorded at
each call. Returns the filler, the number of pages released and the callback state. -/
def HugePageFiller.ReleasePages {σ : Type} (P : Params) (cb : FillerCallbacks σ)
    (f : HugePageFiller) (desired : Nat) (intervals : SkipSubreleaseIntervals)
    (release_partial_allocs : Bool) (hit_limit : Bool) (s : σ) : HugePageFiller × Nat × σ :=
  let allowed :=
    f.allowedToRelease P (cb.now s) desired intervals release_partial_allocs hit_limit
  let sample : DemandSample :=
    { time := cb.now s, used_pages := f.used_pages, free_pages := f.free_pages P }
  match releaseWalk P cb.unback allowed
      (f.trackers.insertionSort fun a b => releaseBefore a b = true) 0 s with
  | (ts, released, s') => ({ f with trackers := ts, history := sample :: f.history }, released, s')

/-- What `TreatHugepageTrackers` does to one tracker: "if `enable_release_free_swapped`: query
residency bitmaps; free pages that are also swapped-out are unbacked eagerly. If
`enable_collapse`: call `MaybeCollapse`." -/
def treatTracker {σ : Type} (P : Params) (cb : FillerCallbacks σ) (enable_collapse : Bool)
    (enable_release_free_swapped : Bool) (pageflags : PageFlagsBase σ) (residency : Residency σ)
    (t : PageTracker) (s : σ) : PageTracker × σ :=
  let step1 : PageTracker × σ :=
    if enable_release_free_swapped then
      match t.ReleaseFreeSwapped P cb.unback_without_lock
          (residency.GetUnbackedAndSwappedBitmaps (t.first_page P) s).2 s with
      | (t', _, s') => (t', s')
    else (t, s)
  if enable_collapse then
    (step1.1, (step1.1.MaybeCollapse P pageflags residency cb.collapse step1.2).2)
  else step1

/-- Applies `treatTracker` to every tracker in turn. -/
def treatTrackers {σ : Type} (P : Params) (cb : FillerCallbacks σ) (enable_collapse : Bool)
    (enable_release_free_swapped : Bool) (pageflags : PageFlagsBase σ) (residency : Residency σ) :
    List PageTracker → σ → List PageTracker × σ
  | [], s => ([], s)
  | t :: ts, s =>
    match treatTracker P cb enable_collapse enable_release_free_swapped pageflags residency t s with
    | (t', s') =>
      match treatTrackers P cb enable_collapse enable_release_free_swapped pageflags residency
          ts s' with
      | (ts', s'') => (t' :: ts', s'')

/-- Modelled from the spec: `HugePageFiller::TreatHugepageTrackers`, "for each tracker" the
treatment above; "results of both are best-effort". -/
def HugePageFiller.TreatHugepageTrackers {σ : Type} (P : Params) (cb : FillerCallbacks σ)
    (f : HugePageFiller) (enable_collapse : Bool) (enable_release_free_swapped : Bool)
    (pageflags : PageFlagsBase σ) (residency : Residency σ) (s : σ) : HugePageFiller × σ :=
  match treatTrackers P cb enable_collapse enable_release_free_swapped pageflags residency
      f.trackers s with
  | (ts, s') => ({ f with trackers := ts }, s')

/-- Modelled from the spec: `HugePageFiller::FetchFullyFreedTracker`. A tracker that is empty
is handed to the caller (and leaves the filler); null when there is none. -/
def HugePageFiller.FetchFullyFreedTracker (f : HugePageFiller) :
    HugePageFiller × Option PageTracker :=
  match f.trackers.find? (fun t => t.empty) with
  | none => (f, none)
  | some t => ({ f with trackers := removeTracker t.location f.trackers }, some t)

/-! ### The fuzz harness (huge_page_filler_fuzz.cc) -/

/-- A byte of the fuzz input. -/
abbrev Byte := Fin 256

/-- The global mock state of the harness (huge_page_filler_fuzz.cc:51-67); `ReleasedPages` is
the set behind `ReleasedPages()`. A `Bitmap<kMaxResidencyBits>` is the set of its set bits. -/
structure Globals where
  fake_clock : Int
  unback_success : Bool
  collapse_success : Bool
  is_hugepage_backed : Bool
  unbacked_bitmap : Finset Nat
  swapped_bitmap : Finset Nat
  ReleasedPages : Finset Nat
  deriving DecidableEq

/-- Embedding of `mock_clock`. -/
def mock_clock (g : Globals) : Int :=
  g.fake_clock

/-- Embedding of `GetBitmap`: bits `[0, value % kMaxResidencyBits)` are set. -/
def GetBitmap (P : Params) (value : Nat) : Finset Nat :=
  let v := value % P.kMaxResidencyBits
  if v > 0 then Finset.range v else ∅

/-- The loop `for (; p != end; ++p) released_set.insert(p)` over the `n` pages from `p`. -/
def insertRange (set : Finset Nat) (p : Nat) : Nat → Finset Nat
  | 0 => set
  | n + 1 => insertRange (insert p set) (p + 1) n

/-- The loop `for (; p != end; ++p) released_set.erase(p)` over the `n` pages from `p`. -/
def eraseRange (set : Finset Nat) (p : Nat) : Nat → Finset Nat
  | 0 => set
  | n + 1 => eraseRange (set.erase p) (p + 1) n

/-- Embedding of `MockUnback::operator()`. -/
def MockUnback : MemoryModifyFunction Globals := fun r g =>
  if !g.unback_success then (false, g)
  else (true, { g with ReleasedPages := insertRange g.ReleasedPages r.p r.n })

/-- Embedding of `MockCollapse::operator()`. -/
def MockCollapse : MemoryModifyFunction Globals := fun _ g =>
  (g.collapse_success, g)

/-- Embedding of `FakePageFlags`. -/
def FakePageFlags : PageFlagsBase Globals :=
  { IsHugepageBacked := fun _ g => g.is_hugepage_backed }

/-- Embedding of `FakeResidency`; `kHugePageSize / kPageSize` is `kPagesPerHugePage`. -/
def FakeResidency (P : Params) : Residency Globals :=
  { GetUnbackedAndSwappedBitmaps := fun _ g => (g.unbacked_bitmap, g.swapped_bitmap)
    GetNativePagesInHugePage := P.kPagesPerHugePage }

/-- The callbacks the harness constructs its filler with (line 192): the mock clock, `unback`
twice, and `collapse`. -/
def mockCallbacks : FillerCallbacks Globals :=
  { now := mock_clock, unback := MockUnback, unback_without_lock := MockUnback,
    collapse := MockCollapse }

/-- The local and global state of one run of `FuzzFiller`. A `PageTracker*` is represented by
the location of the tracker; `allocs` is the hash map as a list of entries. -/
structure Harness where
  g : Globals
  filler : HugePageFiller
  trackers : List Nat
  allocs : List (Nat × List (Range × SpanAllocInfo))
  next_hugepage : Nat

/-- `std::clamp<size_t>(v, lo, hi)`. -/
def clamp (v lo hi : Nat) : Nat :=
  if v < lo then lo else if hi < v then hi else v

/-- `allocs[pt]`: the vector stored for `pt`, empty when there is no entry. -/
def allocsAt (allocs : List (Nat × List (Range × SpanAllocInfo))) (pt : Nat) :
    List (Range × SpanAllocInfo) :=
  match allocs.find? (fun e => decide (e.1 = pt)) with
  | some e => e.2
  | none => []

/-- Assignment to the vector `allocs[pt]` of an existing entry. -/
def allocsSet (allocs : List (Nat × List (Range × SpanAllocInfo))) (pt : Nat)
    (v : List (Range × SpanAllocInfo)) : List (Nat × List (Range × SpanAllocInfo)) :=
  allocs.map fun e => if e.1 = pt then (pt, v) else e

/-- `allocs.erase(pt)`. -/
def allocsErase (allocs : List (Nat × List (Range × SpanAllocInfo))) (pt : Nat) :
    List (Nat × List (Range × SpanAllocInfo)) :=
  allocs.filter fun e => decide (e.1 ≠ pt)

/-- `allocs[pt].push_back(a)`: appends to the vector of `pt`, creating the entry if needed. -/
def allocsPushBack (allocs : List (Nat × List (Range × SpanAllocInfo))) (pt : Nat)
    (a : Range × SpanAllocInfo) : List (Nat × List (Range × SpanAllocInfo)) :=
  if allocs.any (fun e => decide (e.1 = pt)) then allocsSet allocs pt (allocsAt allocs pt ++ [a])
  else allocs ++ [(pt, [a])]

/-- `std::swap(v[i], v.back()); v.resize(v.size() - 1)`. -/
def swapRemove {α : Type} [Inhabited α] (v : List α) (i : Nat) : List α :=
  (v.set i (v.getLastD default)).dropLast

/-- Decoding of the Allocate operation (lines 215-239): the length `n` and the
`SpanAllocInfo` passed to `TryGet`. -/
def allocateRequest (P : Params) (value : Nat) : Nat × SpanAllocInfo :=
  let n := clamp (value &&& 0xFFFF) 1 (P.kPagesPerHugePage - 1)
  let lval := value >>> 16
  let density :=
    if lval &&& 1 ≠ 0 then AccessDensityPrediction.kDense else AccessDensityPrediction.kSparse
  let num_objects := max (lval >>> 1) 1
  let num_objects := if P.kPagesPerHugePage / 2 < n then 1 else num_objects
  let density := if P.kPagesPerHugePage / 2 < n then AccessDensityPrediction.kSparse else density
  let n := if density = AccessDensityPrediction.kDense then 1 else n
  (n, { objects_per_span := num_objects, density := density })

/-- The block shared by Allocate (lines 261-271) and the tail donation (lines 429-441):
construct a tracker on the next huge page, `Get` the range from it, `Contribute` it, and push
it on `trackers`. Returns the new state, the tracker pointer and the first page. -/
def contributeNewHugePage (P : Params) (st : Harness) (n : Nat) (info : SpanAllocInfo)
    (donated : Bool) : Except Failure (Harness × Nat × Nat) :=
  match (PageTracker.create st.next_hugepage donated st.g.fake_clock).Get P n info with
  | .error e => .error e
  | .ok (t, r) =>
    .ok ({ st with
            filler := st.filler.Contribute t donated info
            trackers := st.trackers ++ [st.next_hugepage]
            next_hugepage := st.next_hugepage + 1 },
         st.next_hugepage, r.p)

/-- "Record the alloc and clear any released bits" (lines 274-280 and 443-450). -/
def recordAlloc (st : Harness) (pt page n : Nat) (info : SpanAllocInfo) : Harness :=
  { st with
      g := { st.g with ReleasedPages := eraseRange st.g.ReleasedPages page n }
      allocs := allocsPushBack st.allocs pt (⟨page, n⟩, info) }

/-- The two checks `CHECK_EQ(filler.size(), trackers.size())` and
`CHECK_EQ(filler.unmapped_pages(), released_set.size())` at lines `line` and `line + 1`. -/
def checkSizes (line : Nat) (st : Harness) : Except Failure Harness :=
  if st.filler.size ≠ st.trackers.length then .error (Failure.check line)
  else if st.filler.unmapped_pages ≠ st.g.ReleasedPages.card then .error (Failure.check (line + 1))
  else .ok st

/-- Operation 0, Allocate (lines 210-286). -/
def opAllocate (P : Params) (st : Harness) (value : Nat) : Except Failure Harness :=
  let n := (allocateRequest P value).1
  let alloc_info := (allocateRequest P value).2
  match checkSizes 242 st with
  | .error e => .error e
  | .ok _ =>
    match st.filler.TryGet P n alloc_info with
    | .error e => .error e
    | .ok (filler, result) =>
      match result.pt with
      | some pt =>
        checkSizes 282 (recordAlloc { st with filler := filler } pt result.page n alloc_info)
      | none =>
        match contributeNewHugePage P { st with filler := filler } n alloc_info
            (decide (P.kPagesPerHugePage / 2 < n)) with
        | .error e => .error e
        | .ok (st', pt, page) => checkSizes 282 (recordAlloc st' pt page n alloc_info)

/-- Operation 1, Deallocate (lines 287-335). -/
def opDeallocate (P : Params) (st : Harness) (value : Nat) : Except Failure Harness :=
  if st.trackers.isEmpty then .ok st
  else
    let lo := min (value &&& 0xFFFF) (st.trackers.length - 1)
    let pt := st.trackers.getD lo 0
    if (allocsAt st.allocs pt).isEmpty then .error (Failure.check 299)
    else
      let hi := min (value >>> 16) ((allocsAt st.allocs pt).length - 1)
      let a := (allocsAt st.allocs pt).getD hi default
      let v := swapRemove (allocsAt st.allocs pt) hi
      let last_alloc := v.isEmpty
      let allocs := if last_alloc then allocsErase st.allocs pt else allocsSet st.allocs pt v
      let trackers := if last_alloc then swapRemove st.trackers lo else st.trackers
      match st.filler.Put P pt a.1 a.2 with
      | .error e => .error e
      | .ok (filler, ret) =>
        if ret.isSome ≠ last_alloc then .error (Failure.check 318)
        else
          let released :=
            match ret with
            | some t => eraseRange st.g.ReleasedPages (t.first_page P) P.kPagesPerHugePage
            | none => st.g.ReleasedPages
          checkSizes 331
            { st with
                g := { st.g with ReleasedPages := released }
                filler := filler
                trackers := trackers
                allocs := allocs }

/-- The arguments the Release operation decodes from its value (lines 350-371). -/
structure ReleaseRequest where
  hit_limit : Bool
  intervals : SkipSubreleaseIntervals
  desired : Nat
  release_partial_allocs : Bool
  deriving DecidableEq, Repr

/-- Decoding of the Release operation (lines 350-371). -/
def releaseRequest (value : Nat) : ReleaseRequest :=
  let hit_limit := decide (value &&& 0x1 ≠ 0)
  let use_peak_interval := decide ((value >>> 1) &&& 0x1 ≠ 0)
  if use_peak_interval then
    let peak_interval_s := (value >>> 2) &&& 0xFF
    let value := value >>> 10
    { hit_limit := hit_limit
      intervals := { peak_interval := peak_interval_s, short_interval := 0, long_interval := 0 }
      desired := value &&& 0xFFF
      release_partial_allocs := decide ((value >>> 12) &&& 0x1 ≠ 0) }
  else
    let short_interval_s := (value >>> 2) &&& 0xFF
    let long_interval_s := (value >>> 10) &&& 0xFF
    let swapped := decide (short_interval_s > long_interval_s)
    let value := value >>> 18
    { hit_limit := hit_limit
      intervals :=
        { peak_interval := 0
          short_interval := if swapped then long_interval_s else short_interval_s
          long_interval := if swapped then short_interval_s else long_interval_s }
      desired := value &&& 0xFFF
      release_partial_allocs := decide ((value >>> 12) &&& 0x1 ≠ 0) }

/-- Operation 2, Release (lines 336-392). `to_release_from_partial_allocs` is the product
`kPartialAllocPagesRelease * FreePagesInPartialAllocs()` converted to `size_t`. -/
def opRelease (P : Params) (st : Harness) (value : Nat) : Except Failure Harness :=
  let req := releaseRequest value
  let to_release_from_partial_allocs :=
    P.kPartialAllocPagesReleaseNum * st.filler.FreePagesInPartialAllocs P /
      P.kPartialAllocPagesReleaseDen
  match st.filler.ReleasePages P mockCallbacks req.desired req.intervals
      req.release_partial_allocs req.hit_limit st.g with
  | (filler, released, g) =>
    if req.release_partial_allocs && !req.hit_limit &&
        !req.intervals.SkipSubreleaseEnabled && g.unback_success &&
        decide (released < to_release_from_partial_allocs) then
      .error (Failure.check 389)
    else .ok { st with g := g, filler := filler }

/-- Operation 3, Advance clock (lines 393-399). -/
def opAdvanceClock (st : Harness) (value : Nat) : Harness :=
  { st with g := { st.g with fake_clock := st.g.fake_clock + (value : Int) } }

/-- Operation 4, Toggle unback (lines 400-406). -/
def opToggleUnback (st : Harness) : Harness :=
  { st with g := { st.g with unback_success := !st.g.unback_success } }

/-- Operation 6, tail donation (lines 419-455). -/
def opDonateTail (P : Params) (st : Harness) (value : Nat) : Except Failure Harness :=
  let n := clamp (value &&& 0xFFFF) 1 (P.kPagesPerHugePage - 1)
  let info : SpanAllocInfo :=
    { objects_per_span := 1, density := AccessDensityPrediction.kSparse }
  match contributeNewHugePage P st n info true with
  | .error e => .error e
  | .ok (st', pt, start) => checkSizes 452 (recordAlloc st' pt start n info)

/-- Operation 7, release on a memory limit hit (lines 456-474). -/
def opReleaseHitLimit (P : Params) (st : Harness) (value : Nat) : Except Failure Harness :=
  let desired := value &&& 0xFF
  let free := st.filler.free_pages P
  match st.filler.ReleasePages P mockCallbacks desired
      { peak_interval := 0, short_interval := 0, long_interval := 0 } false true st.g with
  | (filler, released, g) =>
    let expected := if g.unback_success then min free desired else 0
    if released < expected then .error (Failure.check 472)
    else .ok { st with g := g, filler := filler }

/-- Operation 10, `TreatHugepageTrackers` followed by the check that
`FetchFullyFreedTracker()` is null (lines 502-512). -/
def opTreatHugepageTrackers (P : Params) (st : Harness) (value : Nat) :
    Except Failure Harness :=
  let enable_collapse := decide (value &&& 0x1 ≠ 0)
  let enable_release_free_swap := decide ((value >>> 1) &&& 0x1 ≠ 0)
  match st.filler.TreatHugepageTrackers P mockCallbacks enable_collapse
      enable_release_free_swap FakePageFlags (FakeResidency P) st.g with
  | (filler, g) =>
    match filler.FetchFullyFreedTracker with
    | (filler', none) => .ok { st with g := g, filler := filler' }
    | (_, some _) => .error (Failure.check 510)

/-- Operation 11, set the page flags and residency mocks (lines 513-526). -/
def opSetResidency (P : Params) (st : Harness) (value : Nat) : Harness :=
  if value &&& 0x1 ≠ 0 then
    { st with g := { st.g with is_hugepage_backed := true, unbacked_bitmap := ∅,
                                swapped_bitmap := ∅ } }
  else
    { st with g := { st.g with
        is_hugepage_backed := false
        unbacked_bitmap := GetBitmap P ((value >>> 1) &&& 0x01FF)
        swapped_bitmap := GetBitmap P (((value >>> 1) >>> 9) &&& 0x01FF) } }

/-- Operation 12, Toggle collapse success (lines 527-531). -/
def opToggleCollapse (st : Harness) : Harness :=
  { st with g := { st.g with collapse_success := !st.g.collapse_success } }

/-- One iteration of the operation loop: `switch (op & 0xF)` (lines 209-532). Operations 5, 8
and 9 gather statistics and leave the filler, the bookkeeping and the globals as they are;
13, 14 and 15 have no case. -/
def step (P : Params) (st : Harness) (op value : Nat) : Except Failure Harness :=
  if op &&& 0xF = 0 then opAllocate P st value
  else if op &&& 0xF = 1 then opDeallocate P st value
  else if op &&& 0xF = 2 then opRelease P st value
  else if op &&& 0xF = 3 then .ok (opAdvanceClock st value)
  else if op &&& 0xF = 4 then .ok (opToggleUnback st)
  else if op &&& 0xF = 6 then opDonateTail P st value
  else if op &&& 0xF = 7 then opReleaseHitLimit P st value
  else if op &&& 0xF = 10 then opTreatHugepageTrackers P st value
  else if op &&& 0xF = 11 then .ok (opSetResidency P st value)
  else if op &&& 0xF = 12 then .ok (opToggleCollapse st)
  else .ok st

/-- The operations of an input after its three initial bytes: five bytes at a time, the first
is `op`, the next four are `value` (`memcpy` into a `uint32_t`, little-endian); a trailing
group of fewer than five bytes is ignored (`i + 5 <= size`). -/
def decodeOps : List Byte → List (Nat × Nat)
  | op :: b0 :: b1 :: b2 :: b3 :: rest =>
    (op.val, b0.val + 256 * b1.val + 65536 * b2.val + 16777216 * b3.val) :: decodeOps rest
  | _ => []

/-- Runs the given operations in order, stopping at the first failure. -/
def runOps (P : Params) : Harness → List (Nat × Nat) → Except Failure Harness
  | st, [] => .ok st
  | st, (op, value) :: ops =>
    match step P st op value with
    | .error e => .error e
    | .ok st' => runOps P st' ops

/-- The state at the loop head of the first iteration (lines 154-202): `fake_clock`,
`unback_success` and the released set are reset, the other globals keep the values `g` they
had; the sparse tracker type comes from byte 1. -/
def initialHarness (g : Globals) (s : List Byte) : Harness :=
  { g := { g with fake_clock := 0, unback_success := true, ReleasedPages := ∅ }
    filler := HugePageFiller.create
      (if 128 ≤ (s.getD 1 0).val then HugePageFillerSparseTrackerType.kExactLongestFreeRange
       else HugePageFillerSparseTrackerType.kCoarseLongestFreeRange)
    trackers := []
    allocs := []
    next_hugepage := 1 }

/-- The state of the harness after the first `k` operations of input `s` (after all of them
when there are fewer), started with the globals `g`. -/
def stateAfter (P : Params) (g : Globals) (s : List Byte) (k : Nat) : Except Failure Harness :=
  runOps P (initialHarness g s) ((decodeOps (s.drop 3)).take k)

/-- The inner shutdown loop (lines 538-546): `Put` every allocation of `pt` back and check that
exactly the last `Put` returns a tracker. Returns the filler and what each `Put` returned (the
location of the returned tracker, `none` for null). -/
def putAll (P : Params) (pt : Nat) :
    List (Range × SpanAllocInfo) → HugePageFiller →
      Except Failure (HugePageFiller × List (Option Nat))
  | [], f => .ok (f, [])
  | a :: rest, f =>
    match f.Put P pt a.1 a.2 with
    | .error e => .error e
    | .ok (f', ret) =>
      if ret.isSome ≠ rest.isEmpty then .error (Failure.check 545)
      else
        match putAll P pt rest f' with
        | .error e => .error e
        | .ok (f'', rets) => .ok (f'', ret.map (fun t => t.location) :: rets)

/-- The outer shutdown loop (lines 537-549) over the entries of `allocs`. Returns the filler
and, for every entry, its tracker and what its `Put`s returned. -/
def shutdownLoop (P : Params) :
    List (Nat × List (Range × SpanAllocInfo)) → HugePageFiller →
      Except Failure (HugePageFiller × List (Nat × List (Option Nat)))
  | [], f => .ok (f, [])
  | (pt, v) :: rest, f =>
    match putAll P pt v f with
    | .error e => .error e
    | .ok (f', rets) =>
      match shutdownLoop P rest f' with
      | .error e => .error e
      | .ok (f'', log) => .ok (f'', (pt, rets) :: log)

/-- What a completed run of `FuzzFiller` leaves behind: the state at the end of the operation
loop, the filler after the shutdown loop, and the log of the shutdown `Put`s. -/
structure FuzzResult where
  atShutdown : Harness
  filler : HugePageFiller
  puts : List (Nat × List (Option Nat))

/-- Embedding of `FuzzFiller` (lines 139-552). `g` holds the values of the globals when the
function is entered. The result is `none` when the input is rejected by the size guard. -/
def FuzzFiller (P : Params) (g : Globals) (s : List Byte) : Except Failure (Option FuzzResult) :=
  if s.length ≤ 3 ∨ s.length > 100000 then .ok none
  else
    match runOps P (initialHarness g s) (decodeOps (s.drop 3)) with
    | .error e => .error e
    | .ok st =>
      if st.g.ReleasedPages.card ≠ st.filler.unmapped_pages then .error (Failure.check 536)
      else
        match shutdownLoop P st.allocs st.filler with
        | .error e => .error e
        | .ok (filler, log) =>
          if filler.size ≠ 0 then .error (Failure.check 551)
          else .ok (some { atShutdown := st, filler := filler, puts := log })

/-! ### Invariants of the harness and the filler -/

/-- The pages (as page ids) that tracker `t` holds released. -/
def PageTracker.releasedPages (P : Params) (t : PageTracker) : Finset Nat :=
  t.released_bitmap.image fun i => t.first_page P + i

/-- The pages that the trackers of a list hold released. -/
def releasedPagesOf (P : Params) : List PageTracker → Finset Nat
  | [] => ∅
  | t :: ts => t.releasedPages P ∪ releasedPagesOf P ts

/-- Well-formedness of a tracker (spec, data model, invariant 1): both bitmaps are within the
huge page, no page is both allocated and released, and `nused_pages` is the popcount of the
allocation bitmap. -/
structure PageTracker.WF (P : Params) (t : PageTracker) : Prop where
  bitmap_lt : ∀ i ∈ t.bitmap, i < P.kPagesPerHugePage
  released_lt : ∀ i ∈ t.released_bitmap, i < P.kPagesPerHugePage
  disjoint : ∀ i ∈ t.released_bitmap, i ∉ t.bitmap
  nused : t.nused_pages = t.bitmap.card

/-- The vector `v` of recorded allocations agrees with tracker `t`: the counters of the tracker
count the entries of `v` and their pages, every recorded range is nonempty, lies in the huge
page of `t` and is allocated there, and the ranges are pairwise disjoint. -/
structure AllocsAgree (P : Params) (t : PageTracker) (v : List (Range × SpanAllocInfo)) :
    Prop where
  nallocs : t.nallocs = v.length
  nused : t.nused_pages = (v.map fun a => a.1.n).sum
  inside : ∀ a ∈ v, 1 ≤ a.1.n ∧ t.first_page P ≤ a.1.p ∧
    a.1.p + a.1.n ≤ t.first_page P + P.kPagesPerHugePage ∧
    ∀ j, j < a.1.n → a.1.p - t.first_page P + j ∈ t.bitmap
  disjoint : v.Pairwise fun a b => a.1.p + a.1.n ≤ b.1.p ∨ b.1.p + b.1.n ≤ a.1.p

/-- The relation between the trackers `T` a filler owns and the bookkeeping of the harness
(the entries `A` of `allocs`, the list `L` of tracker pointers, the counter `next` of huge
pages, the released set `RP`):
the trackers are well formed, have pairwise different locations below `next`; `L` and the keys
of `A` list exactly the locations of the owned trackers; the vector recorded for a tracker
agrees with it and is not empty; and `RP` holds exactly the pages the trackers hold released. -/
structure Linked (P : Params) (T : List PageTracker)
    (A : List (Nat × List (Range × SpanAllocInfo))) (L : List Nat) (next : Nat)
    (RP : Finset Nat) : Prop where
  wf : ∀ t ∈ T, t.WF P
  nodup : (T.map fun t => t.location).Nodup
  fresh : ∀ t ∈ T, t.location < next
  trackers_perm : L.Perm (T.map fun t => t.location)
  keys_perm : (A.map fun e => e.1).Perm (T.map fun t => t.location)
  agree : ∀ e ∈ A, ∀ t ∈ T, t.location = e.1 → AllocsAgree P t e.2 ∧ e.2 ≠ []
  released : RP = releasedPagesOf P T

/-- The invariant of the operation loop: the filler and the bookkeeping are linked. -/
def Harness.Inv (P : Params) (st : Harness) : Prop :=
  Linked P st.filler.trackers st.allocs st.trackers st.next_hugepage st.g.ReleasedPages

/-- How a tracker may change while pages are released: the location stays, and whatever held of
the tracker's well-formedness and of its agreement with recorded allocations still holds. -/
def ReleasedFrom (P : Params) (t t' : PageTracker) : Prop :=
  t'.location = t.location ∧ (t.WF P → t'.WF P) ∧
    ∀ v, AllocsAgree P t v → AllocsAgree P t' v

/-- The tracker `t` after carving the `n` pages from index `i` (what `Get` leaves). -/
def PageTracker.carved (t : PageTracker) (i n : Nat) (info : SpanAllocInfo) : PageTracker :=
  { t with
      bitmap := t.bitmap ∪ Finset.Ico i (i + n)
      released_bitmap := t.released_bitmap \ Finset.Ico i (i + n)
      density := info.density
      nallocs := t.nallocs + 1
      nused_pages := t.nused_pages + n }

/-- The tracker `t` after the range `r` has been put back (what `Put` leaves). -/
def PageTracker.uncarved (P : Params) (t : PageTracker) (r : Range) : PageTracker :=
  { t with
      bitmap := Unmark t.bitmap (r.p - t.first_page P) r.n
      nallocs := t.nallocs - 1
      nused_pages := t.nused_pages - r.n }

/-- The small pages of `t` that are free, not released, and selected by `sel`. -/
def PageTracker.releasable (P : Params) (sel : Nat → Bool) (t : PageTracker) : Finset Nat :=
  (Finset.Ico 0 (0 + P.kPagesPerHugePage)).filter fun i =>
    (decide (i ∉ t.bitmap) && decide (i ∉ t.released_bitmap) && sel i) = true

/-- The tracker `t` with the pages `extra` added to its released bitmap. -/
def PageTracker.withReleased (t : PageTracker) (extra : Finset Nat) : PageTracker :=
  { t with released_bitmap := t.released_bitmap ∪ extra }

/-- The bits covered by a list of runs. -/
def runsBits : List Range → Finset Nat
  | [] => ∅
  | r :: rs => Finset.Ico r.p (r.p + r.n) ∪ runsBits rs

/-- The globals `g` with the pages `extra` added to the released set. -/
def Globals.withReleased (g : Globals) (extra : Finset Nat) : Globals :=
  { g with ReleasedPages := g.ReleasedPages ∪ extra }

/-- A small instance of the constants: 8 small pages per huge page, 16 residency bits,
`kPartialAllocPagesRelease = 1/10`, a policy that retains the free pages of the latest demand
sample, and residency that permits a collapse when nothing is swapped. -/
def tinyParams : Params :=
  { kPagesPerHugePage := 8
    kMaxResidencyBits := 16
    kPartialAllocPagesReleaseNum := 1
    kPartialAllocPagesReleaseDen := 10
    demandFloor := fun h _ _ => match h with
      | [] => 0
      | x :: _ => x.free_pages
    residencyPermitsCollapse := fun _ swapped => decide (swapped = ∅) }

/-- Values of the globals as an earlier run may have left them. -/
def exampleGlobals : Globals :=
  { fake_clock := 5
    unback_success := false
    collapse_success := true
    is_hugepage_backed := false
    unbacked_bitmap := {1, 2}
    swapped_bitmap := {0, 1, 2, 3, 4, 5, 6, 7}
    ReleasedPages := {77} }

/-- A fuzz input: three initial bytes, then Allocate 3 pages, Allocate 2 pages, Allocate 6
pages, Release (with partial allocs), `TreatHugepageTrackers`, Release on a hit limit,
Deallocate (tracker 0, allocation 1), Allocate 1 page. -/
def exampleInput : List Byte :=
  [0, 200, 0,
   0, 3, 0, 0, 0,
   0, 2, 0, 0, 0,
   0, 6, 0, 0, 0,
   2, 0, 0, 144, 65,
   10, 3, 0, 0, 0,
   7, 255, 0, 0, 0,
   1, 0, 0, 1, 0,
   0, 1, 0, 0, 0]

/-! ### The huge region option (huge_page_aware_allocator.cc:71-110) -/

/-- The enumeration `HugeRegionUsageOption` (declared in `huge_region.h`, which is not among
the sources), with the two values the source names. -/
inductive HugeRegionUsageOption where
  | kDefault
  | kUseForAllLargeAllocs
  deriving DecidableEq, Repr

/-- Embedding of `use_huge_region_more_often` (huge_page_aware_allocator.cc:74-95).
`linked` says whether the weak symbol `default_want_disable_huge_region_more_often` is linked
(the function only compares its address with null); `e` is the result of
`thread_safe_getenv("TCMALLOC_USE_HUGE_REGION_MORE_OFTEN_DISABLE")`, `none` for a null
pointer. `TC_BUG` does not return; it is the error `Failure.tc_bug`. -/
def use_huge_region_more_often (linked : Bool) (e : Option (List Char)) : Except Failure Bool :=
  if linked then .ok false
  else
    match e with
    | some s =>
      if firstChar s = '0' then .ok true
      else if firstChar s = '1' then .ok false
      else .error Failure.tc_bug
    | none => .ok true

/-- Embedding of `huge_region_option` (huge_page_aware_allocator.cc:97-110). -/
def huge_region_option (linked : Bool) (e : Option (List Char)) :
    Except Failure HugeRegionUsageOption :=
  match use_huge_region_more_often linked e with
  | .error err => .error err
  | .ok more_often =>
    .ok (if more_often then HugeRegionUsageOption.kUseForAllLargeAllocs
         else HugeRegionUsageOption.kDefault)

/-! ### More of the fuzz harness -/

/-- The globals as their initializers leave them (huge_page_filler_fuzz.cc:53-58 and the empty
set of `ReleasedPages()`): the values at the first call of `FuzzFiller` in a process. -/
def freshGlobals : Globals :=
  { fake_clock := 0
    unback_success := true
    collapse_success := true
    is_hugepage_backed := true
    unbacked_bitmap := ∅
    swapped_bitmap := ∅
    ReleasedPages := ∅ }

/-- The number of pages operation 7 asks `ReleasePages` for (line 460). -/
def hitLimitDesired (value : Nat) : Nat :=
  value &&& 0xFF

/-- The `donated` flag of the Allocate operation (line 260), computed from the length that is
passed to `TryGet`. -/
def allocateDonated (P : Params) (value : Nat) : Bool :=
  decide (P.kPagesPerHugePage / 2 < (allocateRequest P value).1)

/-- A fuzz input: three initial bytes, then Allocate 3 pages, `TreatHugepageTrackers` with
both options enabled, Release on a hit limit with 255 pages desired. -/
def replayInput : List Byte :=
  [0, 200, 0,
   0, 3, 0, 0, 0,
   10, 3, 0, 0, 0,
   7, 255, 0, 0, 0]

/-- A fuzz input: three initial bytes, then operation 11 with the value `0x2000` (not
hugepage backed, nothing unbacked, the first 8 pages swapped) and operation 12 (toggle
collapse success). -/
def residencyInput : List Byte :=
  [0, 0, 0,
   11, 0, 32, 0, 0,
   12, 0, 0, 0, 0]

/-- The values of the globals after `FuzzFiller` has run on `s` from the values `g`: the
globals are file-scope variables, so these are the values the next call in the same process
starts from. The shutdown loop does not write them; a rejected input leaves them as they
are. -/
def globalsAfter (P : Params) (g : Globals) (s : List Byte) : Globals :=
  match FuzzFiller P g s with
  | .ok (some r) => r.atShutdown.g
  | _ => g

/-- A fuzz input: three initial bytes, then Allocate 3 pages and Release on a hit limit with
the value `0x100`. -/
def hitLimitInput : List Byte :=
  [0, 200, 0,
   0, 3, 0, 0, 0,
   7, 0, 1, 0, 0]

/-- Whether an integer is a value of `int64_t`, the type of `fake_clock` (line 53). -/
def isInt64 (x : Int) : Bool :=
  decide (-(2 : Int) ^ 63 ≤ x) && decide (x < (2 : Int) ^ 63)

/-- No tracker the filler owns has a construction time later than the clock. -/
def Harness.TimesOk (st : Harness) : Prop :=
  ∀ t ∈ st.filler.trackers, t.alloc_time ≤ st.g.fake_clock

/-- A call of `Contribute` whose arguments fit together: the tracker was constructed with
`was_donated` equal to the `donated` argument, a donated tracker comes with one object per span
and Sparse, and a tracker that is not donated holds at most half a huge page. -/
def Contribution.Consistent (P : Params) (c : Contribution) : Prop :=
  c.tracker.was_donated = c.donated ∧
  (c.donated = true →
    c.info = { objects_per_span := 1, density := AccessDensityPrediction.kSparse }) ∧
  (c.donated = false → c.tracker.nused_pages ≤ P.kPagesPerHugePage / 2)

/-- A fuzz input: three initial bytes, then Allocate 3 pages, Advance clock by `0xFFFFFFFF`,
Allocate 6 pages, Advance clock by 1, Release on a hit limit with 255 pages desired. -/
def clockInput : List Byte :=
  [0, 200, 0,
   0, 3, 0, 0, 0,
   3, 255, 255, 255, 255,
   0, 6, 0, 0, 0,
   3, 1, 0, 0, 0,
   7, 255, 0, 0, 0]

/-! ## Part 2. Lemmas -/

/-! ### RangeTracker -/

theorem isFreeRun_iff (bits : Finset Nat) (i n : Nat) :
    isFreeRun bits i n = true ↔ ∀ j, j < n → i + j ∉ bits := by
  simp [isFreeRun, List.all_eq_true]

theorem isMarkedRun_iff (bits : Finset Nat) (i n : Nat) :
    isMarkedRun bits i n = true ↔ ∀ j, j < n → i + j ∈ bits := by
  simp [isMarkedRun, List.all_eq_true]

theorem isFreeRun_disjoint {bits : Finset Nat} {i n : Nat} (h : isFreeRun bits i n = true) :
    Disjoint bits (Finset.Ico i (i + n)) := by
  rw [Finset.disjoint_left]
  intro x hx hx'
  rw [Finset.mem_Ico] at hx'
  have := (isFreeRun_iff bits i n).1 h (x - i) (by omega)
  rw [show i + (x - i) = x by omega] at this
  exact this hx

theorem FindAndMark_some {capacity : Nat} {bits : Finset Nat} {n i : Nat} {b : Finset Nat}
    (h : FindAndMark capacity bits n = some (i, b)) :
    i + n ≤ capacity ∧ isFreeRun bits i n = true ∧ b = bits ∪ Finset.Ico i (i + n) := by
  unfold FindAndMark at h
  split at h
  · rename_i k hk
    have h1 := List.find?_some hk
    have h2 := List.mem_of_find?_eq_some hk
    rw [List.mem_range] at h2
    simp only [Option.some.injEq, Prod.mk.injEq] at h
    obtain ⟨rfl, rfl⟩ := h
    exact ⟨by omega, h1, rfl⟩
  · simp at h

theorem FindAndMark_isSome_of_free {capacity : Nat} {bits : Finset Nat} {n i : Nat}
    (hi : i + n ≤ capacity) (hfree : isFreeRun bits i n = true) :
    ∃ r, FindAndMark capacity bits n = some r := by
  unfold FindAndMark
  split
  · exact ⟨_, rfl⟩
  · rename_i hnone
    rw [List.find?_eq_none] at hnone
    have := hnone i (List.mem_range.2 (by omega))
    simp [hfree] at this

theorem isFreeRun_mono {bits : Finset Nat} {i n m : Nat} (hnm : n ≤ m)
    (h : isFreeRun bits i m = true) : isFreeRun bits i n = true := by
  rw [isFreeRun_iff] at *
  intro j hj
  exact h j (by omega)

theorem LongestFreeRange_spec (capacity : Nat) (bits : Finset Nat) :
    ∃ i, i + LongestFreeRange capacity bits ≤ capacity ∧
      isFreeRun bits i (LongestFreeRange capacity bits) = true := by
  have h0 : ((List.range (capacity + 1 - 0)).any fun i => isFreeRun bits i 0) = true := by
    rw [List.any_eq_true]
    exact ⟨0, List.mem_range.2 (by omega), by simp [isFreeRun]⟩
  have h := Nat.findGreatest_spec (P := fun n =>
    ((List.range (capacity + 1 - n)).any fun i => isFreeRun bits i n) = true)
    (Nat.zero_le capacity) h0
  have hle : LongestFreeRange capacity bits ≤ capacity := Nat.findGreatest_le capacity
  change ((List.range (capacity + 1 - LongestFreeRange capacity bits)).any fun i =>
    isFreeRun bits i (LongestFreeRange capacity bits)) = true at h
  rw [List.any_eq_true] at h
  obtain ⟨i, hi, hfree⟩ := h
  rw [List.mem_range] at hi
  exact ⟨i, by omega, hfree⟩

theorem FindAndMark_of_le_LongestFreeRange {capacity : Nat} {bits : Finset Nat} {n : Nat}
    (h : n ≤ LongestFreeRange capacity bits) : ∃ r, FindAndMark capacity bits n = some r := by
  obtain ⟨i, hi, hfree⟩ := LongestFreeRange_spec capacity bits
  exact FindAndMark_isSome_of_free (i := i) (by omega) (isFreeRun_mono h hfree)

theorem le_LongestFreeRange {capacity : Nat} {bits : Finset Nat} {n i : Nat}
    (hi : i + n ≤ capacity) (hfree : isFreeRun bits i n = true) :
    n ≤ LongestFreeRange capacity bits := by
  unfold LongestFreeRange
  apply Nat.le_findGreatest (by omega)
  simp only [List.any_eq_true, List.mem_range]
  exact ⟨i, by omega, hfree⟩

theorem LongestFreeRange_empty (capacity : Nat) : LongestFreeRange capacity ∅ = capacity := by
  apply le_antisymm (Nat.findGreatest_le capacity)
  exact le_LongestFreeRange (i := 0) (by omega) (by simp [isFreeRun])

/-! ### The loops over page ranges -/

theorem insertRange_eq (set : Finset Nat) (p n : Nat) :
    insertRange set p n = set ∪ Finset.Ico p (p + n) := by
  induction n generalizing set p with
  | zero => simp [insertRange]
  | succ n ih =>
    rw [insertRange, ih]
    ext x
    simp only [Finset.mem_union, Finset.mem_insert, Finset.mem_Ico]
    by_cases hx : x ∈ set <;> (simp only [hx, or_true, true_or, or_false, false_or]; all_goals omega)

theorem eraseRange_eq (set : Finset Nat) (p n : Nat) :
    eraseRange set p n = set \ Finset.Ico p (p + n) := by
  induction n generalizing set p with
  | zero => simp [eraseRange]
  | succ n ih =>
    rw [eraseRange, ih]
    ext x
    simp only [Finset.mem_sdiff, Finset.mem_erase, Finset.mem_Ico]
    by_cases hx : x ∈ set <;> (simp only [hx, and_true, true_and, and_false, false_and]; all_goals omega)

/-! ### Maximal runs -/

/-- The bits covered by a list of runs. -/
theorem maximalRuns_mem (pred : Nat → Bool) (len i x : Nat) :
    (∃ r ∈ maximalRuns pred len i, r.p ≤ x ∧ x < r.p + r.n) ↔
      (i ≤ x ∧ x < i + len ∧ pred x = true) := by
  induction len generalizing i with
  | zero =>
    simp only [maximalRuns, List.not_mem_nil, false_and, exists_false, false_iff]
    omega
  | succ len ih =>
    have ih' := ih (i + 1)
    unfold maximalRuns
    by_cases hp : pred i = true
    · rw [if_pos hp]
      cases hrec : maximalRuns pred len (i + 1) with
      | nil =>
        rw [hrec] at ih'
        simp only [List.mem_singleton, exists_eq_left]
        simp only [List.not_mem_nil, false_and, exists_false, false_iff] at ih'
        constructor
        · intro h
          have : x = i := by omega
          subst this
          exact ⟨le_refl _, by omega, hp⟩
        · rintro ⟨h1, h2, h3⟩
          by_contra hcon
          exact ih' ⟨by omega, by omega, h3⟩
      | cons r rest =>
        rw [hrec] at ih'
        by_cases hr : r.p = i + 1
        · simp only [hr, if_true, List.mem_cons, exists_eq_or_imp]
          simp only [List.mem_cons, exists_eq_or_imp, hr] at ih'
          constructor
          · rintro (h | h)
            · by_cases hx : x = i
              · subst hx; exact ⟨le_refl _, by omega, hp⟩
              · have := ih'.1 (Or.inl ⟨by omega, by omega⟩)
                exact ⟨by omega, by omega, this.2.2⟩
            · have := ih'.1 (Or.inr h)
              exact ⟨by omega, by omega, this.2.2⟩
          · rintro ⟨h1, h2, h3⟩
            by_cases hx : x = i
            · left; omega
            · rcases ih'.2 ⟨by omega, by omega, h3⟩ with h | h
              · left; omega
              · right; exact h
        · simp only [hr, if_false, List.mem_cons, exists_eq_or_imp]
          simp only [List.mem_cons, exists_eq_or_imp] at ih'
          constructor
          · rintro (h | h)
            · have : x = i := by omega
              subst this; exact ⟨le_refl _, by omega, hp⟩
            · have := ih'.1 h
              exact ⟨by omega, by omega, this.2.2⟩
          · rintro ⟨h1, h2, h3⟩
            by_cases hx : x = i
            · left; omega
            · right; exact ih'.2 ⟨by omega, by omega, h3⟩
    · rw [if_neg hp, ih']
      constructor
      · rintro ⟨h1, h2, h3⟩; exact ⟨by omega, by omega, h3⟩
      · rintro ⟨h1, h2, h3⟩
        have : x ≠ i := by rintro rfl; exact hp h3
        exact ⟨by omega, by omega, h3⟩

theorem maximalRuns_sum (pred : Nat → Bool) (len i : Nat) :
    ((maximalRuns pred len i).map fun r => r.n).sum =
      ((Finset.Ico i (i + len)).filter fun x => pred x = true).card := by
  induction len generalizing i with
  | zero => simp [maximalRuns]
  | succ len ih =>
    have ih' := ih (i + 1)
    have hsplit : Finset.Ico i (i + (len + 1)) = insert i (Finset.Ico (i + 1) (i + 1 + len)) := by
      ext x
      simp only [Finset.mem_Ico, Finset.mem_insert]
      omega
    rw [hsplit, Finset.filter_insert]
    unfold maximalRuns
    by_cases hp : pred i = true
    · rw [if_pos hp, if_pos hp, Finset.card_insert_of_not_mem (by simp), ← ih']
      cases hrec : maximalRuns pred len (i + 1) with
      | nil => simp
      | cons r rest =>
        by_cases hr : r.p = i + 1
        · simp only [hr, if_true, List.map_cons, List.sum_cons]; omega
        · simp only [hr, if_false, List.map_cons, List.sum_cons]; omega
    · rw [if_neg hp, if_neg hp]
      exact ih'

/-! ### PageTracker: `Get` and `Put` -/

@[simp] theorem PageTracker.carved_first_page (P : Params) (t : PageTracker) (i n : Nat)
    (info : SpanAllocInfo) : (t.carved i n info).first_page P = t.first_page P := rfl

@[simp] theorem PageTracker.uncarved_first_page (P : Params) (t : PageTracker) (r : Range) :
    (t.uncarved P r).first_page P = t.first_page P := rfl

@[simp] theorem PageTracker.withReleased_first_page (P : Params) (t : PageTracker)
    (extra : Finset Nat) : (t.withReleased extra).first_page P = t.first_page P := rfl

theorem PageTracker.create_WF (P : Params) (p : Nat) (d : Bool) (now : Int) :
    (PageTracker.create p d now).WF P := by
  constructor <;> simp [PageTracker.create]

theorem PageTracker.create_agree (P : Params) (p : Nat) (d : Bool) (now : Int) :
    AllocsAgree P (PageTracker.create p d now) [] := by
  constructor <;> simp [PageTracker.create]

theorem PageTracker.Get_eq {P : Params} {t : PageTracker} {n : Nat} (info : SpanAllocInfo)
    (hn : n ≤ t.longest_free_range P) :
    ∃ i, i + n ≤ P.kPagesPerHugePage ∧ isFreeRun t.bitmap i n = true ∧
      t.Get P n info = .ok (t.carved i n info, ⟨t.first_page P + i, n⟩) := by
  obtain ⟨⟨i, b⟩, hfm⟩ := FindAndMark_of_le_LongestFreeRange hn
  obtain ⟨h1, h2, h3⟩ := FindAndMark_some hfm
  refine ⟨i, h1, h2, ?_⟩
  unfold PageTracker.Get
  rw [if_neg (by omega), hfm]
  simp only [PageTracker.carved, h3]

theorem PageTracker.carved_WF {P : Params} {t : PageTracker} {i n : Nat} (info : SpanAllocInfo)
    (hwf : t.WF P) (hi : i + n ≤ P.kPagesPerHugePage) (hfree : isFreeRun t.bitmap i n = true) :
    (t.carved i n info).WF P := by
  constructor
  · intro x hx
    simp only [PageTracker.carved, Finset.mem_union, Finset.mem_Ico] at hx
    rcases hx with hx | hx
    · exact hwf.bitmap_lt x hx
    · omega
  · intro x hx
    simp only [PageTracker.carved, Finset.mem_sdiff] at hx
    exact hwf.released_lt x hx.1
  · intro x hx
    simp only [PageTracker.carved, Finset.mem_sdiff, Finset.mem_union] at hx ⊢
    rintro (h | h)
    · exact hwf.disjoint x hx.1 h
    · exact hx.2 h
  · simp only [PageTracker.carved]
    rw [Finset.card_union_of_disjoint (isFreeRun_disjoint hfree), Nat.card_Ico, hwf.nused]
    omega

theorem PageTracker.carved_agree {P : Params} {t : PageTracker} {i n : Nat}
    {v : List (Range × SpanAllocInfo)} (info info' : SpanAllocInfo)
    (hag : AllocsAgree P t v) (hn : 1 ≤ n) (hi : i + n ≤ P.kPagesPerHugePage)
    (hfree : isFreeRun t.bitmap i n = true) :
    AllocsAgree P (t.carved i n info) (v ++ [(⟨t.first_page P + i, n⟩, info')]) := by
  rw [isFreeRun_iff] at hfree
  constructor
  · simp [PageTracker.carved, hag.nallocs]
  · simp [PageTracker.carved, hag.nused]
  · intro a ha
    rw [List.mem_append, List.mem_singleton] at ha
    rcases ha with ha | rfl
    · obtain ⟨h1, h2, h3, h4⟩ := hag.inside a ha
      refine ⟨h1, h2, h3, fun j hj => ?_⟩
      simp only [PageTracker.carved, Finset.mem_union]
      exact Or.inl (h4 j hj)
    · refine ⟨hn, by simp, by simp; omega, fun j hj => ?_⟩
      show t.first_page P + i - t.first_page P + j ∈ t.bitmap ∪ Finset.Ico i (i + n)
      rw [Finset.mem_union, Finset.mem_Ico]
      right
      simp only at hj
      omega
  · rw [List.pairwise_append]
    refine ⟨hag.disjoint, List.pairwise_singleton _ _, ?_⟩
    intro a ha b hb
    rw [List.mem_singleton] at hb
    subst hb
    obtain ⟨h1, h2, h3, h4⟩ := hag.inside a ha
    simp only
    by_contra hcon
    push_neg at hcon
    obtain ⟨hc1, hc2⟩ := hcon
    by_cases hle : a.1.p ≤ t.first_page P + i
    · have := h4 (t.first_page P + i - a.1.p) (by omega)
      apply hfree 0 hn
      rw [show i + 0 = a.1.p - t.first_page P + (t.first_page P + i - a.1.p) by omega]
      exact this
    · have := h4 0 (by omega)
      apply hfree (a.1.p - (t.first_page P + i)) (by omega)
      rw [show i + (a.1.p - (t.first_page P + i)) = a.1.p - t.first_page P + 0 by omega]
      exact this

theorem AllocsAgree.congr_perm {P : Params} {t : PageTracker} {v w : List (Range × SpanAllocInfo)}
    (hag : AllocsAgree P t v) (hperm : v.Perm w) : AllocsAgree P t w := by
  constructor
  · rw [hag.nallocs, hperm.length_eq]
  · rw [hag.nused]
    exact (hperm.map _).sum_eq
  · intro a ha
    exact hag.inside a (hperm.mem_iff.2 ha)
  · refine (hperm.pairwise_iff ?_).1 hag.disjoint
    intro a b hab
    exact hab.symm

theorem PageTracker.Put_eq {P : Params} {t : PageTracker} {a : Range × SpanAllocInfo}
    {v : List (Range × SpanAllocInfo)} (info : SpanAllocInfo)
    (hag : AllocsAgree P t (a :: v)) :
    t.Put P a.1 info = .ok (t.uncarved P a.1, (t.uncarved P a.1).empty) := by
  obtain ⟨h1, h2, h3, h4⟩ := hag.inside a (List.mem_cons_self _ _)
  unfold PageTracker.Put
  rw [if_neg (by omega), if_neg]
  · rfl
  · rw [(isMarkedRun_iff _ _ _).2 h4]
    simp

theorem PageTracker.uncarved_agree {P : Params} {t : PageTracker} {a : Range × SpanAllocInfo}
    {v : List (Range × SpanAllocInfo)} (hag : AllocsAgree P t (a :: v)) :
    AllocsAgree P (t.uncarved P a.1) v := by
  obtain ⟨h1, h2, h3, h4⟩ := hag.inside a (List.mem_cons_self _ _)
  have hdis := List.pairwise_cons.1 hag.disjoint
  constructor
  · have := hag.nallocs
    simp only [List.length_cons] at this
    simp only [PageTracker.uncarved]
    omega
  · have := hag.nused
    simp only [List.map_cons, List.sum_cons] at this
    simp only [PageTracker.uncarved]
    omega
  · intro b hb
    obtain ⟨g1, g2, g3, g4⟩ := hag.inside b (List.mem_cons_of_mem _ hb)
    refine ⟨g1, g2, g3, fun j hj => ?_⟩
    show b.1.p - t.first_page P + j ∈
      t.bitmap \ Finset.Ico (a.1.p - t.first_page P) (a.1.p - t.first_page P + a.1.n)
    rw [Finset.mem_sdiff, Finset.mem_Ico]
    refine ⟨g4 j hj, ?_⟩
    have := hdis.1 b hb
    omega
  · exact hdis.2

theorem PageTracker.uncarved_WF {P : Params} {t : PageTracker} {a : Range × SpanAllocInfo}
    {v : List (Range × SpanAllocInfo)} (hwf : t.WF P) (hag : AllocsAgree P t (a :: v)) :
    (t.uncarved P a.1).WF P := by
  obtain ⟨h1, h2, h3, h4⟩ := hag.inside a (List.mem_cons_self _ _)
  constructor
  · intro x hx
    simp only [PageTracker.uncarved, Unmark, Finset.mem_sdiff] at hx
    exact hwf.bitmap_lt x hx.1
  · exact hwf.released_lt
  · intro x hx
    simp only [PageTracker.uncarved, Unmark, Finset.mem_sdiff] at hx ⊢
    intro h
    exact hwf.disjoint x hx h.1
  · simp only [PageTracker.uncarved, Unmark]
    have hsub : Finset.Ico (a.1.p - t.first_page P) (a.1.p - t.first_page P + a.1.n) ⊆
        t.bitmap := by
      intro x hx
      rw [Finset.mem_Ico] at hx
      have := h4 (x - (a.1.p - t.first_page P)) (by omega)
      rw [show a.1.p - t.first_page P + (x - (a.1.p - t.first_page P)) = x by omega] at this
      exact this
    rw [Finset.card_sdiff hsub, Nat.card_Ico, hwf.nused]
    omega

theorem PageTracker.uncarved_empty_iff {P : Params} {t : PageTracker}
    {a : Range × SpanAllocInfo} {v : List (Range × SpanAllocInfo)}
    (hag : AllocsAgree P t (a :: v)) : (t.uncarved P a.1).empty = v.isEmpty := by
  have h := PageTracker.uncarved_agree hag
  cases v with
  | nil =>
    have h1 := h.nallocs
    have h2 := h.nused
    simp only [List.length_nil, List.map_nil, List.sum_nil] at h1 h2
    simp [PageTracker.empty, h1, h2]
  | cons b v =>
    have h1 := h.nallocs
    simp only [List.length_cons] at h1
    simp [PageTracker.empty, h1]

theorem AllocsAgree.tracker_nonempty {P : Params} {t : PageTracker}
    {v : List (Range × SpanAllocInfo)} (hag : AllocsAgree P t v) (hv : v ≠ []) :
    t.empty = false := by
  cases v with
  | nil => exact absurd rfl hv
  | cons b v =>
    have h1 := hag.nallocs
    simp only [List.length_cons] at h1
    simp [PageTracker.empty, h1]

/-! ### Releasing pages through `MockUnback` -/

theorem mem_runsBits (runs : List Range) (x : Nat) :
    x ∈ runsBits runs ↔ ∃ r ∈ runs, r.p ≤ x ∧ x < r.p + r.n := by
  induction runs with
  | nil => simp [runsBits]
  | cons r rs ih => simp [runsBits, ih, Finset.mem_Ico]

theorem runsBits_maximalRuns (pred : Nat → Bool) (len i : Nat) :
    runsBits (maximalRuns pred len i) =
      (Finset.Ico i (i + len)).filter fun x => pred x = true := by
  ext x
  rw [mem_runsBits, maximalRuns_mem, Finset.mem_filter, Finset.mem_Ico]
  tauto

@[simp] theorem Globals.withReleased_nothing (g : Globals) : g.withReleased ∅ = g := by
  simp [Globals.withReleased]

@[simp] theorem Globals.withReleased_withReleased (g : Globals) (a b : Finset Nat) :
    (g.withReleased a).withReleased b = g.withReleased (a ∪ b) := by
  simp [Globals.withReleased, Finset.union_assoc]

@[simp] theorem PageTracker.withReleased_none (t : PageTracker) : t.withReleased ∅ = t := by
  simp [PageTracker.withReleased]

theorem MockUnback_success {g : Globals} (hs : g.unback_success = true) (r : Range) :
    MockUnback r g = (true, g.withReleased (Finset.Ico r.p (r.p + r.n))) := by
  simp [MockUnback, hs, insertRange_eq, Globals.withReleased]

theorem MockUnback_failure {g : Globals} (hs : g.unback_success = false) (r : Range) :
    MockUnback r g = (false, g) := by
  simp [MockUnback, hs]

theorem unbackRuns_mock_success (first_page : Nat) (runs : List Range) (released : Finset Nat)
    (count : Nat) {g : Globals} (hs : g.unback_success = true) :
    unbackRuns MockUnback first_page runs released count g =
      (released ∪ runsBits runs, count + (runs.map fun r => r.n).sum,
        g.withReleased ((runsBits runs).image fun i => first_page + i)) := by
  induction runs generalizing released count g with
  | nil => simp [unbackRuns, runsBits]
  | cons r rs ih =>
    unfold unbackRuns
    rw [MockUnback_success hs]
    simp only
    rw [ih _ _ (g := g.withReleased _) (by simpa [Globals.withReleased] using hs)]
    simp only [runsBits, Finset.image_union, Globals.withReleased_withReleased,
      Finset.union_assoc, List.map_cons, List.sum_cons, Nat.add_assoc, Finset.image_add_left_Ico]

theorem unbackRuns_mock_failure (first_page : Nat) (runs : List Range) (released : Finset Nat)
    (count : Nat) {g : Globals} (hs : g.unback_success = false) :
    unbackRuns MockUnback first_page runs released count g = (released, count, g) := by
  induction runs generalizing released count with
  | nil => simp [unbackRuns]
  | cons r rs ih =>
    unfold unbackRuns
    rw [MockUnback_failure hs]
    simp only
    exact ih _ _

/-- With `MockUnback` the effect of releasing is all or nothing: when `unback_success` is set,
every releasable page is released and inserted into the released set. -/
theorem PageTracker.releaseWhere_mock (P : Params) (sel : Nat → Bool) (t : PageTracker)
    (g : Globals) :
    t.releaseWhere P MockUnback sel g =
      if g.unback_success = true then
        (t.withReleased (t.releasable P sel), (t.releasable P sel).card,
          g.withReleased ((t.releasable P sel).image fun i => t.first_page P + i))
      else (t, 0, g) := by
  unfold PageTracker.releaseWhere
  by_cases hs : g.unback_success = true
  · rw [if_pos hs]
    simp only
    rw [unbackRuns_mock_success _ _ _ _ hs, runsBits_maximalRuns, maximalRuns_sum]
    simp only [PageTracker.withReleased, PageTracker.releasable, Nat.zero_add]
  · rw [if_neg hs]
    simp only
    rw [unbackRuns_mock_failure _ _ _ _ (by simpa using hs)]

theorem PageTracker.mem_releasable {P : Params} {sel : Nat → Bool} {t : PageTracker} {i : Nat} :
    i ∈ t.releasable P sel ↔
      i < P.kPagesPerHugePage ∧ i ∉ t.bitmap ∧ i ∉ t.released_bitmap ∧ sel i = true := by
  simp [PageTracker.releasable, and_assoc]

theorem PageTracker.withReleased_WF {P : Params} {sel : Nat → Bool} {t : PageTracker}
    (hwf : t.WF P) : (t.withReleased (t.releasable P sel)).WF P := by
  constructor
  · exact hwf.bitmap_lt
  · intro x hx
    simp only [PageTracker.withReleased, Finset.mem_union] at hx
    rcases hx with hx | hx
    · exact hwf.released_lt x hx
    · exact (PageTracker.mem_releasable.1 hx).1
  · intro x hx
    simp only [PageTracker.withReleased, Finset.mem_union] at hx
    rcases hx with hx | hx
    · exact hwf.disjoint x hx
    · exact (PageTracker.mem_releasable.1 hx).2.1
  · exact hwf.nused

theorem PageTracker.withReleased_agree {P : Params} {t : PageTracker} (extra : Finset Nat)
    {v : List (Range × SpanAllocInfo)} (hag : AllocsAgree P t v) :
    AllocsAgree P (t.withReleased extra) v :=
  ⟨hag.nallocs, hag.nused, hag.inside, hag.disjoint⟩

theorem PageTracker.withReleased_releasedPages (P : Params) (t : PageTracker)
    (extra : Finset Nat) :
    (t.withReleased extra).releasedPages P =
      t.releasedPages P ∪ extra.image fun i => t.first_page P + i := by
  simp [PageTracker.releasedPages, PageTracker.withReleased, Finset.image_union,
    PageTracker.first_page]

/-- The free, backed pages of a well-formed tracker: everything that is neither used nor
released. -/
theorem PageTracker.card_releasable {P : Params} {t : PageTracker} (hwf : t.WF P) :
    (t.releasable P fun _ => true).card + t.nused_pages + t.released_bitmap.card =
      P.kPagesPerHugePage := by
  have hdis : Disjoint t.bitmap t.released_bitmap := by
    rw [Finset.disjoint_left]
    intro x hx hx'
    exact hwf.disjoint x hx' hx
  have hdis2 : Disjoint (t.releasable P fun _ => true) (t.bitmap ∪ t.released_bitmap) := by
    rw [Finset.disjoint_left]
    intro x hx hx'
    have := PageTracker.mem_releasable.1 hx
    rw [Finset.mem_union] at hx'
    tauto
  have hunion : (t.releasable P fun _ => true) ∪ (t.bitmap ∪ t.released_bitmap) =
      Finset.range P.kPagesPerHugePage := by
    ext x
    rw [Finset.mem_union, Finset.mem_union, PageTracker.mem_releasable, Finset.mem_range]
    constructor
    · rintro (h | h | h)
      · exact h.1
      · exact hwf.bitmap_lt x h
      · exact hwf.released_lt x h
    · intro h
      by_cases h1 : x ∈ t.bitmap
      · exact Or.inr (Or.inl h1)
      · by_cases h2 : x ∈ t.released_bitmap
        · exact Or.inr (Or.inr h2)
        · exact Or.inl ⟨h, h1, h2, rfl⟩
  have hcard := congrArg Finset.card hunion
  rw [Finset.card_union_of_disjoint hdis2, Finset.card_union_of_disjoint hdis,
    Finset.card_range, ← hwf.nused] at hcard
  omega

/-! ### Lists of trackers -/

theorem mem_releasedPagesOf (P : Params) (ts : List PageTracker) (p : Nat) :
    p ∈ releasedPagesOf P ts ↔ ∃ t ∈ ts, p ∈ t.releasedPages P := by
  induction ts with
  | nil => simp [releasedPagesOf]
  | cons t ts ih => simp [releasedPagesOf, ih]

theorem releasedPagesOf_perm (P : Params) {ts ts' : List PageTracker} (h : ts.Perm ts') :
    releasedPagesOf P ts = releasedPagesOf P ts' := by
  ext p
  simp only [mem_releasedPagesOf, h.mem_iff]

theorem releasedPagesOf_append (P : Params) (ts ts' : List PageTracker) :
    releasedPagesOf P (ts ++ ts') = releasedPagesOf P ts ∪ releasedPagesOf P ts' := by
  ext p
  simp only [mem_releasedPagesOf, Finset.mem_union, List.mem_append]
  constructor
  · rintro ⟨t, ht | ht, hp⟩
    · exact Or.inl ⟨t, ht, hp⟩
    · exact Or.inr ⟨t, ht, hp⟩
  · rintro (⟨t, ht, hp⟩ | ⟨t, ht, hp⟩)
    · exact ⟨t, Or.inl ht, hp⟩
    · exact ⟨t, Or.inr ht, hp⟩

/-- A page a well-formed tracker holds released lies in the tracker's huge page. -/
theorem PageTracker.releasedPages_bounds {P : Params} {t : PageTracker} (hwf : t.WF P) {p : Nat}
    (hp : p ∈ t.releasedPages P) :
    t.location * P.kPagesPerHugePage ≤ p ∧
      p < t.location * P.kPagesPerHugePage + P.kPagesPerHugePage := by
  simp only [PageTracker.releasedPages, Finset.mem_image, PageTracker.first_page] at hp
  obtain ⟨i, hi, rfl⟩ := hp
  have := hwf.released_lt i hi
  omega

/-- Different huge pages do not share pages. -/
theorem hugepage_disjoint {K a b p q : Nat} (hab : a ≠ b) (hp1 : a * K ≤ p) (hp2 : p < a * K + K)
    (hq1 : b * K ≤ q) (hq2 : q < b * K + K) : p ≠ q := by
  rintro rfl
  rcases Nat.lt_or_gt_of_ne hab with h | h
  · have : (a + 1) * K ≤ b * K := Nat.mul_le_mul_right K h
    rw [Nat.add_mul, Nat.one_mul] at this
    omega
  · have : (b + 1) * K ≤ a * K := Nat.mul_le_mul_right K h
    rw [Nat.add_mul, Nat.one_mul] at this
    omega

theorem PageTracker.card_releasedPages (P : Params) (t : PageTracker) :
    (t.releasedPages P).card = t.released_bitmap.card := by
  unfold PageTracker.releasedPages
  apply Finset.card_image_of_injective
  intro a b hab
  simpa using hab

/-- The pages of a list of well-formed trackers at different locations: their number is the sum
of the popcounts of the released bitmaps. -/
theorem sum_released_card {P : Params} {ts : List PageTracker} (hwf : ∀ t ∈ ts, t.WF P)
    (hnd : (ts.map fun t => t.location).Nodup) :
    (ts.map fun t => t.released_bitmap.card).sum = (releasedPagesOf P ts).card := by
  induction ts with
  | nil => simp [releasedPagesOf]
  | cons t ts ih =>
    rw [List.map_cons, List.nodup_cons] at hnd
    have hdis : Disjoint (t.releasedPages P) (releasedPagesOf P ts) := by
      rw [Finset.disjoint_left]
      intro p hp hp'
      rw [mem_releasedPagesOf] at hp'
      obtain ⟨u, hu, hpu⟩ := hp'
      have h1 := PageTracker.releasedPages_bounds (hwf t (List.mem_cons_self _ _)) hp
      have h2 := PageTracker.releasedPages_bounds (hwf u (List.mem_cons_of_mem _ hu)) hpu
      have hne : t.location ≠ u.location := by
        intro heq
        apply hnd.1
        rw [heq]
        exact List.mem_map_of_mem _ hu
      exact hugepage_disjoint hne h1.1 h1.2 h2.1 h2.2 rfl
    rw [List.map_cons, List.sum_cons, releasedPagesOf, Finset.card_union_of_disjoint hdis,
      PageTracker.card_releasedPages, ih (fun u hu => hwf u (List.mem_cons_of_mem _ hu)) hnd.2]

theorem mem_removeTracker {loc : Nat} {ts : List PageTracker} {u : PageTracker} :
    u ∈ removeTracker loc ts ↔ u ∈ ts ∧ u.location ≠ loc := by
  simp [removeTracker]

theorem removeTracker_of_not_mem {loc : Nat} {ts : List PageTracker}
    (h : loc ∉ ts.map fun t => t.location) : removeTracker loc ts = ts := by
  unfold removeTracker
  rw [List.filter_eq_self]
  intro u hu
  simp only [decide_eq_true_eq]
  intro heq
  exact h (heq ▸ List.mem_map_of_mem _ hu)

theorem replaceTracker_of_not_mem {t' : PageTracker} {ts : List PageTracker}
    (h : t'.location ∉ ts.map fun t => t.location) : replaceTracker t' ts = ts := by
  unfold replaceTracker
  conv_rhs => rw [← List.map_id ts]
  apply List.map_congr_left
  intro u hu
  rw [if_neg]
  · rfl
  · intro heq
    exact h (heq ▸ List.mem_map_of_mem _ hu)

/-- An owned tracker can be brought to the front. -/
theorem perm_cons_removeTracker {ts : List PageTracker} {t : PageTracker}
    (hnd : (ts.map fun t => t.location).Nodup) (ht : t ∈ ts) :
    ts.Perm (t :: removeTracker t.location ts) := by
  induction ts with
  | nil => simp at ht
  | cons u us ih =>
    rw [List.map_cons, List.nodup_cons] at hnd
    rcases List.mem_cons.1 ht with rfl | ht'
    · have : removeTracker t.location (t :: us) = us := by
        rw [removeTracker, List.filter_cons_of_neg (by simp)]
        exact removeTracker_of_not_mem hnd.1
      rw [this]
    · have hne : u.location ≠ t.location := by
        intro heq
        exact hnd.1 (heq ▸ List.mem_map_of_mem _ ht')
      have : removeTracker t.location (u :: us) = u :: removeTracker t.location us := by
        rw [removeTracker, List.filter_cons_of_pos (by simpa using hne)]
        rfl
      rw [this]
      exact ((ih hnd.2 ht').cons u).trans (List.Perm.swap _ _ _)

theorem replaceTracker_perm {ts : List PageTracker} {t : PageTracker} (t' : PageTracker)
    (hnd : (ts.map fun t => t.location).Nodup) (ht : t ∈ ts) (hloc : t'.location = t.location) :
    (replaceTracker t' ts).Perm (t' :: removeTracker t.location ts) := by
  induction ts with
  | nil => simp at ht
  | cons u us ih =>
    rw [List.map_cons, List.nodup_cons] at hnd
    rcases List.mem_cons.1 ht with rfl | ht'
    · have h1 : removeTracker t.location (t :: us) = us := by
        rw [removeTracker, List.filter_cons_of_neg (by simp)]
        exact removeTracker_of_not_mem hnd.1
      have h2 : replaceTracker t' (t :: us) = t' :: us := by
        rw [replaceTracker, List.map_cons, if_pos hloc.symm]
        congr 1
        exact replaceTracker_of_not_mem (hloc ▸ hnd.1)
      rw [h1, h2]
    · have hne : u.location ≠ t.location := by
        intro heq
        exact hnd.1 (heq ▸ List.mem_map_of_mem _ ht')
      have h1 : removeTracker t.location (u :: us) = u :: removeTracker t.location us := by
        rw [removeTracker, List.filter_cons_of_pos (by simpa using hne)]
        rfl
      have h2 : replaceTracker t' (u :: us) = u :: replaceTracker t' us := by
        rw [replaceTracker, List.map_cons, if_neg (by rw [hloc]; exact hne)]
        rfl
      rw [h1, h2]
      exact ((ih hnd.2 ht').cons u).trans (List.Perm.swap _ _ _)

theorem find_tracker {ts : List PageTracker} {t : PageTracker}
    (hnd : (ts.map fun t => t.location).Nodup) (ht : t ∈ ts) :
    ts.find? (fun u => decide (u.location = t.location)) = some t := by
  induction ts with
  | nil => simp at ht
  | cons u us ih =>
    rw [List.map_cons, List.nodup_cons] at hnd
    rcases List.mem_cons.1 ht with rfl | ht'
    · simp
    · have hne : u.location ≠ t.location := by
        intro heq
        exact hnd.1 (heq ▸ List.mem_map_of_mem _ ht')
      rw [List.find?_cons_of_neg _ (by simpa using hne)]
      exact ih hnd.2 ht'

/-! ### The entries of `allocs` -/

theorem allocsAt_of_mem {A : List (Nat × List (Range × SpanAllocInfo))} {pt : Nat}
    {v : List (Range × SpanAllocInfo)} (hnd : (A.map fun e => e.1).Nodup) (h : (pt, v) ∈ A) :
    allocsAt A pt = v := by
  induction A with
  | nil => simp at h
  | cons e es ih =>
    rw [List.map_cons, List.nodup_cons] at hnd
    rcases List.mem_cons.1 h with rfl | h'
    · simp [allocsAt]
    · have hne : e.1 ≠ pt := by
        intro heq
        exact hnd.1 (heq ▸ List.mem_map_of_mem (fun e => e.1) h')
      have := ih hnd.2 h'
      unfold allocsAt at this ⊢
      rw [List.find?_cons_of_neg _ (by simpa using hne)]
      exact this

theorem allocsErase_of_not_mem {A : List (Nat × List (Range × SpanAllocInfo))} {pt : Nat}
    (h : pt ∉ A.map fun e => e.1) : allocsErase A pt = A := by
  unfold allocsErase
  rw [List.filter_eq_self]
  intro e he
  simp only [decide_eq_true_eq]
  intro heq
  exact h (heq ▸ List.mem_map_of_mem (fun e => e.1) he)

theorem allocsSet_of_not_mem {A : List (Nat × List (Range × SpanAllocInfo))} {pt : Nat}
    (v : List (Range × SpanAllocInfo)) (h : pt ∉ A.map fun e => e.1) :
    allocsSet A pt v = A := by
  unfold allocsSet
  conv_rhs => rw [← List.map_id A]
  apply List.map_congr_left
  intro e he
  rw [if_neg]
  · rfl
  · intro heq
    exact h (heq ▸ List.mem_map_of_mem (fun e => e.1) he)

theorem perm_cons_allocsErase {A : List (Nat × List (Range × SpanAllocInfo))} {pt : Nat}
    {v : List (Range × SpanAllocInfo)} (hnd : (A.map fun e => e.1).Nodup) (h : (pt, v) ∈ A) :
    A.Perm ((pt, v) :: allocsErase A pt) := by
  induction A with
  | nil => simp at h
  | cons e es ih =>
    rw [List.map_cons, List.nodup_cons] at hnd
    rcases List.mem_cons.1 h with rfl | h'
    · have : allocsErase ((pt, v) :: es) pt = es := by
        rw [allocsErase, List.filter_cons_of_neg (by simp)]
        exact allocsErase_of_not_mem hnd.1
      rw [this]
    · have hne : e.1 ≠ pt := by
        intro heq
        exact hnd.1 (heq ▸ List.mem_map_of_mem (fun e => e.1) h')
      have : allocsErase (e :: es) pt = e :: allocsErase es pt := by
        rw [allocsErase, List.filter_cons_of_pos (by simpa using hne)]
        rfl
      rw [this]
      exact ((ih hnd.2 h').cons e).trans (List.Perm.swap _ _ _)

theorem allocsSet_perm {A : List (Nat × List (Range × SpanAllocInfo))} {pt : Nat}
    {v : List (Range × SpanAllocInfo)} (v' : List (Range × SpanAllocInfo))
    (hnd : (A.map fun e => e.1).Nodup) (h : (pt, v) ∈ A) :
    (allocsSet A pt v').Perm ((pt, v') :: allocsErase A pt) := by
  induction A with
  | nil => simp at h
  | cons e es ih =>
    rw [List.map_cons, List.nodup_cons] at hnd
    rcases List.mem_cons.1 h with rfl | h'
    · have h1 : allocsErase ((pt, v) :: es) pt = es := by
        rw [allocsErase, List.filter_cons_of_neg (by simp)]
        exact allocsErase_of_not_mem hnd.1
      have h2 : allocsSet ((pt, v) :: es) pt v' = (pt, v') :: es := by
        rw [allocsSet, List.map_cons, if_pos rfl]
        congr 1
        exact allocsSet_of_not_mem v' hnd.1
      rw [h1, h2]
    · have hne : e.1 ≠ pt := by
        intro heq
        exact hnd.1 (heq ▸ List.mem_map_of_mem (fun e => e.1) h')
      have h1 : allocsErase (e :: es) pt = e :: allocsErase es pt := by
        rw [allocsErase, List.filter_cons_of_pos (by simpa using hne)]
        rfl
      have h2 : allocsSet (e :: es) pt v' = e :: allocsSet es pt v' := by
        rw [allocsSet, List.map_cons, if_neg hne]
        rfl
      rw [h1, h2]
      exact ((ih hnd.2 h').cons e).trans (List.Perm.swap _ _ _)

/-- `std::swap(v[i], v.back()); v.resize(v.size() - 1)` removes exactly `v[i]`. -/
theorem swapRemove_perm {α : Type} [Inhabited α] (v : List α) (i : Nat) (hi : i < v.length) :
    v.Perm (v.getD i default :: swapRemove v i) := by
  have hne : v ≠ [] := by
    intro h
    rw [h] at hi
    simp at hi
  obtain ⟨w, z, rfl⟩ : ∃ w z, v = w ++ [z] := by
    refine ⟨v.dropLast, v.getLast hne, ?_⟩
    exact (List.dropLast_append_getLast hne).symm
  have hlast : (w ++ [z]).getLastD default = z := by
    rw [List.getLastD_eq_getLast?]
    simp
  unfold swapRemove
  rw [hlast]
  rw [List.length_append, List.length_singleton] at hi
  by_cases hiw : i < w.length
  · rw [List.set_append_left _ _ hiw, List.dropLast_concat]
    rw [List.getD_eq_getElem _ _ (by simp; omega), List.getElem_append_left hiw]
    have h1 : (w.set i z).Perm (z :: w.eraseIdx i) := by
      rw [List.set_eq_take_append_cons_drop, if_pos hiw, List.eraseIdx_eq_take_drop_succ]
      exact List.perm_middle
    have h2 : w.Perm (w[i] :: w.eraseIdx i) := by
      conv_lhs => rw [← List.take_append_drop i w]
      rw [List.eraseIdx_eq_take_drop_succ, List.drop_eq_getElem_cons hiw]
      exact List.perm_middle
    exact (List.perm_append_singleton z w).trans
      (((h2.cons z).trans (List.Perm.swap _ _ _)).trans (h1.symm.cons _))
  · have hi' : i = w.length := by omega
    subst hi'
    have hset : (w ++ [z]).set w.length z = w ++ [z] := by
      rw [List.set_append_right _ _ (le_refl _)]
      simp
    rw [hset, List.dropLast_concat, List.getD_eq_getElem _ _ (by simp)]
    simp only [List.getElem_concat_length]
    exact List.perm_append_singleton z w

/-! ### The link between the filler and the bookkeeping -/

theorem Linked.of_perm {P : Params} {T T' : List PageTracker}
    {A A' : List (Nat × List (Range × SpanAllocInfo))} {L L' : List Nat} {next : Nat}
    {RP : Finset Nat} (h : Linked P T A L next RP) (hT : T.Perm T') (hA : A.Perm A')
    (hL : L.Perm L') : Linked P T' A' L' next RP where
  wf := fun t ht => h.wf t (hT.mem_iff.2 ht)
  nodup := ((hT.map _).nodup_iff).1 h.nodup
  fresh := fun t ht => h.fresh t (hT.mem_iff.2 ht)
  trackers_perm := (hL.symm.trans h.trackers_perm).trans (hT.map _)
  keys_perm := ((hA.map _).symm.trans h.keys_perm).trans (hT.map _)
  agree := fun e he t ht => h.agree e (hA.mem_iff.2 he) t (hT.mem_iff.2 ht)
  released := h.released.trans (releasedPagesOf_perm P hT)

theorem Linked.keys_nodup {P : Params} {T : List PageTracker}
    {A : List (Nat × List (Range × SpanAllocInfo))} {L : List Nat} {next : Nat}
    {RP : Finset Nat} (h : Linked P T A L next RP) : (A.map fun e => e.1).Nodup :=
  (h.keys_perm.nodup_iff).2 h.nodup

theorem Linked.length_eq {P : Params} {T : List PageTracker}
    {A : List (Nat × List (Range × SpanAllocInfo))} {L : List Nat} {next : Nat}
    {RP : Finset Nat} (h : Linked P T A L next RP) : T.length = L.length := by
  have := h.trackers_perm.length_eq
  rw [List.length_map] at this
  exact this.symm

theorem Linked.unmapped_eq {P : Params} {T : List PageTracker}
    {A : List (Nat × List (Range × SpanAllocInfo))} {L : List Nat} {next : Nat}
    {RP : Finset Nat} (h : Linked P T A L next RP) :
    (T.map fun t => t.released_bitmap.card).sum = RP.card := by
  rw [h.released]
  exact sum_released_card h.wf h.nodup

/-- Every tracker pointer the harness holds is a tracker the filler owns. -/
theorem Linked.exists_tracker {P : Params} {T : List PageTracker}
    {A : List (Nat × List (Range × SpanAllocInfo))} {L : List Nat} {next : Nat}
    {RP : Finset Nat} (h : Linked P T A L next RP) {pt : Nat} (hpt : pt ∈ L) :
    ∃ t ∈ T, t.location = pt := by
  have := h.trackers_perm.mem_iff.1 hpt
  rw [List.mem_map] at this
  exact this

/-- Every tracker the filler owns has an entry in `allocs`. -/
theorem Linked.exists_entry {P : Params} {T : List PageTracker}
    {A : List (Nat × List (Range × SpanAllocInfo))} {L : List Nat} {next : Nat}
    {RP : Finset Nat} (h : Linked P T A L next RP) {t : PageTracker} (ht : t ∈ T) :
    ∃ v, (t.location, v) ∈ A ∧ AllocsAgree P t v ∧ v ≠ [] := by
  have hmem : t.location ∈ A.map fun e => e.1 :=
    h.keys_perm.mem_iff.2 (List.mem_map_of_mem _ ht)
  rw [List.mem_map] at hmem
  obtain ⟨⟨pt, v⟩, he, hpt⟩ := hmem
  simp only at hpt
  subst hpt
  exact ⟨v, he, h.agree _ he t ht rfl⟩

/-- No tracker the filler owns is empty. -/
theorem Linked.tracker_not_empty {P : Params} {T : List PageTracker}
    {A : List (Nat × List (Range × SpanAllocInfo))} {L : List Nat} {next : Nat}
    {RP : Finset Nat} (h : Linked P T A L next RP) {t : PageTracker} (ht : t ∈ T) :
    t.empty = false := by
  obtain ⟨v, _, hag, hv⟩ := h.exists_entry ht
  exact hag.tracker_nonempty hv

/-- The pages the other trackers hold released lie outside the huge page of the first. -/
theorem Linked.rest_outside {P : Params} {t : PageTracker} {T : List PageTracker}
    {A : List (Nat × List (Range × SpanAllocInfo))} {L : List Nat} {next : Nat}
    {RP : Finset Nat} (h : Linked P (t :: T) A L next RP) {p : Nat}
    (hp : p ∈ releasedPagesOf P T) :
    p < t.first_page P ∨ t.first_page P + P.kPagesPerHugePage ≤ p := by
  rw [mem_releasedPagesOf] at hp
  obtain ⟨u, hu, hpu⟩ := hp
  have h2 := PageTracker.releasedPages_bounds (h.wf u (List.mem_cons_of_mem _ hu)) hpu
  have hnd := h.nodup
  rw [List.map_cons, List.nodup_cons] at hnd
  have hne : t.location ≠ u.location := by
    intro heq
    exact hnd.1 (heq ▸ List.mem_map_of_mem _ hu)
  unfold PageTracker.first_page
  by_contra hcon
  push_neg at hcon
  exact hugepage_disjoint hne hcon.1 hcon.2 h2.1 h2.2 rfl

/-- Replacing the first tracker and the vector recorded for it. -/
theorem Linked.update_head {P : Params} {t : PageTracker} {T : List PageTracker}
    {v : List (Range × SpanAllocInfo)} {A : List (Nat × List (Range × SpanAllocInfo))}
    {L : List Nat} {next : Nat} {RP : Finset Nat}
    (h : Linked P (t :: T) ((t.location, v) :: A) L next RP) (t' : PageTracker)
    (v' : List (Range × SpanAllocInfo)) (RP' : Finset Nat)
    (hloc : t'.location = t.location) (hwf : t'.WF P) (hag : AllocsAgree P t' v')
    (hv' : v' ≠ []) (hRP : RP' = t'.releasedPages P ∪ releasedPagesOf P T) :
    Linked P (t' :: T) ((t.location, v') :: A) L next RP' := by
  have hnd := h.nodup
  have hknd := h.keys_nodup
  rw [List.map_cons, List.nodup_cons] at hnd hknd
  constructor
  · intro u hu
    rcases List.mem_cons.1 hu with rfl | hu
    · exact hwf
    · exact h.wf u (List.mem_cons_of_mem _ hu)
  · rw [List.map_cons, hloc]
    exact h.nodup
  · intro u hu
    rcases List.mem_cons.1 hu with rfl | hu
    · rw [hloc]
      exact h.fresh t (List.mem_cons_self _ _)
    · exact h.fresh u (List.mem_cons_of_mem _ hu)
  · rw [List.map_cons, hloc]
    exact h.trackers_perm
  · rw [List.map_cons, List.map_cons, hloc]
    exact h.keys_perm
  · intro e he u hu hue
    rcases List.mem_cons.1 he with rfl | he
    · rcases List.mem_cons.1 hu with rfl | hu
      · exact ⟨hag, hv'⟩
      · simp only at hue
        exact absurd (hue ▸ List.mem_map_of_mem _ hu) hnd.1
    · rcases List.mem_cons.1 hu with rfl | hu
      · exfalso
        apply hknd.1
        rw [← hloc, hue]
        exact List.mem_map_of_mem (fun e => e.1) he
      · exact h.agree e (List.mem_cons_of_mem _ he) u (List.mem_cons_of_mem _ hu) hue
  · rw [hRP]
    rfl

/-- Removing the first tracker together with its entry and its pointer. -/
theorem Linked.remove_head {P : Params} {t : PageTracker} {T : List PageTracker}
    {v : List (Range × SpanAllocInfo)} {A : List (Nat × List (Range × SpanAllocInfo))}
    {L : List Nat} {next : Nat} {RP : Finset Nat}
    (h : Linked P (t :: T) ((t.location, v) :: A) (t.location :: L) next RP) :
    Linked P T A L next
      (RP \ Finset.Ico (t.first_page P) (t.first_page P + P.kPagesPerHugePage)) := by
  have hnd := h.nodup
  rw [List.map_cons, List.nodup_cons] at hnd
  constructor
  · exact fun u hu => h.wf u (List.mem_cons_of_mem _ hu)
  · exact hnd.2
  · exact fun u hu => h.fresh u (List.mem_cons_of_mem _ hu)
  · have := h.trackers_perm
    rw [List.map_cons] at this
    exact List.Perm.cons_inv this
  · have := h.keys_perm
    rw [List.map_cons, List.map_cons] at this
    exact List.Perm.cons_inv this
  · exact fun e he u hu hue =>
      h.agree e (List.mem_cons_of_mem _ he) u (List.mem_cons_of_mem _ hu) hue
  · rw [h.released, releasedPagesOf]
    ext p
    simp only [Finset.mem_sdiff, Finset.mem_union, Finset.mem_Ico]
    constructor
    · rintro ⟨hp | hp, hout⟩
      · exfalso
        have := PageTracker.releasedPages_bounds (h.wf t (List.mem_cons_self _ _)) hp
        unfold PageTracker.first_page at hout
        omega
      · exact hp
    · intro hp
      refine ⟨Or.inr hp, ?_⟩
      have := h.rest_outside hp
      omega

/-- Adding a fresh tracker on huge page `next` with one recorded allocation. -/
theorem Linked.add {P : Params} {t : PageTracker} {T : List PageTracker}
    {a : Range × SpanAllocInfo} {A : List (Nat × List (Range × SpanAllocInfo))}
    {L : List Nat} {next : Nat} {RP : Finset Nat} (h : Linked P T A L next RP)
    (hloc : t.location = next) (hwf : t.WF P) (hag : AllocsAgree P t [a])
    (hrel : t.released_bitmap = ∅) :
    Linked P (T ++ [t]) (A ++ [(next, [a])]) (L ++ [next]) (next + 1) RP := by
  have hfresh : next ∉ T.map fun t => t.location := by
    intro hmem
    rw [List.mem_map] at hmem
    obtain ⟨u, hu, hue⟩ := hmem
    have := h.fresh u hu
    omega
  have hkfresh : next ∉ A.map fun e => e.1 := fun hmem => hfresh (h.keys_perm.mem_iff.1 hmem)
  constructor
  · intro u hu
    rcases List.mem_append.1 hu with hu | hu
    · exact h.wf u hu
    · rw [List.mem_singleton.1 hu]
      exact hwf
  · rw [List.map_append, List.map_singleton, hloc]
    exact List.Nodup.append h.nodup (List.nodup_singleton _)
      (by
        intro x hx hx'
        rw [List.mem_singleton] at hx'
        exact hfresh (hx' ▸ hx))
  · intro u hu
    rcases List.mem_append.1 hu with hu | hu
    · exact Nat.lt_succ_of_lt (h.fresh u hu)
    · rw [List.mem_singleton.1 hu, hloc]
      exact Nat.lt_succ_self _
  · rw [List.map_append, List.map_singleton, hloc]
    exact h.trackers_perm.append_right _
  · rw [List.map_append, List.map_append, List.map_singleton, List.map_singleton, hloc]
    exact h.keys_perm.append_right _
  · intro e he u hu hue
    rcases List.mem_append.1 he with he | he
    · rcases List.mem_append.1 hu with hu | hu
      · exact h.agree e he u hu hue
      · exfalso
        rw [List.mem_singleton.1 hu, hloc] at hue
        exact hkfresh (hue ▸ List.mem_map_of_mem (fun e => e.1) he)
    · rw [List.mem_singleton.1 he] at hue ⊢
      simp only at hue
      rcases List.mem_append.1 hu with hu | hu
      · exact absurd (hue ▸ List.mem_map_of_mem (fun t => t.location) hu) hfresh
      · rw [List.mem_singleton.1 hu]
        exact ⟨hag, by simp⟩
  · rw [releasedPagesOf_append, h.released]
    simp [releasedPagesOf, PageTracker.releasedPages, hrel]

/-- The pages in the released set lie in huge pages below `next`. -/
theorem Linked.released_lt {P : Params} {T : List PageTracker}
    {A : List (Nat × List (Range × SpanAllocInfo))} {L : List Nat} {next : Nat}
    {RP : Finset Nat} (h : Linked P T A L next RP) {p : Nat} (hp : p ∈ RP) :
    p < next * P.kPagesPerHugePage := by
  rw [h.released, mem_releasedPagesOf] at hp
  obtain ⟨u, hu, hpu⟩ := hp
  have h2 := PageTracker.releasedPages_bounds (h.wf u hu) hpu
  have h3 : (u.location + 1) * P.kPagesPerHugePage ≤ next * P.kPagesPerHugePage :=
    Nat.mul_le_mul_right _ (h.fresh u hu)
  rw [Nat.add_mul, Nat.one_mul] at h3
  omega

/-- Releasing pages of the trackers, each in place, keeps the link when the released set
follows. -/
theorem Linked.of_releasedFrom {P : Params} {T T' : List PageTracker}
    {A : List (Nat × List (Range × SpanAllocInfo))} {L : List Nat} {next : Nat}
    {RP RP' : Finset Nat} (h : Linked P T A L next RP)
    (hrel : List.Forall₂ (ReleasedFrom P) T T') (hRP : RP' = releasedPagesOf P T') :
    Linked P T' A L next RP' := by
  have hmap : (T'.map fun t => t.location) = T.map fun t => t.location := by
    clear h hRP
    induction hrel with
    | nil => rfl
    | cons hab _ ih => rw [List.map_cons, List.map_cons, ih, hab.1]
  have hback : ∀ t' ∈ T', ∃ t ∈ T, ReleasedFrom P t t' := by
    clear h hRP hmap
    induction hrel with
    | nil => simp
    | cons hab _ ih =>
      intro t' ht'
      rcases List.mem_cons.1 ht' with rfl | ht'
      · exact ⟨_, List.mem_cons_self _ _, hab⟩
      · obtain ⟨t, ht, hr⟩ := ih t' ht'
        exact ⟨t, List.mem_cons_of_mem _ ht, hr⟩
  constructor
  · intro t' ht'
    obtain ⟨t, ht, hr⟩ := hback t' ht'
    exact hr.2.1 (h.wf t ht)
  · rw [hmap]
    exact h.nodup
  · intro t' ht'
    obtain ⟨t, ht, hr⟩ := hback t' ht'
    rw [hr.1]
    exact h.fresh t ht
  · rw [hmap]
    exact h.trackers_perm
  · rw [hmap]
    exact h.keys_perm
  · intro e he t' ht' hte
    obtain ⟨t, ht, hr⟩ := hback t' ht'
    have := h.agree e he t ht (hr.1 ▸ hte)
    exact ⟨hr.2.2 _ this.1, this.2⟩
  · exact hRP

/-! ### The operations of the filler and the link -/

theorem mostFull_mem {l : List PageTracker} {t : PageTracker} (h : mostFull l = some t) :
    t ∈ l := by
  induction l generalizing t with
  | nil => simp [mostFull] at h
  | cons u us ih =>
    unfold mostFull at h
    cases hrec : mostFull us with
    | none =>
      rw [hrec] at h
      simp only [Option.some.injEq] at h
      exact h ▸ List.mem_cons_self _ _
    | some w =>
      rw [hrec] at h
      simp only at h
      split at h
      · simp only [Option.some.injEq] at h
        exact h ▸ List.mem_cons_self _ _
      · simp only [Option.some.injEq] at h
        exact h ▸ List.mem_cons_of_mem _ (ih hrec)

/-- Whatever `TryGet` selects is an owned tracker with a long enough free range. -/
theorem HugePageFiller.select_mem {P : Params} {f : HugePageFiller} {n : Nat}
    {info : SpanAllocInfo} {t : PageTracker} (h : f.select P n info = some t) :
    t ∈ f.trackers ∧ n ≤ t.longest_free_range P := by
  have key : ∀ l : List PageTracker,
      (∀ x ∈ l, x ∈ f.trackers.filter fun t => decide (n ≤ t.longest_free_range P)) →
      mostFull l = some t → t ∈ f.trackers ∧ n ≤ t.longest_free_range P := by
    intro l hl hm
    have h2 := List.mem_filter.1 (hl t (mostFull_mem hm))
    exact ⟨h2.1, by simpa using h2.2⟩
  have hdon : ∀ x ∈ (f.trackers.filter fun t => decide (n ≤ t.longest_free_range P)).filter
      (fun t => t.was_donated),
      x ∈ f.trackers.filter fun t => decide (n ≤ t.longest_free_range P) :=
    fun x hx => (List.mem_filter.1 hx).1
  have hreg : ∀ q : PageTracker → Bool,
      ∀ x ∈ ((f.trackers.filter fun t => decide (n ≤ t.longest_free_range P)).filter
        (fun t => !t.was_donated && decide (t.density = info.density))).filter q,
      x ∈ f.trackers.filter fun t => decide (n ≤ t.longest_free_range P) :=
    fun q x hx => (List.mem_filter.1 (List.mem_filter.1 hx).1).1
  unfold HugePageFiller.select at h
  simp only at h
  split at h
  · rename_i u hu
    simp only [Option.some.injEq] at h
    subst h
    split at hu
    · exact key _ hdon hu
    · simp at hu
  · split at h
    · rename_i u hu
      simp only [Option.some.injEq] at h
      subst h
      exact key _ (hreg _) hu
    · split at h
      · rename_i u hu
        simp only [Option.some.injEq] at h
        subst h
        exact key _ (hreg _) hu
      · split at h
        · exact key _ hdon h
        · simp at h

theorem PageTracker.carved_releasedPages (P : Params) (t : PageTracker) (i n : Nat)
    (info : SpanAllocInfo) :
    (t.carved i n info).releasedPages P =
      t.releasedPages P \ Finset.Ico (t.first_page P + i) (t.first_page P + i + n) := by
  ext p
  simp only [PageTracker.releasedPages, PageTracker.carved_first_page, Finset.mem_image,
    Finset.mem_sdiff, Finset.mem_Ico]
  simp only [PageTracker.carved, Finset.mem_sdiff, Finset.mem_Ico]
  constructor
  · rintro ⟨j, ⟨hj, hout⟩, rfl⟩
    exact ⟨⟨j, hj, rfl⟩, by omega⟩
  · rintro ⟨⟨j, hj, rfl⟩, hout⟩
    exact ⟨j, ⟨hj, by omega⟩, rfl⟩

theorem allocs_any_of_mem {A : List (Nat × List (Range × SpanAllocInfo))} {pt : Nat}
    {v : List (Range × SpanAllocInfo)} (h : (pt, v) ∈ A) :
    A.any (fun e => decide (e.1 = pt)) = true := by
  rw [List.any_eq_true]
  exact ⟨(pt, v), h, by simp⟩

theorem allocs_any_of_not_mem {A : List (Nat × List (Range × SpanAllocInfo))} {pt : Nat}
    (h : pt ∉ A.map fun e => e.1) : A.any (fun e => decide (e.1 = pt)) = false := by
  rw [Bool.eq_false_iff]
  intro hany
  rw [List.any_eq_true] at hany
  obtain ⟨e, he, hpt⟩ := hany
  simp only [decide_eq_true_eq] at hpt
  exact h (hpt ▸ List.mem_map_of_mem (fun e => e.1) he)

/-- `TryGet` either finds nothing and leaves the filler as it is, or carves the range from an
owned tracker; in that case recording the allocation and erasing its pages from the released
set (what the harness does next) restores the link. -/
theorem HugePageFiller.TryGet_linked {P : Params} {f : HugePageFiller}
    {A : List (Nat × List (Range × SpanAllocInfo))} {L : List Nat} {next : Nat}
    {RP : Finset Nat} (h : Linked P f.trackers A L next RP) {n : Nat} (hn : 1 ≤ n)
    (info : SpanAllocInfo) :
    f.TryGet P n info = .ok (f, { pt := none, page := 0 }) ∨
    ∃ f' pt page, f.TryGet P n info = .ok (f', { pt := some pt, page := page }) ∧
      Linked P f'.trackers (allocsPushBack A pt (⟨page, n⟩, info)) L next
        (eraseRange RP page n) := by
  unfold HugePageFiller.TryGet
  cases hsel : f.select P n info with
  | none => exact Or.inl rfl
  | some t =>
    right
    obtain ⟨ht, hfit⟩ := HugePageFiller.select_mem hsel
    obtain ⟨i, hi, hfree, hget⟩ := PageTracker.Get_eq info hfit
    obtain ⟨v, hv, hag, hvne⟩ := h.exists_entry ht
    refine ⟨{ f with trackers := replaceTracker (t.carved i n info) f.trackers }, t.location,
      t.first_page P + i, ?_, ?_⟩
    · simp only [hget]
    · simp only
      rw [allocsPushBack, if_pos (allocs_any_of_mem hv), allocsAt_of_mem h.keys_nodup hv]
      have h' := h.of_perm (perm_cons_removeTracker h.nodup ht)
        (perm_cons_allocsErase h.keys_nodup hv) (List.Perm.refl _)
      have hRP : eraseRange RP (t.first_page P + i) n =
          (t.carved i n info).releasedPages P ∪
            releasedPagesOf P (removeTracker t.location f.trackers) := by
        rw [eraseRange_eq, h'.released, releasedPagesOf, PageTracker.carved_releasedPages,
          Finset.union_sdiff_distrib]
        congr 1
        rw [Finset.sdiff_eq_self_iff_disjoint, Finset.disjoint_left]
        intro p hp hp'
        rw [Finset.mem_Ico] at hp'
        have := h'.rest_outside hp
        omega
      have h'' := h'.update_head (t.carved i n info)
        (v ++ [(⟨t.first_page P + i, n⟩, info)]) _ rfl
        (PageTracker.carved_WF info (h.wf t ht) hi hfree)
        (PageTracker.carved_agree info info hag hn hi hfree) (by simp) hRP
      exact h''.of_perm (replaceTracker_perm (t.carved i n info) h.nodup ht rfl).symm
        (allocsSet_perm _ h.keys_nodup hv).symm (List.Perm.refl _)

theorem PageTracker.uncarved_releasedPages (P : Params) (t : PageTracker) (r : Range) :
    (t.uncarved P r).releasedPages P = t.releasedPages P := rfl

/-- `Put` of a recorded allocation `a` of tracker `pt`, where `v'` are the other recorded
allocations of that tracker: the call succeeds; it returns the tracker exactly when `v'` is
empty, and then the tracker is empty; the bookkeeping of the harness restores the link. -/
theorem HugePageFiller.Put_linked {P : Params} {f : HugePageFiller}
    {A : List (Nat × List (Range × SpanAllocInfo))} {L : List Nat} {next : Nat}
    {RP : Finset Nat} (h : Linked P f.trackers A L next RP) {pt : Nat}
    {v v' : List (Range × SpanAllocInfo)} {a : Range × SpanAllocInfo}
    (he : (pt, v) ∈ A) (hperm : v.Perm (a :: v')) :
    ∃ t, t ∈ f.trackers ∧ t.location = pt ∧
      f.Put P pt a.1 a.2 = .ok
        (if v'.isEmpty then
          ({ f with trackers := removeTracker pt f.trackers }, some (t.uncarved P a.1))
         else ({ f with trackers := replaceTracker (t.uncarved P a.1) f.trackers }, none)) ∧
      (t.uncarved P a.1).empty = v'.isEmpty ∧
      (v'.isEmpty = true → ∀ L', L.Perm (pt :: L') →
        Linked P (removeTracker pt f.trackers) (allocsErase A pt) L' next
          (RP \ Finset.Ico (t.first_page P) (t.first_page P + P.kPagesPerHugePage))) ∧
      (v'.isEmpty = false →
        Linked P (replaceTracker (t.uncarved P a.1) f.trackers) (allocsSet A pt v') L next RP) := by
  have hmem : pt ∈ f.trackers.map fun t => t.location :=
    h.keys_perm.mem_iff.1 (List.mem_map_of_mem (fun e => e.1) he)
  rw [List.mem_map] at hmem
  obtain ⟨t, ht, rfl⟩ := hmem
  have hag : AllocsAgree P t (a :: v') := (h.agree _ he t ht rfl).1.congr_perm hperm
  have hempty := PageTracker.uncarved_empty_iff hag
  have h' := h.of_perm (perm_cons_removeTracker h.nodup ht)
    (perm_cons_allocsErase h.keys_nodup he) (List.Perm.refl _)
  refine ⟨t, ht, rfl, ?_, hempty, ?_, ?_⟩
  · unfold HugePageFiller.Put
    rw [find_tracker h.nodup ht]
    simp only
    rw [PageTracker.Put_eq a.2 hag, hempty]
    cases v'.isEmpty <;> rfl
  · intro _ L' hL
    exact (h'.of_perm (List.Perm.refl _) (List.Perm.refl _) hL).remove_head
  · intro hne
    have hv' : v' ≠ [] := by
      intro hnil
      rw [hnil] at hne
      simp at hne
    have h'' := h'.update_head (t.uncarved P a.1) v' RP rfl
      (PageTracker.uncarved_WF (h.wf t ht) hag) (PageTracker.uncarved_agree hag) hv'
      h'.released
    exact h''.of_perm (replaceTracker_perm (t.uncarved P a.1) h.nodup ht rfl).symm
      (allocsSet_perm _ h.keys_nodup he).symm (List.Perm.refl _)

/-- Creating a tracker on a fresh huge page, carving the first range from it and contributing
it succeeds for every length up to `kPagesPerHugePage`; after the harness has recorded the
allocation the link holds again. -/
theorem contributeNewHugePage_inv {P : Params} (st : Harness) (hinv : st.Inv P) {n : Nat}
    (hn : 1 ≤ n) (hnK : n ≤ P.kPagesPerHugePage) (info : SpanAllocInfo) (donated : Bool) :
    ∃ st' page, contributeNewHugePage P st n info donated = .ok (st', st.next_hugepage, page) ∧
      (recordAlloc st' st.next_hugepage page n info).Inv P ∧
      (recordAlloc st' st.next_hugepage page n info).g.unback_success = st.g.unback_success := by
  have hlfr : n ≤ (PageTracker.create st.next_hugepage donated st.g.fake_clock).longest_free_range P := by
    unfold PageTracker.longest_free_range
    rw [show (PageTracker.create st.next_hugepage donated st.g.fake_clock).bitmap = ∅ from rfl,
      LongestFreeRange_empty]
    exact hnK
  obtain ⟨i, hi, hfree, hget⟩ := PageTracker.Get_eq info hlfr
  refine ⟨{ st with
      filler := st.filler.Contribute
        ((PageTracker.create st.next_hugepage donated st.g.fake_clock).carved i n info)
        donated info
      trackers := st.trackers ++ [st.next_hugepage]
      next_hugepage := st.next_hugepage + 1 },
    (PageTracker.create st.next_hugepage donated st.g.fake_clock).first_page P + i, ?_, ?_, ?_⟩
  · unfold contributeNewHugePage
    rw [hget]
  · unfold Harness.Inv recordAlloc
    simp only [HugePageFiller.Contribute]
    have hkfresh : st.next_hugepage ∉ st.allocs.map fun e => e.1 := by
      intro hmem
      have := hinv.keys_perm.mem_iff.1 hmem
      rw [List.mem_map] at this
      obtain ⟨u, hu, hue⟩ := this
      have := hinv.fresh u hu
      omega
    rw [allocsPushBack, allocs_any_of_not_mem hkfresh]
    simp only [Bool.false_eq_true, if_false]
    have hRP : eraseRange st.g.ReleasedPages
        ((PageTracker.create st.next_hugepage donated st.g.fake_clock).first_page P + i) n =
        st.g.ReleasedPages := by
      rw [eraseRange_eq, Finset.sdiff_eq_self_iff_disjoint, Finset.disjoint_left]
      intro p hp hp'
      rw [Finset.mem_Ico] at hp'
      have := hinv.released_lt hp
      have hfp : (PageTracker.create st.next_hugepage donated st.g.fake_clock).first_page P =
          st.next_hugepage * P.kPagesPerHugePage := rfl
      omega
    rw [hRP]
    exact Linked.add hinv rfl
      (PageTracker.carved_WF info (PageTracker.create_WF P _ _ _) hi hfree)
      (PageTracker.carved_agree info info (PageTracker.create_agree P _ _ _) hn hi hfree)
      (by simp [PageTracker.carved, PageTracker.create])
  · rfl

/-! ### Releasing through the filler with the mocks of the harness -/

theorem ReleasedFrom.refl (P : Params) (t : PageTracker) : ReleasedFrom P t t :=
  ⟨rfl, id, fun _ h => h⟩

theorem ReleasedFrom.withReleased (P : Params) (sel : Nat → Bool) (t : PageTracker) :
    ReleasedFrom P t (t.withReleased (t.releasable P sel)) :=
  ⟨rfl, PageTracker.withReleased_WF, fun _ h => PageTracker.withReleased_agree _ h⟩

theorem forall₂_releasedFrom_refl (P : Params) (ts : List PageTracker) :
    List.Forall₂ (ReleasedFrom P) ts ts :=
  List.forall₂_same.2 fun t _ => ReleasedFrom.refl P t

@[simp] theorem Globals.withReleased_unback_success (g : Globals) (X : Finset Nat) :
    (g.withReleased X).unback_success = g.unback_success := rfl

/-- The walk of `ReleasePages` with `MockUnback`: trackers change only by releasing pages, the
released set grows by exactly the pages the trackers newly hold released, and when unback
succeeds the walk either reaches the allowed count or releases every free page. -/
theorem releaseWalk_mock (P : Params) (allowed : Nat) (ts : List PageTracker) (released : Nat)
    (g : Globals) :
    ∃ ts' total X, releaseWalk P MockUnback allowed ts released g =
        (ts', total, g.withReleased X) ∧
      List.Forall₂ (ReleasedFrom P) ts ts' ∧
      releasedPagesOf P ts' = releasedPagesOf P ts ∪ X ∧
      (g.unback_success = true →
        allowed ≤ total ∨
          total = released + (ts.map fun t => (t.releasable P fun _ => true).card).sum) := by
  induction ts generalizing released g with
  | nil =>
    exact ⟨[], released, ∅, by simp [releaseWalk], List.Forall₂.nil, by simp [releasedPagesOf],
      fun _ => Or.inr (by simp)⟩
  | cons t ts ih =>
    unfold releaseWalk
    by_cases hal : allowed ≤ released
    · rw [if_pos hal]
      exact ⟨t :: ts, released, ∅, by simp, forall₂_releasedFrom_refl P _, by simp,
        fun _ => Or.inl hal⟩
    · rw [if_neg hal]
      unfold PageTracker.ReleaseFree
      rw [PageTracker.releaseWhere_mock]
      by_cases hs : g.unback_success = true
      · rw [if_pos hs]
        obtain ⟨ts', total, X, hw, hf, hr, hc⟩ := ih
          (released + (t.releasable P fun _ => true).card)
          (g.withReleased ((t.releasable P fun _ => true).image fun i => t.first_page P + i))
        refine ⟨t.withReleased (t.releasable P fun _ => true) :: ts', total,
          ((t.releasable P fun _ => true).image fun i => t.first_page P + i) ∪ X, ?_,
          List.Forall₂.cons (ReleasedFrom.withReleased P _ t) hf, ?_, ?_⟩
        · simp only [hw, Globals.withReleased_withReleased]
        · rw [releasedPagesOf, releasedPagesOf, hr, PageTracker.withReleased_releasedPages]
          ext p
          simp only [Finset.mem_union]
          tauto
        · intro _
          rcases hc hs with h | h
          · exact Or.inl h
          · right
            rw [h, List.map_cons, List.sum_cons]
            omega
      · rw [if_neg hs]
        obtain ⟨ts', total, X, hw, hf, hr, hc⟩ := ih (released + 0) g
        refine ⟨t :: ts', total, X, ?_, List.Forall₂.cons (ReleasedFrom.refl P t) hf, ?_, ?_⟩
        · simp only [hw]
        · rw [releasedPagesOf, releasedPagesOf, hr, Finset.union_assoc]
        · intro h
          exact absurd h hs

/-- For well-formed trackers the free pages of the filler are the releasable pages of its
trackers. -/
theorem sum_releasable {P : Params} {ts : List PageTracker} (hwf : ∀ t ∈ ts, t.WF P) :
    (ts.map fun t => (t.releasable P fun _ => true).card).sum +
        (ts.map fun t => t.nused_pages).sum + (ts.map fun t => t.released_bitmap.card).sum =
      ts.length * P.kPagesPerHugePage := by
  induction ts with
  | nil => simp
  | cons t ts ih =>
    have h1 := PageTracker.card_releasable (hwf t (List.mem_cons_self _ _))
    have h2 := ih fun u hu => hwf u (List.mem_cons_of_mem _ hu)
    simp only [List.map_cons, List.sum_cons, List.length_cons, Nat.add_mul, Nat.one_mul]
    omega

theorem HugePageFiller.free_pages_eq {P : Params} {f : HugePageFiller}
    (hwf : ∀ t ∈ f.trackers, t.WF P) :
    f.free_pages P = (f.trackers.map fun t => (t.releasable P fun _ => true).card).sum := by
  have := sum_releasable hwf
  unfold HugePageFiller.free_pages HugePageFiller.size HugePageFiller.used_pages
    HugePageFiller.unmapped_pages
  omega

theorem HugePageFiller.FreePagesInPartialAllocs_le {P : Params} {f : HugePageFiller}
    (hwf : ∀ t ∈ f.trackers, t.WF P) : f.FreePagesInPartialAllocs P ≤ f.free_pages P := by
  rw [HugePageFiller.free_pages_eq hwf]
  unfold HugePageFiller.FreePagesInPartialAllocs
  have hsub : (f.trackers.filter fun t => t.partlyUsed P).Sublist f.trackers :=
    List.filter_sublist _
  have h1 : ((f.trackers.filter fun t => t.partlyUsed P).map fun t =>
      P.kPagesPerHugePage - t.nused_pages - t.released_bitmap.card) =
      (f.trackers.filter fun t => t.partlyUsed P).map fun t =>
        (t.releasable P fun _ => true).card := by
    apply List.map_congr_left
    intro t ht
    have := PageTracker.card_releasable (hwf t (List.mem_filter.1 ht).1)
    omega
  rw [h1]
  exact List.Sublist.sum_le_sum (hsub.map _) (fun _ _ => Nat.zero_le _)

/-- `ReleasePages` with the callbacks of the harness keeps the invariant, changes no global
but the released set, and when unback succeeds releases at least the allowed count or else
all free pages. -/
theorem ReleasePages_inv {P : Params} {st : Harness} (hinv : st.Inv P) (desired : Nat)
    (intervals : SkipSubreleaseIntervals) (release_partial_allocs hit_limit : Bool) :
    ∃ f' released X,
      st.filler.ReleasePages P mockCallbacks desired intervals release_partial_allocs
        hit_limit st.g = (f', released, st.g.withReleased X) ∧
      Harness.Inv P { st with g := st.g.withReleased X, filler := f' } ∧
      (st.g.unback_success = true →
        min (st.filler.allowedToRelease P st.g.fake_clock desired intervals
          release_partial_allocs hit_limit) (st.filler.free_pages P) ≤ released) := by
  have hsort : (st.filler.trackers.insertionSort fun a b => releaseBefore a b = true).Perm
      st.filler.trackers := List.perm_insertionSort _ _
  obtain ⟨ts', total, X, hw, hf, hr, hc⟩ := releaseWalk_mock P
    (st.filler.allowedToRelease P st.g.fake_clock desired intervals release_partial_allocs
      hit_limit)
    (st.filler.trackers.insertionSort fun a b => releaseBefore a b = true) 0 st.g
  refine ⟨{ st.filler with
      trackers := ts'
      history := { time := st.g.fake_clock, used_pages := st.filler.used_pages,
                   free_pages := st.filler.free_pages P } :: st.filler.history },
    total, X, ?_, ?_, ?_⟩
  · unfold HugePageFiller.ReleasePages
    simp only [mockCallbacks, mock_clock]
    rw [hw]
  · have h1 : Linked P (st.filler.trackers.insertionSort fun a b => releaseBefore a b = true)
        st.allocs st.trackers st.next_hugepage st.g.ReleasedPages :=
      Linked.of_perm hinv hsort.symm (List.Perm.refl _) (List.Perm.refl _)
    refine Linked.of_releasedFrom h1 hf ?_
    show st.g.ReleasedPages ∪ X = releasedPagesOf P ts'
    rw [hr, h1.released]
  · intro hs
    rcases hc hs with h | h
    · exact le_trans (Nat.min_le_left _ _) h
    · rw [HugePageFiller.free_pages_eq hinv.wf, h, Nat.zero_add]
      rw [((hsort.map fun t => (t.releasable P fun _ => true).card).sum_eq)]
      exact Nat.min_le_right _ _

theorem MaybeCollapse_mock_state (P : Params) (t : PageTracker) (g : Globals) :
    (t.MaybeCollapse P FakePageFlags (FakeResidency P) MockCollapse g).2 = g := by
  unfold PageTracker.MaybeCollapse
  simp only
  split
  · simp only [MockCollapse]
    cases g.collapse_success <;> rfl
  · rfl

theorem treatTracker_mock_eq (P : Params)
    (enable_collapse enable_release_free_swapped : Bool) (t : PageTracker) (g : Globals) :
    treatTracker P mockCallbacks enable_collapse enable_release_free_swapped
        FakePageFlags (FakeResidency P) t g =
      if enable_release_free_swapped = true ∧ g.unback_success = true then
        (t.withReleased (t.releasable P fun i => decide (i ∈ g.swapped_bitmap)),
          g.withReleased ((t.releasable P fun i => decide (i ∈ g.swapped_bitmap)).image
            fun i => t.first_page P + i))
      else (t, g) := by
  unfold treatTracker
  simp only [mockCallbacks, MaybeCollapse_mock_state, Prod.mk.eta, ite_self]
  cases enable_release_free_swapped with
  | false => simp
  | true =>
    simp only [if_true, true_and]
    unfold PageTracker.ReleaseFreeSwapped
    rw [PageTracker.releaseWhere_mock]
    by_cases hs : g.unback_success = true
    · rw [if_pos hs, if_pos hs]
      rfl
    · rw [if_neg hs, if_neg hs]

theorem treatTracker_mock (P : Params) (enable_collapse enable_release_free_swapped : Bool)
    (t : PageTracker) (g : Globals) :
    ∃ t' X, treatTracker P mockCallbacks enable_collapse enable_release_free_swapped
        FakePageFlags (FakeResidency P) t g = (t', g.withReleased X) ∧
      ReleasedFrom P t t' ∧
      t'.releasedPages P = t.releasedPages P ∪ X := by
  rw [treatTracker_mock_eq]
  by_cases h : enable_release_free_swapped = true ∧ g.unback_success = true
  · rw [if_pos h]
    exact ⟨_, _, rfl, ReleasedFrom.withReleased P _ t,
      PageTracker.withReleased_releasedPages P t _⟩
  · rw [if_neg h]
    exact ⟨t, ∅, by simp, ReleasedFrom.refl P t, by simp⟩

theorem treatTrackers_mock (P : Params) (enable_collapse enable_release_free_swapped : Bool)
    (ts : List PageTracker) (g : Globals) :
    ∃ ts' X, treatTrackers P mockCallbacks enable_collapse enable_release_free_swapped
        FakePageFlags (FakeResidency P) ts g = (ts', g.withReleased X) ∧
      List.Forall₂ (ReleasedFrom P) ts ts' ∧
      releasedPagesOf P ts' = releasedPagesOf P ts ∪ X := by
  induction ts generalizing g with
  | nil => exact ⟨[], ∅, by simp [treatTrackers], List.Forall₂.nil, by simp [releasedPagesOf]⟩
  | cons t ts ih =>
    obtain ⟨t', X1, h1, hr1, hp1⟩ :=
      treatTracker_mock P enable_collapse enable_release_free_swapped t g
    obtain ⟨ts', X2, h2, hr2, hp2⟩ := ih (g.withReleased X1)
    refine ⟨t' :: ts', X1 ∪ X2, ?_, List.Forall₂.cons hr1 hr2, ?_⟩
    · unfold treatTrackers
      rw [h1]
      simp only
      rw [h2]
      simp
    · rw [releasedPagesOf, releasedPagesOf, hp1, hp2]
      ext p
      simp only [Finset.mem_union]
      tauto

/-- `TreatHugepageTrackers` with the mocks of the harness keeps the invariant, and
`FetchFullyFreedTracker` finds nothing afterwards. -/
theorem TreatHugepageTrackers_inv {P : Params} {st : Harness} (hinv : st.Inv P)
    (enable_collapse enable_release_free_swapped : Bool) :
    ∃ f' X,
      st.filler.TreatHugepageTrackers P mockCallbacks enable_collapse
        enable_release_free_swapped FakePageFlags (FakeResidency P) st.g =
          (f', st.g.withReleased X) ∧
      f'.FetchFullyFreedTracker = (f', none) ∧
      Harness.Inv P { st with g := st.g.withReleased X, filler := f' } := by
  obtain ⟨ts', X, hw, hf, hr⟩ := treatTrackers_mock P enable_collapse
    enable_release_free_swapped st.filler.trackers st.g
  have hlinked : Linked P ts' st.allocs st.trackers st.next_hugepage (st.g.ReleasedPages ∪ X) :=
    Linked.of_releasedFrom hinv hf (by rw [hr, hinv.released])
  refine ⟨{ st.filler with trackers := ts' }, X, ?_, ?_, hlinked⟩
  · unfold HugePageFiller.TreatHugepageTrackers
    rw [hw]
  · unfold HugePageFiller.FetchFullyFreedTracker
    have hnone : ts'.find? (fun t => t.empty) = none := by
      rw [List.find?_eq_none]
      intro t ht
      rw [hlinked.tracker_not_empty ht]
      simp
    simp only [hnone]

/-! ### The operations of the harness keep the invariant -/

theorem checkSizes_ok {P : Params} {st : Harness} (hinv : st.Inv P) (line : Nat) :
    checkSizes line st = .ok st := by
  unfold checkSizes
  rw [if_neg (by
    rw [not_not]
    exact hinv.length_eq), if_neg (by
    rw [not_not]
    exact hinv.unmapped_eq)]

theorem clamp_bounds (v : Nat) {lo hi : Nat} (h : lo ≤ hi) :
    lo ≤ clamp v lo hi ∧ clamp v lo hi ≤ hi := by
  unfold clamp
  split_ifs <;> omega

theorem allocateRequest_bounds {P : Params} (hP : P.Valid) (value : Nat) :
    1 ≤ (allocateRequest P value).1 ∧
      (allocateRequest P value).1 ≤ P.kPagesPerHugePage - 1 := by
  have hK := hP.1
  have hc : 1 ≤ clamp (value &&& 0xFFFF) 1 (P.kPagesPerHugePage - 1) ∧
      clamp (value &&& 0xFFFF) 1 (P.kPagesPerHugePage - 1) ≤ P.kPagesPerHugePage - 1 :=
    clamp_bounds _ (by omega)
  unfold allocateRequest
  simp only
  split_ifs <;> omega

theorem opAllocate_inv {P : Params} (hP : P.Valid) {st : Harness} (hinv : st.Inv P)
    (value : Nat) :
    ∃ st', opAllocate P st value = .ok st' ∧ st'.Inv P ∧
      st'.g.unback_success = st.g.unback_success := by
  obtain ⟨hn1, hnK⟩ := allocateRequest_bounds hP value
  unfold opAllocate
  simp only [checkSizes_ok hinv]
  rcases HugePageFiller.TryGet_linked hinv hn1 (allocateRequest P value).2 with
    hnone | ⟨f', pt, page, hget, hlinked⟩
  · rw [hnone]
    simp only
    obtain ⟨st', page, hc, hinv', hus⟩ := contributeNewHugePage_inv
      { st with filler := st.filler } hinv hn1 (by omega)
      (allocateRequest P value).2 (decide (P.kPagesPerHugePage / 2 < (allocateRequest P value).1))
    rw [hc]
    simp only
    exact ⟨_, checkSizes_ok hinv' 282, hinv', hus⟩
  · rw [hget]
    simp only
    have hinv' : (recordAlloc { st with filler := f' } pt page (allocateRequest P value).1
        (allocateRequest P value).2).Inv P := hlinked
    exact ⟨_, checkSizes_ok hinv' 282, hinv', rfl⟩

theorem opDonateTail_inv {P : Params} (hP : P.Valid) {st : Harness} (hinv : st.Inv P)
    (value : Nat) :
    ∃ st', opDonateTail P st value = .ok st' ∧ st'.Inv P ∧
      st'.g.unback_success = st.g.unback_success := by
  have hK := hP.1
  have hc : 1 ≤ clamp (value &&& 0xFFFF) 1 (P.kPagesPerHugePage - 1) ∧
      clamp (value &&& 0xFFFF) 1 (P.kPagesPerHugePage - 1) ≤ P.kPagesPerHugePage - 1 :=
    clamp_bounds _ (by omega)
  unfold opDonateTail
  simp only
  obtain ⟨st', page, hcn, hinv', hus⟩ := contributeNewHugePage_inv st hinv hc.1
    (show clamp (value &&& 0xFFFF) 1 (P.kPagesPerHugePage - 1) ≤ P.kPagesPerHugePage by omega)
    { objects_per_span := 1, density := AccessDensityPrediction.kSparse } true
  rw [hcn]
  simp only
  exact ⟨_, checkSizes_ok hinv' 452, hinv', hus⟩

/-- Changing globals other than the released set does not touch the invariant. -/
theorem Harness.Inv.of_same {P : Params} {st st' : Harness} (hinv : st.Inv P)
    (hf : st'.filler = st.filler) (ht : st'.trackers = st.trackers)
    (ha : st'.allocs = st.allocs) (hn : st'.next_hugepage = st.next_hugepage)
    (hr : st'.g.ReleasedPages = st.g.ReleasedPages) : st'.Inv P := by
  unfold Harness.Inv at *
  rw [hf, ht, ha, hn, hr]
  exact hinv

theorem opTreatHugepageTrackers_inv {P : Params} {st : Harness} (hinv : st.Inv P)
    (value : Nat) :
    ∃ st', opTreatHugepageTrackers P st value = .ok st' ∧ st'.Inv P := by
  obtain ⟨f', X, htreat, hfetch, hinv'⟩ := TreatHugepageTrackers_inv hinv
    (decide (value &&& 0x1 ≠ 0)) (decide ((value >>> 1) &&& 0x1 ≠ 0))
  unfold opTreatHugepageTrackers
  simp only
  rw [htreat]
  simp only
  rw [hfetch]
  exact ⟨_, rfl, hinv'⟩

theorem div_le_ceil (x d : Nat) : x / d ≤ (x + (d - 1)) / d :=
  Nat.div_le_div_right (Nat.le_add_right _ _)

theorem le_ceil_mul {x d : Nat} (hd : 0 < d) : x ≤ (x + (d - 1)) / d * d := by
  have h := Nat.lt_mul_div_succ (x + (d - 1)) hd
  rw [Nat.mul_add, Nat.mul_one, Nat.mul_comm] at h
  omega

/-- What `ReleasePages` allows when the partial allocs are to be released, the limit is not
hit and skip-subrelease is disabled. -/
theorem allowedToRelease_partial_ge (P : Params) (f : HugePageFiller) (now : Int) (desired : Nat)
    {intervals : SkipSubreleaseIntervals} (hdis : intervals.SkipSubreleaseEnabled = false) :
    partialAllocPagesTarget P (f.FreePagesInPartialAllocs P) ≤
      f.allowedToRelease P now desired intervals true false := by
  unfold HugePageFiller.allowedToRelease
  simp only [hdis, Bool.not_false, Bool.or_true, if_true]
  exact Nat.le_max_right _ _

theorem allowedToRelease_hit_limit (P : Params) (f : HugePageFiller) (now : Int) (desired : Nat)
    (intervals : SkipSubreleaseIntervals) :
    f.allowedToRelease P now desired intervals false true = desired := by
  unfold HugePageFiller.allowedToRelease
  simp

theorem opRelease_inv {P : Params} (hP : P.Valid) {st : Harness} (hinv : st.Inv P)
    (value : Nat) :
    ∃ st', opRelease P st value = .ok st' ∧ st'.Inv P := by
  obtain ⟨hK, hden, hnum⟩ := hP
  obtain ⟨f', released, X, hrel, hinv', hcount⟩ := ReleasePages_inv hinv
    (releaseRequest value).desired (releaseRequest value).intervals
    (releaseRequest value).release_partial_allocs (releaseRequest value).hit_limit
  unfold opRelease
  simp only
  rw [hrel]
  simp only
  rw [if_neg]
  · exact ⟨_, rfl, hinv'⟩
  · intro hcond
    simp only [Bool.and_eq_true, Bool.not_eq_true', decide_eq_true_eq,
      Globals.withReleased_unback_success] at hcond
    obtain ⟨⟨⟨⟨hrpa, hhit⟩, hdis⟩, hus⟩, hlt⟩ := hcond
    have h1 := hcount hus
    rw [hrpa, hhit] at h1
    have h2 := allowedToRelease_partial_ge P st.filler st.g.fake_clock
      (releaseRequest value).desired hdis
    have h3 := HugePageFiller.FreePagesInPartialAllocs_le (f := st.filler) hinv.wf
    have h4 : P.kPartialAllocPagesReleaseNum * st.filler.FreePagesInPartialAllocs P /
        P.kPartialAllocPagesReleaseDen ≤ st.filler.FreePagesInPartialAllocs P := by
      apply Nat.div_le_of_le_mul
      exact Nat.mul_le_mul_right _ hnum
    have h5 := div_le_ceil (P.kPartialAllocPagesReleaseNum * st.filler.FreePagesInPartialAllocs P)
      P.kPartialAllocPagesReleaseDen
    unfold partialAllocPagesTarget at h2
    rw [min_le_iff] at h1
    omega

theorem opReleaseHitLimit_inv {P : Params} {st : Harness} (hinv : st.Inv P) (value : Nat) :
    ∃ st', opReleaseHitLimit P st value = .ok st' ∧ st'.Inv P := by
  obtain ⟨f', released, X, hrel, hinv', hcount⟩ := ReleasePages_inv hinv
    (value &&& 0xFF) { peak_interval := 0, short_interval := 0, long_interval := 0 } false true
  unfold opReleaseHitLimit
  simp only
  rw [hrel]
  simp only
  rw [if_neg]
  · exact ⟨_, rfl, hinv'⟩
  · rw [Globals.withReleased_unback_success]
    by_cases hus : st.g.unback_success = true
    · rw [if_pos hus]
      have := hcount hus
      rw [allowedToRelease_hit_limit, Nat.min_comm] at this
      exact Nat.not_lt.2 this
    · rw [if_neg hus]
      omega

theorem opDeallocate_inv {P : Params} {st : Harness} (hinv : st.Inv P) (value : Nat) :
    ∃ st', opDeallocate P st value = .ok st' ∧ st'.Inv P ∧
      st'.g.unback_success = st.g.unback_success := by
  unfold opDeallocate
  by_cases hemp : st.trackers.isEmpty = true
  · rw [if_pos hemp]
    exact ⟨st, rfl, hinv, rfl⟩
  · rw [if_neg hemp]
    simp only
    have hlen : 0 < st.trackers.length := by
      cases h : st.trackers with
      | nil => rw [h] at hemp; simp at hemp
      | cons x xs => simp
    have hlo : min (value &&& 0xFFFF) (st.trackers.length - 1) < st.trackers.length := by
      have := Nat.min_le_right (value &&& 0xFFFF) (st.trackers.length - 1)
      omega
    generalize min (value &&& 0xFFFF) (st.trackers.length - 1) = lo at hlo ⊢
    have hptmem : st.trackers.getD lo 0 ∈ st.trackers := by
      rw [List.getD_eq_getElem _ _ hlo]
      exact List.getElem_mem _
    have hLperm := swapRemove_perm st.trackers lo hlo
    rw [show (default : Nat) = 0 from rfl] at hLperm
    generalize st.trackers.getD lo 0 = pt at hptmem hLperm ⊢
    obtain ⟨t, ht, rfl⟩ := hinv.exists_tracker hptmem
    obtain ⟨v, hv, hag, hvne⟩ := hinv.exists_entry ht
    rw [allocsAt_of_mem hinv.keys_nodup hv]
    have hvlen : 0 < v.length := List.length_pos.2 hvne
    rw [if_neg (by
      cases v with
      | nil => exact absurd rfl hvne
      | cons x xs => simp)]
    have hhi : min (value >>> 16) (v.length - 1) < v.length := by
      have := Nat.min_le_right (value >>> 16) (v.length - 1)
      omega
    generalize min (value >>> 16) (v.length - 1) = hi at hhi ⊢
    have hvperm := swapRemove_perm v hi hhi
    obtain ⟨t', ht', hloc, hput, hempty, hlast, hmore⟩ :=
      HugePageFiller.Put_linked hinv hv hvperm
    rw [hput]
    cases hsr : (swapRemove v hi).isEmpty with
    | true =>
      simp only [if_true]
      rw [eraseRange_eq]
      have hinv' := hlast hsr _ hLperm
      simp only [PageTracker.uncarved_first_page]
      generalize st.g.ReleasedPages \ Finset.Ico (t'.first_page P)
        (t'.first_page P + P.kPagesPerHugePage) = RP' at hinv' ⊢
      have hinv'' : Harness.Inv P
          ⟨{ st.g with ReleasedPages := RP' },
            { st.filler with trackers := removeTracker t.location st.filler.trackers },
            swapRemove st.trackers lo, allocsErase st.allocs t.location,
            st.next_hugepage⟩ := hinv'
      exact ⟨_, by simp [checkSizes_ok hinv''], hinv'', rfl⟩
    | false =>
      simp only [Bool.false_eq_true, if_false]
      have hinv' := hmore hsr
      have hinv'' : Harness.Inv P
          ⟨{ st.g with ReleasedPages := st.g.ReleasedPages },
            { st.filler with trackers :=
                replaceTracker (t'.uncarved P (v.getD hi default).1) st.filler.trackers },
            st.trackers, allocsSet st.allocs t.location (swapRemove v hi),
            st.next_hugepage⟩ := hinv'
      refine ⟨_, ?_, hinv'', rfl⟩
      simp only [Option.isSome_none, ne_eq, not_true_eq_false, if_false]
      exact checkSizes_ok hinv'' 331

theorem step_inv {P : Params} (hP : P.Valid) {st : Harness} (hinv : st.Inv P) (op value : Nat) :
    ∃ st', step P st op value = .ok st' ∧ st'.Inv P := by
  unfold step
  by_cases h0 : op &&& 0xF = 0
  · rw [if_pos h0]
    obtain ⟨st', h1, h2, _⟩ := opAllocate_inv hP hinv value
    exact ⟨st', h1, h2⟩
  rw [if_neg h0]
  by_cases h1 : op &&& 0xF = 1
  · rw [if_pos h1]
    obtain ⟨st', h1, h2, _⟩ := opDeallocate_inv hinv value
    exact ⟨st', h1, h2⟩
  rw [if_neg h1]
  by_cases h2 : op &&& 0xF = 2
  · rw [if_pos h2]
    exact opRelease_inv hP hinv value
  rw [if_neg h2]
  by_cases h3 : op &&& 0xF = 3
  · rw [if_pos h3]
    exact ⟨_, rfl, hinv.of_same rfl rfl rfl rfl rfl⟩
  rw [if_neg h3]
  by_cases h4 : op &&& 0xF = 4
  · rw [if_pos h4]
    exact ⟨_, rfl, hinv.of_same rfl rfl rfl rfl rfl⟩
  rw [if_neg h4]
  by_cases h6 : op &&& 0xF = 6
  · rw [if_pos h6]
    obtain ⟨st', h1, h2, _⟩ := opDonateTail_inv hP hinv value
    exact ⟨st', h1, h2⟩
  rw [if_neg h6]
  by_cases h7 : op &&& 0xF = 7
  · rw [if_pos h7]
    exact opReleaseHitLimit_inv hinv value
  rw [if_neg h7]
  by_cases h10 : op &&& 0xF = 10
  · rw [if_pos h10]
    exact opTreatHugepageTrackers_inv hinv value
  rw [if_neg h10]
  by_cases h11 : op &&& 0xF = 11
  · rw [if_pos h11]
    refine ⟨_, rfl, hinv.of_same ?_ ?_ ?_ ?_ ?_⟩ <;>
      (unfold opSetResidency; split_ifs <;> rfl)
  rw [if_neg h11]
  by_cases h12 : op &&& 0xF = 12
  · rw [if_pos h12]
    exact ⟨_, rfl, hinv.of_same rfl rfl rfl rfl rfl⟩
  rw [if_neg h12]
  exact ⟨st, rfl, hinv⟩

theorem runOps_inv {P : Params} (hP : P.Valid) {st : Harness} (hinv : st.Inv P)
    (ops : List (Nat × Nat)) :
    ∃ st', runOps P st ops = .ok st' ∧ st'.Inv P := by
  induction ops generalizing st with
  | nil => exact ⟨st, rfl, hinv⟩
  | cons o ops ih =>
    obtain ⟨op, value⟩ := o
    obtain ⟨st1, h1, hinv1⟩ := step_inv hP hinv op value
    obtain ⟨st2, h2, hinv2⟩ := ih hinv1
    refine ⟨st2, ?_, hinv2⟩
    unfold runOps
    rw [h1]
    exact h2

theorem initialHarness_inv (P : Params) (g : Globals) (s : List Byte) :
    (initialHarness g s).Inv P := by
  unfold Harness.Inv initialHarness HugePageFiller.create
  constructor <;> simp [releasedPagesOf]

/-- Every prefix of the operation loop runs without a failed check and without a fatal error,
and ends in a state that satisfies the invariant. -/
theorem stateAfter_inv {P : Params} (hP : P.Valid) (g : Globals) (s : List Byte) (k : Nat) :
    ∃ st, stateAfter P g s k = .ok st ∧ st.Inv P :=
  runOps_inv hP (initialHarness_inv P g s) _

/-! ### The shutdown loop -/

theorem allocsErase_head {A : List (Nat × List (Range × SpanAllocInfo))} {pt : Nat}
    {v : List (Range × SpanAllocInfo)} (h : pt ∉ A.map fun e => e.1) :
    allocsErase ((pt, v) :: A) pt = A := by
  rw [allocsErase, List.filter_cons_of_neg (by simp)]
  exact allocsErase_of_not_mem h

theorem allocsSet_head {A : List (Nat × List (Range × SpanAllocInfo))} {pt : Nat}
    {v : List (Range × SpanAllocInfo)} (v' : List (Range × SpanAllocInfo))
    (h : pt ∉ A.map fun e => e.1) :
    allocsSet ((pt, v) :: A) pt v' = (pt, v') :: A := by
  rw [allocsSet, List.map_cons, if_pos rfl]
  congr 1
  exact allocsSet_of_not_mem v' h

/-- Putting back all recorded allocations of one tracker: every `Put` but the last returns
null, the last returns the tracker, and the tracker has left the filler. -/
theorem putAll_linked {P : Params} {pt : Nat} {v : List (Range × SpanAllocInfo)}
    {A : List (Nat × List (Range × SpanAllocInfo))} {L : List Nat} {next : Nat}
    (f : HugePageFiller) {RP : Finset Nat}
    (h : Linked P f.trackers ((pt, v) :: A) (pt :: L) next RP) :
    ∃ f' RP', putAll P pt v f =
        .ok (f', List.replicate (v.length - 1) none ++ [some pt]) ∧
      Linked P f'.trackers A L next RP' := by
  have hknd : pt ∉ A.map fun e => e.1 := by
    have := h.keys_nodup
    rw [List.map_cons, List.nodup_cons] at this
    exact this.1
  induction v generalizing f RP with
  | nil =>
    exfalso
    obtain ⟨t, ht, hloc⟩ := h.exists_tracker (List.mem_cons_self _ _)
    exact (h.agree _ (List.mem_cons_self _ _) t ht hloc).2 rfl
  | cons a rest ih =>
    obtain ⟨t, ht, hloc, hput, hempty, hlast, hmore⟩ :=
      HugePageFiller.Put_linked h (List.mem_cons_self _ _) (List.Perm.refl (a :: rest))
    unfold putAll
    rw [hput]
    cases hr : rest.isEmpty with
    | true =>
      have hnil : rest = [] := List.isEmpty_iff.1 hr
      subst hnil
      have hl := hlast hr L (List.Perm.refl _)
      rw [allocsErase_head hknd] at hl
      refine ⟨{ f with trackers := removeTracker pt f.trackers }, _, ?_, hl⟩
      simp [putAll, PageTracker.uncarved, hloc]
    | false =>
      have hm := hmore hr
      rw [allocsSet_head _ hknd] at hm
      obtain ⟨f', RP', hall, hl⟩ := ih
        { f with trackers := replaceTracker (t.uncarved P a.1) f.trackers } hm
      refine ⟨f', RP', ?_, hl⟩
      simp only [Bool.false_eq_true, if_false, Option.isSome_none, ne_eq, not_true_eq_false]
      rw [hall]
      have hlen : 0 < rest.length := by
        cases rest with
        | nil => simp at hr
        | cons x xs => simp
      simp only [Option.map_none', List.length_cons, Nat.add_sub_cancel]
      rw [show rest.length = (rest.length - 1) + 1 by omega, List.replicate_succ]
      simp

/-- The shutdown loop succeeds, logs for every entry of `allocs` that only the last `Put`
returned the tracker, and leaves an empty filler. -/
theorem shutdownLoop_linked {P : Params} {A : List (Nat × List (Range × SpanAllocInfo))}
    {next : Nat} (f : HugePageFiller) {RP : Finset Nat}
    (h : Linked P f.trackers A (A.map fun e => e.1) next RP) :
    ∃ f', shutdownLoop P A f =
        .ok (f', A.map fun e => (e.1, List.replicate (e.2.length - 1) none ++ [some e.1])) ∧
      f'.size = 0 := by
  induction A generalizing f RP with
  | nil =>
    refine ⟨f, rfl, ?_⟩
    have := h.trackers_perm.length_eq
    simpa [HugePageFiller.size] using this.symm
  | cons e A ih =>
    obtain ⟨pt, v⟩ := e
    obtain ⟨f1, RP1, hput, hl⟩ := putAll_linked f h
    obtain ⟨f2, hloop, hsize⟩ := ih f1 hl
    refine ⟨f2, ?_, hsize⟩
    unfold shutdownLoop
    rw [hput]
    simp only
    rw [hloop]
    simp

/-! ## Part 3. The claims -/

/-- C1: for every fuzz input and every initial value of the globals, every prefix of the
operation loop runs without a failed check, and in the state it reaches (the state before the
next operation and after the last one, where the harness checks) `filler.size()` equals the
length of the harness's `trackers` list. -/
theorem filler_size_eq_trackers {P : Params} (hP : P.Valid) (g : Globals) (s : List Byte)
    (k : Nat) :
    ∃ st, stateAfter P g s k = .ok st ∧ st.filler.size = st.trackers.length := by
  obtain ⟨st, hst, hinv⟩ := stateAfter_inv hP g s k
  exact ⟨st, hst, hinv.length_eq⟩

/-- Witness for C1: the theorem at the small constants and the example input. -/
theorem filler_size_eq_trackers_witness :
    ∃ st, stateAfter tinyParams exampleGlobals exampleInput 3 = .ok st ∧
      st.filler.size = st.trackers.length :=
  filler_size_eq_trackers ⟨by decide, by decide, by decide⟩ exampleGlobals exampleInput 3

/-- C2: for every fuzz input, in every state the operation loop reaches
`filler.unmapped_pages()` equals the size of the harness's released-page set (pages inserted by
successful `MockUnback` calls, erased when a range is allocated and when `Put` returns a
tracker); in particular no page of a recorded allocation is in the released set. -/
theorem unmapped_pages_eq_released_set {P : Params} (hP : P.Valid) (g : Globals)
    (s : List Byte) (k : Nat) :
    ∃ st, stateAfter P g s k = .ok st ∧
      st.filler.unmapped_pages = st.g.ReleasedPages.card ∧
      ∀ e ∈ st.allocs, ∀ a ∈ e.2, ∀ p, a.1.p ≤ p → p < a.1.p + a.1.n →
        p ∉ st.g.ReleasedPages := by
  obtain ⟨st, hst, hinv⟩ := stateAfter_inv hP g s k
  refine ⟨st, hst, hinv.unmapped_eq, ?_⟩
  intro e he a ha p hp1 hp2 hmem
  rw [hinv.released, mem_releasedPagesOf] at hmem
  obtain ⟨u, hu, hpu⟩ := hmem
  have hkey : e.1 ∈ st.filler.trackers.map fun t => t.location :=
    hinv.keys_perm.mem_iff.1 (List.mem_map_of_mem (fun e => e.1) he)
  rw [List.mem_map] at hkey
  obtain ⟨t, ht, hte⟩ := hkey
  obtain ⟨h1, h2, h3, h4⟩ := (hinv.agree e he t ht hte).1.inside a ha
  have hbu := PageTracker.releasedPages_bounds (hinv.wf u hu) hpu
  have htu : t = u := by
    by_contra hne
    have hloc : t.location ≠ u.location := by
      intro heq
      have := find_tracker hinv.nodup ht
      rw [heq, find_tracker hinv.nodup hu] at this
      exact hne (Option.some.inj this).symm
    unfold PageTracker.first_page at h2 h3
    exact hugepage_disjoint hloc (p := p) (q := p) (by omega) (by omega) hbu.1 hbu.2 rfl
  subst htu
  simp only [PageTracker.releasedPages, Finset.mem_image] at hpu
  obtain ⟨i, hi, hip⟩ := hpu
  apply (hinv.wf t ht).disjoint i hi
  have := h4 (p - a.1.p) (by omega)
  rw [show a.1.p - t.first_page P + (p - a.1.p) = i by omega] at this
  exact this

/-- Witness for C2: the theorem at the small constants and the example input. -/
theorem unmapped_pages_eq_released_set_witness :
    ∃ st, stateAfter tinyParams exampleGlobals exampleInput 5 = .ok st ∧
      st.filler.unmapped_pages = st.g.ReleasedPages.card ∧
      ∀ e ∈ st.allocs, ∀ a ∈ e.2, ∀ p, a.1.p ≤ p → p < a.1.p + a.1.n →
        p ∉ st.g.ReleasedPages :=
  unmapped_pages_eq_released_set ⟨by decide, by decide, by decide⟩ exampleGlobals exampleInput 5

/-- C3: in every state the operation loop reaches, every tracker the filler owns has recorded
allocations, and for every recorded (that is, currently allocated) range `a` of a tracker `pt`
the call `filler.Put(pt, a)` succeeds and returns a tracker exactly when `a` is the only
outstanding allocation of `pt`; the returned tracker is `pt` (same location) and is empty
(`nallocs == 0`, `nused_pages == 0`). -/
theorem put_returns_tracker_iff_last {P : Params} (hP : P.Valid) (g : Globals) (s : List Byte)
    (k : Nat) :
    ∃ st, stateAfter P g s k = .ok st ∧
      (∀ t ∈ st.filler.trackers, ∃ v, (t.location, v) ∈ st.allocs) ∧
      ∀ pt v a, (pt, v) ∈ st.allocs → a ∈ v →
        ∃ f' ret, st.filler.Put P pt a.1 a.2 = .ok (f', ret) ∧
          (ret.isSome = true ↔ v.length = 1) ∧
          ∀ t, ret = some t →
            t.location = pt ∧ t.empty = true ∧ t.nallocs = 0 ∧ t.nused_pages = 0 := by
  obtain ⟨st, hst, hinv⟩ := stateAfter_inv hP g s k
  refine ⟨st, hst, ?_, ?_⟩
  · intro t ht
    obtain ⟨v, hv, _⟩ := hinv.exists_entry ht
    exact ⟨v, hv⟩
  · intro pt v a hv ha
    obtain ⟨v', hperm⟩ : ∃ v', v.Perm (a :: v') := ⟨_, List.perm_cons_erase ha⟩
    obtain ⟨t, ht, hloc, hput, hempty, _, _⟩ :=
      HugePageFiller.Put_linked (P := P) hinv hv hperm
    have hlen : v.length = v'.length + 1 := by
      rw [hperm.length_eq, List.length_cons]
    cases v' with
    | nil =>
      refine ⟨_, _, hput, ?_, ?_⟩
      · simp [hlen]
      · intro t' ht'
        simp only [List.isEmpty_nil, if_true, Option.some.injEq] at ht'
        subst ht'
        have hemp := hempty
        simp only [PageTracker.empty, List.isEmpty_nil, Bool.and_eq_true, beq_iff_eq] at hemp
        exact ⟨hloc, hempty, hemp.2, hemp.1⟩
    | cons b w =>
      refine ⟨_, _, hput, ?_, ?_⟩
      · simp [hlen]
      · intro t' ht'
        simp at ht'

/-- Witness for C3: the theorem at the small constants and the example input. -/
theorem put_returns_tracker_iff_last_witness :
    ∃ st, stateAfter tinyParams exampleGlobals exampleInput 3 = .ok st ∧
      (∀ t ∈ st.filler.trackers, ∃ v, (t.location, v) ∈ st.allocs) ∧
      ∀ pt v a, (pt, v) ∈ st.allocs → a ∈ v →
        ∃ f' ret, st.filler.Put tinyParams pt a.1 a.2 = .ok (f', ret) ∧
          (ret.isSome = true ↔ v.length = 1) ∧
          ∀ t, ret = some t →
            t.location = pt ∧ t.empty = true ∧ t.nallocs = 0 ∧ t.nused_pages = 0 :=
  put_returns_tracker_iff_last ⟨by decide, by decide, by decide⟩ exampleGlobals exampleInput 3

/-- C4: an input the size guard rejects does nothing. For every other input `FuzzFiller` runs
to completion without a failed check; in the shutdown loop, for every tracker (every entry of
`allocs`, each tracker having exactly one entry) every `Put` but the last returned null and
the last returned that tracker; and the filler ends with size 0. The same holds for every
order in which the entries of `allocs` may be visited. -/
theorem shutdown_returns_each_tracker_once {P : Params} (hP : P.Valid) (g : Globals)
    (s : List Byte) :
    if s.length ≤ 3 ∨ s.length > 100000 then FuzzFiller P g s = .ok none
    else ∃ r, FuzzFiller P g s = .ok (some r) ∧
      runOps P (initialHarness g s) (decodeOps (s.drop 3)) = .ok r.atShutdown ∧
      r.filler.size = 0 ∧
      r.puts = r.atShutdown.allocs.map
        (fun e => (e.1, List.replicate (e.2.length - 1) none ++ [some e.1])) ∧
      (r.atShutdown.allocs.map fun e => e.1).Nodup ∧
      (r.atShutdown.allocs.map fun e => e.1).Perm r.atShutdown.trackers ∧
      (∀ e ∈ r.atShutdown.allocs, e.2 ≠ []) ∧
      ∀ order, order.Perm r.atShutdown.allocs →
        ∃ f', shutdownLoop P order r.atShutdown.filler =
            .ok (f', order.map
              fun e => (e.1, List.replicate (e.2.length - 1) none ++ [some e.1])) ∧
          f'.size = 0 := by
  by_cases hguard : s.length ≤ 3 ∨ s.length > 100000
  · rw [if_pos hguard]
    unfold FuzzFiller
    rw [if_pos hguard]
  · rw [if_neg hguard]
    obtain ⟨st, hst, hinv⟩ := runOps_inv hP (initialHarness_inv P g s) (decodeOps (s.drop 3))
    have hloop : ∀ order : List (Nat × List (Range × SpanAllocInfo)), order.Perm st.allocs →
        ∃ f', shutdownLoop P order st.filler =
            .ok (f', order.map
              fun e => (e.1, List.replicate (e.2.length - 1) none ++ [some e.1])) ∧
          f'.size = 0 := by
      intro order hperm
      have h1 : Linked P st.filler.trackers order (order.map fun e => e.1) st.next_hugepage
          st.g.ReleasedPages :=
        Linked.of_perm hinv (List.Perm.refl _) hperm.symm
          (hinv.trackers_perm.trans ((hinv.keys_perm.symm).trans (hperm.symm.map _)))
      exact shutdownLoop_linked st.filler h1
    obtain ⟨f', hsd, hsize⟩ := hloop st.allocs (List.Perm.refl _)
    refine ⟨⟨st, f', st.allocs.map
        fun e => (e.1, List.replicate (e.2.length - 1) none ++ [some e.1])⟩, ?_, hst, hsize, rfl,
      hinv.keys_nodup, hinv.keys_perm.trans hinv.trackers_perm.symm, ?_, hloop⟩
    · unfold FuzzFiller
      rw [if_neg hguard, hst]
      simp only
      rw [if_neg (by
        rw [not_not]
        exact hinv.unmapped_eq.symm), hsd]
      simp only
      rw [if_neg (by
        rw [not_not]
        exact hsize)]
    · intro e he
      have hkey : e.1 ∈ st.filler.trackers.map fun t => t.location :=
        hinv.keys_perm.mem_iff.1 (List.mem_map_of_mem (fun e => e.1) he)
      rw [List.mem_map] at hkey
      obtain ⟨t, ht, hte⟩ := hkey
      exact (hinv.agree e he t ht hte).2

/-- Witness for C4: the theorem at the small constants and the example input. -/
theorem shutdown_returns_each_tracker_once_witness :
    if exampleInput.length ≤ 3 ∨ exampleInput.length > 100000 then
      FuzzFiller tinyParams exampleGlobals exampleInput = .ok none
    else ∃ r, FuzzFiller tinyParams exampleGlobals exampleInput = .ok (some r) ∧
      runOps tinyParams (initialHarness exampleGlobals exampleInput)
        (decodeOps (exampleInput.drop 3)) = .ok r.atShutdown ∧
      r.filler.size = 0 ∧
      r.puts = r.atShutdown.allocs.map
        (fun e => (e.1, List.replicate (e.2.length - 1) none ++ [some e.1])) ∧
      (r.atShutdown.allocs.map fun e => e.1).Nodup ∧
      (r.atShutdown.allocs.map fun e => e.1).Perm r.atShutdown.trackers ∧
      (∀ e ∈ r.atShutdown.allocs, e.2 ≠ []) ∧
      ∀ order, order.Perm r.atShutdown.allocs →
        ∃ f', shutdownLoop tinyParams order r.atShutdown.filler =
            .ok (f', order.map
              fun e => (e.1, List.replicate (e.2.length - 1) none ++ [some e.1])) ∧
          f'.size = 0 :=
  shutdown_returns_each_tracker_once ⟨by decide, by decide, by decide⟩ exampleGlobals
    exampleInput

/-- C5: in every state the operation loop reaches, for every desired count and whatever the
other globals are, `ReleasePages` called with `release_partial_allocs = true`,
`hit_limit = false` and intervals for which `SkipSubreleaseEnabled()` is false, while
`unback_success` is set, returns a length that is at least
`kPartialAllocPagesRelease * FreePagesInPartialAllocs()` measured just before the call (as an
exact inequality between fractions, and hence for the product truncated to `size_t` that
the harness compares with). -/
theorem release_partial_allocs_bound {P : Params} (hP : P.Valid) (g : Globals) (s : List Byte)
    (k : Nat) :
    ∃ st, stateAfter P g s k = .ok st ∧
      ∀ (g' : Globals) (desired : Nat) (intervals : SkipSubreleaseIntervals),
        g'.ReleasedPages = st.g.ReleasedPages → g'.unback_success = true →
        intervals.SkipSubreleaseEnabled = false →
        P.kPartialAllocPagesReleaseNum * st.filler.FreePagesInPartialAllocs P ≤
          (st.filler.ReleasePages P mockCallbacks desired intervals true false g').2.1 *
            P.kPartialAllocPagesReleaseDen ∧
        P.kPartialAllocPagesReleaseNum * st.filler.FreePagesInPartialAllocs P /
            P.kPartialAllocPagesReleaseDen ≤
          (st.filler.ReleasePages P mockCallbacks desired intervals true false g').2.1 := by
  obtain ⟨st, hst, hinv⟩ := stateAfter_inv hP g s k
  obtain ⟨hK, hden, hnum⟩ := hP
  refine ⟨st, hst, ?_⟩
  intro g' desired intervals hRP hus hdis
  have hinv' : Harness.Inv P { st with g := g' } := hinv.of_same rfl rfl rfl rfl hRP
  obtain ⟨f', released, X, hrel, _, hcount⟩ :=
    ReleasePages_inv hinv' desired intervals true false
  simp only at hrel hcount
  rw [hrel]
  simp only
  have h1 := hcount hus
  have h2 := allowedToRelease_partial_ge P st.filler g'.fake_clock desired hdis
  have h3 := HugePageFiller.FreePagesInPartialAllocs_le (f := st.filler) hinv.wf
  have h4 : P.kPartialAllocPagesReleaseNum * st.filler.FreePagesInPartialAllocs P ≤
      partialAllocPagesTarget P (st.filler.FreePagesInPartialAllocs P) *
        P.kPartialAllocPagesReleaseDen := le_ceil_mul hden
  have hexact : P.kPartialAllocPagesReleaseNum * st.filler.FreePagesInPartialAllocs P ≤
      released * P.kPartialAllocPagesReleaseDen := by
    rw [min_le_iff] at h1
    rcases h1 with h | h
    · exact le_trans h4 (Nat.mul_le_mul_right _ (le_trans h2 h))
    · calc P.kPartialAllocPagesReleaseNum * st.filler.FreePagesInPartialAllocs P
          ≤ P.kPartialAllocPagesReleaseDen * st.filler.FreePagesInPartialAllocs P :=
            Nat.mul_le_mul_right _ hnum
        _ = st.filler.FreePagesInPartialAllocs P * P.kPartialAllocPagesReleaseDen :=
            Nat.mul_comm _ _
        _ ≤ released * P.kPartialAllocPagesReleaseDen :=
            Nat.mul_le_mul_right _ (le_trans h3 h)
  exact ⟨hexact, Nat.div_le_of_le_mul (by
    rw [Nat.mul_comm P.kPartialAllocPagesReleaseDen released]
    exact hexact)⟩

/-- Witness for C5: the theorem at the small constants and the example input. -/
theorem release_partial_allocs_bound_witness :
    ∃ st, stateAfter tinyParams exampleGlobals exampleInput 3 = .ok st ∧
      ∀ (g' : Globals) (desired : Nat) (intervals : SkipSubreleaseIntervals),
        g'.ReleasedPages = st.g.ReleasedPages → g'.unback_success = true →
        intervals.SkipSubreleaseEnabled = false →
        tinyParams.kPartialAllocPagesReleaseNum * st.filler.FreePagesInPartialAllocs tinyParams ≤
          (st.filler.ReleasePages tinyParams mockCallbacks desired intervals true false g').2.1 *
            tinyParams.kPartialAllocPagesReleaseDen ∧
        tinyParams.kPartialAllocPagesReleaseNum *
            st.filler.FreePagesInPartialAllocs tinyParams /
            tinyParams.kPartialAllocPagesReleaseDen ≤
          (st.filler.ReleasePages tinyParams mockCallbacks desired intervals true false g').2.1 :=
  release_partial_allocs_bound ⟨by decide, by decide, by decide⟩ exampleGlobals exampleInput 3

/-- C6: in every state the operation loop reaches, for every desired count and whatever the
other globals are, `ReleasePages(desired, no intervals, release_partial_allocs = false,
hit_limit = true)` returns at least `min(free_pages() before the call, desired)` when
`unback_success` is set, and at least 0 when it is not. -/
theorem hit_limit_release_bound {P : Params} (hP : P.Valid) (g : Globals) (s : List Byte)
    (k : Nat) :
    ∃ st, stateAfter P g s k = .ok st ∧
      ∀ (g' : Globals) (desired : Nat), g'.ReleasedPages = st.g.ReleasedPages →
        (g'.unback_success = true →
          min (st.filler.free_pages P) desired ≤
            (st.filler.ReleasePages P mockCallbacks desired
              { peak_interval := 0, short_interval := 0, long_interval := 0 }
              false true g').2.1) ∧
        (g'.unback_success = false →
          0 ≤ (st.filler.ReleasePages P mockCallbacks desired
              { peak_interval := 0, short_interval := 0, long_interval := 0 }
              false true g').2.1) := by
  obtain ⟨st, hst, hinv⟩ := stateAfter_inv hP g s k
  refine ⟨st, hst, ?_⟩
  intro g' desired hRP
  have hinv' : Harness.Inv P { st with g := g' } := hinv.of_same rfl rfl rfl rfl hRP
  obtain ⟨f', released, X, hrel, _, hcount⟩ := ReleasePages_inv hinv' desired
    { peak_interval := 0, short_interval := 0, long_interval := 0 } false true
  simp only at hrel hcount
  rw [hrel]
  refine ⟨fun hus => ?_, fun _ => Nat.zero_le _⟩
  have := hcount hus
  rw [allowedToRelease_hit_limit, Nat.min_comm] at this
  exact this

/-- Witness for C6: the theorem at the small constants and the example input. -/
theorem hit_limit_release_bound_witness :
    ∃ st, stateAfter tinyParams exampleGlobals exampleInput 3 = .ok st ∧
      ∀ (g' : Globals) (desired : Nat), g'.ReleasedPages = st.g.ReleasedPages →
        (g'.unback_success = true →
          min (st.filler.free_pages tinyParams) desired ≤
            (st.filler.ReleasePages tinyParams mockCallbacks desired
              { peak_interval := 0, short_interval := 0, long_interval := 0 }
              false true g').2.1) ∧
        (g'.unback_success = false →
          0 ≤ (st.filler.ReleasePages tinyParams mockCallbacks desired
              { peak_interval := 0, short_interval := 0, long_interval := 0 }
              false true g').2.1) :=
  hit_limit_release_bound ⟨by decide, by decide, by decide⟩ exampleGlobals exampleInput 3

/-- C7: in every state the operation loop reaches every owned tracker has an outstanding
allocation (none is empty), and for every `enable_collapse` and
`enable_release_free_swapped` and every value of the other globals (huge-page-backed flag,
residency bitmaps, collapse and unback results) `FetchFullyFreedTracker()` called right after
`TreatHugepageTrackers` returns null. -/
theorem fetch_after_treat_is_null {P : Params} (hP : P.Valid) (g : Globals) (s : List Byte)
    (k : Nat) :
    ∃ st, stateAfter P g s k = .ok st ∧
      (∀ t ∈ st.filler.trackers, t.empty = false ∧ 0 < t.nallocs) ∧
      ∀ (g' : Globals) (enable_collapse enable_release_free_swapped : Bool),
        g'.ReleasedPages = st.g.ReleasedPages →
        (st.filler.TreatHugepageTrackers P mockCallbacks enable_collapse
          enable_release_free_swapped FakePageFlags (FakeResidency P)
          g').1.FetchFullyFreedTracker.2 = none := by
  obtain ⟨st, hst, hinv⟩ := stateAfter_inv hP g s k
  refine ⟨st, hst, ?_, ?_⟩
  · intro t ht
    obtain ⟨v, _, hag, hv⟩ := hinv.exists_entry ht
    refine ⟨hag.tracker_nonempty hv, ?_⟩
    rw [hag.nallocs]
    exact List.length_pos.2 hv
  · intro g' enable_collapse enable_release_free_swapped hRP
    have hinv' : Harness.Inv P { st with g := g' } := hinv.of_same rfl rfl rfl rfl hRP
    obtain ⟨f', X, htreat, hfetch, _⟩ :=
      TreatHugepageTrackers_inv hinv' enable_collapse enable_release_free_swapped
    simp only at htreat
    rw [htreat]
    simp only
    rw [hfetch]

/-- Witness for C7: the theorem at the small constants and the example input. -/
theorem fetch_after_treat_is_null_witness :
    ∃ st, stateAfter tinyParams exampleGlobals exampleInput 4 = .ok st ∧
      (∀ t ∈ st.filler.trackers, t.empty = false ∧ 0 < t.nallocs) ∧
      ∀ (g' : Globals) (enable_collapse enable_release_free_swapped : Bool),
        g'.ReleasedPages = st.g.ReleasedPages →
        (st.filler.TreatHugepageTrackers tinyParams mockCallbacks enable_collapse
          enable_release_free_swapped FakePageFlags (FakeResidency tinyParams)
          g').1.FetchFullyFreedTracker.2 = none :=
  fetch_after_treat_is_null ⟨by decide, by decide, by decide⟩ exampleGlobals exampleInput 4

/-! ### The configuration of the huge-page-aware allocator -/

/-- C8: whenever `TCMALLOC_HPAA_CONTROL` starts with `'1'`, `decide_subrelease` returns false,
and whenever it starts with `'2'` it returns true, whatever follows the first character and
whether the `default_subrelease` hook is absent or linked (and whatever it would return). -/
theorem decide_subrelease_forced (rest : List Char) (default_subrelease : Option Int) :
    decide_subrelease (some ('1' :: rest)) default_subrelease = .ok false ∧
    decide_subrelease (some ('2' :: rest)) default_subrelease = .ok true := by
  constructor <;> simp [decide_subrelease, firstChar]

/-- C9: when `TCMALLOC_HPAA_CONTROL` is unset or starts with `'0'`, `decide_subrelease` returns
`d > 0` if the hook is linked and returns a nonzero `d`, and true if the hook is absent or
returns 0. -/
theorem decide_subrelease_default (rest : List Char) :
    (∀ d : Int, d ≠ 0 →
        decide_subrelease none (some d) = .ok (decide (d > 0)) ∧
        decide_subrelease (some ('0' :: rest)) (some d) = .ok (decide (d > 0))) ∧
    decide_subrelease none (some 0) = .ok true ∧
    decide_subrelease (some ('0' :: rest)) (some 0) = .ok true ∧
    decide_subrelease none none = .ok true ∧
    decide_subrelease (some ('0' :: rest)) none = .ok true := by
  refine ⟨fun d hd => ?_, ?_, ?_, ?_, ?_⟩ <;> simp [decide_subrelease, firstChar, *]

/-- C10: `decide_subrelease` ends in `TC_BUG` exactly when the variable is set and its first
character (the terminating NUL for the empty string) is none of `'0'`, `'1'`, `'2'`; in
particular the empty string is a bug, and nothing after the first character matters. -/
theorem decide_subrelease_bug_iff (e : Option (List Char)) (default_subrelease : Option Int) :
    (decide_subrelease e default_subrelease = .error Failure.tc_bug ↔
      ∃ s, e = some s ∧ firstChar s ≠ '0' ∧ firstChar s ≠ '1' ∧ firstChar s ≠ '2') ∧
    decide_subrelease (some []) default_subrelease = .error Failure.tc_bug ∧
    (∀ c rest rest', decide_subrelease (some (c :: rest)) default_subrelease =
      decide_subrelease (some (c :: rest')) default_subrelease) := by
  refine ⟨?_, ?_, ?_⟩
  · cases e with
    | none =>
      cases default_subrelease with
      | none => simp [decide_subrelease]
      | some d => by_cases hd : d = 0 <;> simp [decide_subrelease, hd]
    | some s =>
      by_cases h0 : firstChar s = '0'
      · cases default_subrelease with
        | none => simp [decide_subrelease, h0]
        | some d => by_cases hd : d = 0 <;> simp [decide_subrelease, h0, hd]
      · by_cases h1 : firstChar s = '1'
        · simp [decide_subrelease, h0, h1]
        · by_cases h2 : firstChar s = '2'
          · simp [decide_subrelease, h0, h1, h2]
          · simp [decide_subrelease, h0, h1, h2]
  · simp [decide_subrelease, firstChar]
  · intro c rest rest'
    simp [decide_subrelease, firstChar]

/-! ### The huge region option -/

/-- C11: when the opt-out symbol `default_want_disable_huge_region_more_often` is not linked,
`use_huge_region_more_often` returns true if `TCMALLOC_USE_HUGE_REGION_MORE_OFTEN_DISABLE` is
unset or starts with `'0'`, returns false if it starts with `'1'`, and ends in `TC_BUG` for
every other set value (the empty string included). -/
theorem use_huge_region_more_often_unlinked (e : Option (List Char)) (rest : List Char) :
    use_huge_region_more_often false none = .ok true ∧
    use_huge_region_more_often false (some ('0' :: rest)) = .ok true ∧
    use_huge_region_more_often false (some ('1' :: rest)) = .ok false ∧
    use_huge_region_more_often false (some []) = .error Failure.tc_bug ∧
    (use_huge_region_more_often false e = .error Failure.tc_bug ↔
      ∃ s, e = some s ∧ firstChar s ≠ '0' ∧ firstChar s ≠ '1') ∧
    (use_huge_region_more_often false e = .ok true ↔
      e = none ∨ ∃ s, e = some s ∧ firstChar s = '0') ∧
    (use_huge_region_more_often false e = .ok false ↔ ∃ s, e = some s ∧ firstChar s = '1') := by
  refine ⟨rfl, ?_, ?_, ?_, ?_, ?_, ?_⟩
  · simp [use_huge_region_more_often, firstChar]
  · simp [use_huge_region_more_often, firstChar]
  · simp [use_huge_region_more_often, firstChar]
  all_goals
    cases e with
    | none => simp [use_huge_region_more_often]
    | some s =>
      by_cases h0 : firstChar s = '0'
      · simp [use_huge_region_more_often, h0]
      · by_cases h1 : firstChar s = '1'
        · simp [use_huge_region_more_often, h0, h1]
        · simp [use_huge_region_more_often, h0, h1]

/-- C12: `huge_region_option` returns `kUseForAllLargeAllocs` exactly when
`use_huge_region_more_often()` returns true and `kDefault` exactly when it returns false; it
returns no other value, and it returns nothing exactly when `use_huge_region_more_often()`
ends in `TC_BUG`. -/
theorem huge_region_option_iff (linked : Bool) (e : Option (List Char)) :
    (huge_region_option linked e = .ok HugeRegionUsageOption.kUseForAllLargeAllocs ↔
      use_huge_region_more_often linked e = .ok true) ∧
    (huge_region_option linked e = .ok HugeRegionUsageOption.kDefault ↔
      use_huge_region_more_often linked e = .ok false) ∧
    (∀ o, huge_region_option linked e = .ok o →
      o = HugeRegionUsageOption.kUseForAllLargeAllocs ∨ o = HugeRegionUsageOption.kDefault) ∧
    (∀ err, huge_region_option linked e = .error err ↔
      use_huge_region_more_often linked e = .error err) := by
  unfold huge_region_option
  cases h : use_huge_region_more_often linked e with
  | error err => simp
  | ok b =>
    cases b
    · refine ⟨by simp, by simp, ?_, by simp⟩
      intro o ho
      simp only [Bool.false_eq_true, if_false, Except.ok.injEq] at ho
      exact Or.inr ho.symm
    · refine ⟨by simp, by simp, ?_, by simp⟩
      intro o ho
      simp only [if_true, Except.ok.injEq] at ho
      exact Or.inl ho.symm

/-- C14: when `default_want_disable_huge_region_more_often` is linked,
`use_huge_region_more_often` returns false whatever the environment variable is (unset, any
string), never ends in `TC_BUG`, and `huge_region_option` returns `kDefault`. -/
theorem use_huge_region_more_often_linked (e : Option (List Char)) :
    use_huge_region_more_often true e = .ok false ∧
    use_huge_region_more_often true e ≠ .error Failure.tc_bug ∧
    huge_region_option true e = .ok HugeRegionUsageOption.kDefault := by
  simp [use_huge_region_more_often, huge_region_option]

/-! ### Replaying an input -/

/-- What `FuzzFiller` resets and what it keeps: at the loop head `fake_clock`,
`unback_success` and the released set have their reset values, while `collapse_success`,
`is_hugepage_backed` and the two residency bitmaps still have the values the globals had when
the function was entered. -/
theorem initialHarness_globals (g : Globals) (s : List Byte) :
    (initialHarness g s).g.fake_clock = 0 ∧
    (initialHarness g s).g.unback_success = true ∧
    (initialHarness g s).g.ReleasedPages = ∅ ∧
    (initialHarness g s).g.collapse_success = g.collapse_success ∧
    (initialHarness g s).g.is_hugepage_backed = g.is_hugepage_backed ∧
    (initialHarness g s).g.unbacked_bitmap = g.unbacked_bitmap ∧
    (initialHarness g s).g.swapped_bitmap = g.swapped_bitmap :=
  ⟨rfl, rfl, rfl, rfl, rfl, rfl, rfl⟩

/-- Two runs on the same input behave alike when the globals that are not reset agree. -/
theorem FuzzFiller_eq_of_kept_globals (P : Params) (g g' : Globals) (s : List Byte)
    (h1 : g.collapse_success = g'.collapse_success)
    (h2 : g.is_hugepage_backed = g'.is_hugepage_backed)
    (h3 : g.unbacked_bitmap = g'.unbacked_bitmap)
    (h4 : g.swapped_bitmap = g'.swapped_bitmap) :
    initialHarness g s = initialHarness g' s ∧ FuzzFiller P g s = FuzzFiller P g' s ∧
      ∀ k, stateAfter P g s k = stateAfter P g' s k := by
  have h : initialHarness g s = initialHarness g' s := by
    unfold initialHarness
    rw [h1, h2, h3, h4]
  refine ⟨h, ?_, fun k => ?_⟩
  · unfold FuzzFiller
    rw [h]
  · unfold stateAfter
    rw [h]

/-- After a run on `residencyInput` the four globals that are not reset hold what its
operations 11 and 12 wrote, whatever the constants are. -/
theorem globalsAfter_residencyInput (P : Params) :
    globalsAfter P freshGlobals residencyInput =
      { freshGlobals with
          collapse_success := false
          is_hugepage_backed := false
          unbacked_bitmap := GetBitmap P 0
          swapped_bitmap := GetBitmap P 8 } := by
  rfl

/-- C13 fails on the code: `FuzzFiller` does not reset `collapse_success`,
`is_hugepage_backed`, `unbacked_bitmap` and `swapped_bitmap`. After a call on
`residencyInput`, a call on `replayInput` starts with mock results (`MockCollapse`,
`IsHugepageBacked`, the swapped bitmap) that differ from those of a call on `replayInput` in
a fresh process, for all constants. At the small constants the two runs of `replayInput`
differ in what the filler does: after the `TreatHugepageTrackers` operation the fresh run has
made no successful unback call (nothing is released) while the other run has released 5
pages, and the Release on a hit limit that follows releases 5 pages in the fresh run and none
in the other. Runs whose four kept globals agree do behave alike, whatever `fake_clock`,
`unback_success` and the released set were. -/
theorem replay_depends_on_stale_globals :
    (∀ (P : Params) (s : List Byte) (r : Range),
      (MockCollapse r (initialHarness freshGlobals s).g).1 = true ∧
      (MockCollapse r (initialHarness (globalsAfter P freshGlobals residencyInput) s).g).1
        = false ∧
      FakePageFlags.IsHugepageBacked r.p (initialHarness freshGlobals s).g = true ∧
      FakePageFlags.IsHugepageBacked r.p
        (initialHarness (globalsAfter P freshGlobals residencyInput) s).g = false ∧
      ((FakeResidency P).GetUnbackedAndSwappedBitmaps r.p
        (initialHarness freshGlobals s).g).2 = ∅ ∧
      ((FakeResidency P).GetUnbackedAndSwappedBitmaps r.p
        (initialHarness (globalsAfter P freshGlobals residencyInput) s).g).2
        = GetBitmap P 8) ∧
    (match stateAfter tinyParams freshGlobals replayInput 2,
        stateAfter tinyParams (globalsAfter tinyParams freshGlobals residencyInput)
          replayInput 2 with
      | .ok a, .ok b =>
        (a.filler.unmapped_pages, a.g.ReleasedPages.card, b.filler.unmapped_pages,
          decide (b.g.ReleasedPages = {11, 12, 13, 14, 15}))
      | _, _ => (1, 1, 0, false)) = (0, 0, 5, true) ∧
    (match stateAfter tinyParams freshGlobals replayInput 2,
        stateAfter tinyParams (globalsAfter tinyParams freshGlobals residencyInput)
          replayInput 2 with
      | .ok a, .ok b =>
        ((a.filler.ReleasePages tinyParams mockCallbacks (hitLimitDesired 255)
            { peak_interval := 0, short_interval := 0, long_interval := 0 } false true a.g).2.1,
          (b.filler.ReleasePages tinyParams mockCallbacks (hitLimitDesired 255)
            { peak_interval := 0, short_interval := 0, long_interval := 0 } false true b.g).2.1)
      | _, _ => (0, 0)) = (5, 0) ∧
    (∀ (P : Params) (g : Globals) (s : List Byte) (clock : Int) (unback : Bool)
        (released : Finset Nat),
      FuzzFiller P { g with fake_clock := clock, unback_success := unback,
                            ReleasedPages := released } s = FuzzFiller P g s) := by
  refine ⟨?_, by decide, by decide, ?_⟩
  · intro P s r
    rw [globalsAfter_residencyInput]
    exact ⟨rfl, rfl, rfl, rfl, rfl, rfl⟩
  · intro P g s clock unback released
    exact (FuzzFiller_eq_of_kept_globals P _ g s rfl rfl rfl rfl).2.1

/-! ### The decoding of the operations -/

theorem and_255_eq_mod (x : Nat) : x &&& 0xFF = x % 256 :=
  Nat.and_pow_two_sub_one_eq_mod x 8

theorem and_one_le (x : Nat) : x &&& 1 ≤ 1 := Nat.and_le_right

/-- C15: for every value (in particular every 32-bit one) the request the Allocate operation
passes to `TryGet`, and to `Get` on a fresh tracker, has a length `n` with
`1 <= n <= kPagesPerHugePage - 1`, at least one object per span, and length 1 when its
density is Dense. -/
theorem allocate_request_well_formed {P : Params} (hP : P.Valid) (value : Nat) :
    1 ≤ (allocateRequest P value).1 ∧
    (allocateRequest P value).1 ≤ P.kPagesPerHugePage - 1 ∧
    1 ≤ (allocateRequest P value).2.objects_per_span ∧
    ((allocateRequest P value).2.density = AccessDensityPrediction.kDense →
      (allocateRequest P value).1 = 1) := by
  obtain ⟨h1, h2⟩ := allocateRequest_bounds hP value
  refine ⟨h1, h2, ?_, ?_⟩
  · unfold allocateRequest
    simp only
    split_ifs
    · exact le_refl 1
    · exact Nat.le_max_right _ _
  · unfold allocateRequest
    simp only
    intro hd
    rw [if_pos hd]

/-- Witness for C15: the theorem at the small constants and a value that asks for 9 pages of
a span with many objects. -/
theorem allocate_request_well_formed_witness :
    1 ≤ (allocateRequest tinyParams 65545).1 ∧
    (allocateRequest tinyParams 65545).1 ≤ tinyParams.kPagesPerHugePage - 1 ∧
    1 ≤ (allocateRequest tinyParams 65545).2.objects_per_span ∧
    ((allocateRequest tinyParams 65545).2.density = AccessDensityPrediction.kDense →
      (allocateRequest tinyParams 65545).1 = 1) :=
  allocate_request_well_formed ⟨by decide, by decide, by decide⟩ 65545

/-- C17 fails in the peak-interval encoding: without the peak-interval bit
`release_partial_allocs` is bit 30 of the value, with it `release_partial_allocs` is bit 22.
At the value `2^30 + 2` (peak encoding, bit 30 set) the flag is false, and at `2^22 + 2` (bit
30 clear) it is true. -/
theorem release_partial_allocs_bit (value : Nat) :
    ((value >>> 1) &&& 0x1 = 0 →
      (releaseRequest value).release_partial_allocs = decide ((value >>> 30) &&& 0x1 ≠ 0)) ∧
    ((value >>> 1) &&& 0x1 ≠ 0 →
      (releaseRequest value).release_partial_allocs = decide ((value >>> 22) &&& 0x1 ≠ 0)) ∧
    ((releaseRequest (2 ^ 30 + 2)).release_partial_allocs = false ∧
      ((2 ^ 30 + 2) >>> 30) &&& 0x1 = 1) ∧
    ((releaseRequest (2 ^ 22 + 2)).release_partial_allocs = true ∧
      ((2 ^ 22 + 2) >>> 30) &&& 0x1 = 0) := by
  refine ⟨?_, ?_, by decide, by decide⟩
  · intro h
    unfold releaseRequest
    simp only [h, ne_eq, not_true_eq_false, decide_False, Bool.false_eq_true, if_false]
    rw [← Nat.shiftRight_add]
  · intro h
    unfold releaseRequest
    simp only [h, ne_eq, not_false_eq_true, decide_True, if_true]
    rw [← Nat.shiftRight_add]

/-- C18 fails on the code: operation 7 asks `ReleasePages` for `value & 0xFF` pages, the low
byte of the value, not for `value & 0xFFFF`. At the value `0x100` it asks for 0 pages, and in
the run of `hitLimitInput` from fresh globals nothing is released although 5 pages are free. -/
theorem hit_limit_desired_is_low_byte (P : Params) (st : Harness) (value : Nat) :
    opReleaseHitLimit P st value =
      (match st.filler.ReleasePages P mockCallbacks (hitLimitDesired value)
          { peak_interval := 0, short_interval := 0, long_interval := 0 } false true st.g with
        | (filler, released, g) =>
          if released <
              (if g.unback_success then min (st.filler.free_pages P) (hitLimitDesired value)
               else 0) then
            .error (Failure.check 472)
          else .ok { st with g := g, filler := filler }) ∧
    hitLimitDesired value = value % 256 ∧
    hitLimitDesired 0x100 = 0 ∧ 0x100 &&& 0xFFFF = 0x100 ∧
    (match stateAfter tinyParams freshGlobals hitLimitInput 1,
        stateAfter tinyParams freshGlobals hitLimitInput 2 with
      | .ok before, .ok after =>
        (before.filler.free_pages tinyParams, after.filler.unmapped_pages,
          after.g.ReleasedPages.card)
      | _, _ => (0, 1, 1)) = (5, 0, 0) := by
  refine ⟨rfl, and_255_eq_mod value, by decide, by decide, by decide⟩

/-- C19: for every value decoded by the Release operation the intervals passed to
`ReleasePages` satisfy `short_interval <= long_interval`; with the peak-interval bit set the
short and long intervals are zero (and the peak interval is bits 2..9), without it the peak
interval is zero (and the short and long intervals are bits 2..9 and 10..17 in increasing
order); each interval is at most 255 seconds. -/
theorem release_request_intervals (value : Nat) :
    (releaseRequest value).intervals.short_interval ≤
      (releaseRequest value).intervals.long_interval ∧
    ((value >>> 1) &&& 0x1 ≠ 0 →
      (releaseRequest value).intervals.short_interval = 0 ∧
      (releaseRequest value).intervals.long_interval = 0 ∧
      (releaseRequest value).intervals.peak_interval = (value >>> 2) &&& 0xFF) ∧
    ((value >>> 1) &&& 0x1 = 0 →
      (releaseRequest value).intervals.peak_interval = 0 ∧
      (releaseRequest value).intervals.short_interval =
        min ((value >>> 2) &&& 0xFF) ((value >>> 10) &&& 0xFF) ∧
      (releaseRequest value).intervals.long_interval =
        max ((value >>> 2) &&& 0xFF) ((value >>> 10) &&& 0xFF)) ∧
    (releaseRequest value).intervals.peak_interval ≤ 255 ∧
    (releaseRequest value).intervals.short_interval ≤ 255 ∧
    (releaseRequest value).intervals.long_interval ≤ 255 := by
  have ha : (value >>> 2) &&& 0xFF ≤ 255 := Nat.and_le_right
  have hb : (value >>> 10) &&& 0xFF ≤ 255 := Nat.and_le_right
  by_cases hpeak : (value >>> 1) &&& 0x1 = 0
  · unfold releaseRequest
    simp only [hpeak, ne_eq, not_true_eq_false, decide_False, Bool.false_eq_true, if_false,
      false_implies, true_implies, true_and, le_refl, Nat.zero_le]
    by_cases hsw : (value >>> 2) &&& 0xFF > (value >>> 10) &&& 0xFF
    · simp only [hsw, decide_True, if_true]
      refine ⟨by omega, ⟨?_, ?_⟩, by omega, by omega⟩
      · rw [Nat.min_def]; split_ifs <;> omega
      · rw [Nat.max_def]; split_ifs <;> omega
    · simp only [hsw, decide_False, Bool.false_eq_true, if_false]
      refine ⟨by omega, ⟨?_, ?_⟩, by omega, by omega⟩
      · rw [Nat.min_def]; split_ifs <;> omega
      · rw [Nat.max_def]; split_ifs <;> omega
  · unfold releaseRequest
    simp only [hpeak, ne_eq, not_false_eq_true, decide_True, if_true, true_implies,
      false_implies, le_refl, Nat.zero_le, and_self, and_true, true_and]
    exact ha

/-! ### Donated trackers -/

/-- A request that Allocate decodes with more than half a huge page is a single-object Sparse
request, and (as half a huge page is at least one page) it is the only kind of request with
more than half a huge page. -/
theorem allocateRequest_donated {P : Params} (hP : P.Valid) (value : Nat) :
    (P.kPagesPerHugePage / 2 < (allocateRequest P value).1 →
      (allocateRequest P value).2 =
        { objects_per_span := 1, density := AccessDensityPrediction.kSparse }) := by
  have hK := hP.1
  have h1 : 1 ≤ P.kPagesPerHugePage / 2 := by omega
  unfold allocateRequest
  simp only
  by_cases h : P.kPagesPerHugePage / 2 < clamp (value &&& 0xFFFF) 1 (P.kPagesPerHugePage - 1)
  · intro _
    simp only [h, if_true]
  · simp only [h, if_false]
    intro hlt
    split_ifs at hlt <;> omega

/-- What the block "create a new huge page" does, for a length that fits a huge page: the
tracker is constructed with `was_donated` equal to `donated`, `Get` on it succeeds and keeps
the flag, and that tracker is contributed with the same `donated` and `info`. -/
theorem contributeNewHugePage_eq {P : Params} (st : Harness) {n : Nat}
    (hnK : n ≤ P.kPagesPerHugePage) (info : SpanAllocInfo) (donated : Bool) :
    ∃ t r, (PageTracker.create st.next_hugepage donated st.g.fake_clock).Get P n info
        = .ok (t, r) ∧
      t.was_donated = donated ∧ t.location = st.next_hugepage ∧
      contributeNewHugePage P st n info donated =
        .ok ({ st with
                filler := st.filler.Contribute t donated info
                trackers := st.trackers ++ [st.next_hugepage]
                next_hugepage := st.next_hugepage + 1 },
             st.next_hugepage, r.p) := by
  have hlfr : n ≤ (PageTracker.create st.next_hugepage donated
      st.g.fake_clock).longest_free_range P := by
    unfold PageTracker.longest_free_range
    rw [show (PageTracker.create st.next_hugepage donated st.g.fake_clock).bitmap = ∅ from rfl,
      LongestFreeRange_empty]
    exact hnK
  obtain ⟨i, _, _, hget⟩ := PageTracker.Get_eq info hlfr
  refine ⟨_, _, hget, rfl, rfl, ?_⟩
  unfold contributeNewHugePage
  rw [hget]

/-- In a state that satisfies the invariant, Allocate either is served by `TryGet` (no
tracker is created) or constructs a tracker with `was_donated` equal to
`n > kPagesPerHugePage / 2` and contributes it with that same `donated` and the decoded
`SpanAllocInfo`; the tail donation constructs its tracker with `was_donated` true and
contributes it as donated with one object per span and Sparse. Both operations succeed. -/
theorem contribution_of_allocate {P : Params} (hP : P.Valid) {st : Harness}
    (hinv : st.Inv P) (value : Nat) :
    ((∃ f pt page,
        st.filler.TryGet P (allocateRequest P value).1 (allocateRequest P value).2 =
          .ok (f, { pt := some pt, page := page }) ∧
        opAllocate P st value =
          .ok (recordAlloc { st with filler := f } pt page (allocateRequest P value).1
            (allocateRequest P value).2)) ∨
      (∃ t r,
        (PageTracker.create st.next_hugepage (allocateDonated P value) st.g.fake_clock).Get P
          (allocateRequest P value).1 (allocateRequest P value).2 = .ok (t, r) ∧
        t.was_donated = allocateDonated P value ∧
        opAllocate P st value =
          .ok (recordAlloc
            { st with
                filler := st.filler.Contribute t (allocateDonated P value)
                  (allocateRequest P value).2
                trackers := st.trackers ++ [st.next_hugepage]
                next_hugepage := st.next_hugepage + 1 }
            st.next_hugepage r.p (allocateRequest P value).1 (allocateRequest P value).2))) ∧
    (allocateDonated P value = true ↔
      P.kPagesPerHugePage / 2 < (allocateRequest P value).1) ∧
    (allocateDonated P value = true →
      (allocateRequest P value).2 =
        { objects_per_span := 1, density := AccessDensityPrediction.kSparse }) ∧
    ((allocateRequest P value).1 ≤ P.kPagesPerHugePage / 2 →
      allocateDonated P value = false) ∧
    (∃ t r,
      (PageTracker.create st.next_hugepage true st.g.fake_clock).Get P
        (clamp (value &&& 0xFFFF) 1 (P.kPagesPerHugePage - 1))
        { objects_per_span := 1, density := AccessDensityPrediction.kSparse } = .ok (t, r) ∧
      t.was_donated = true ∧
      opDonateTail P st value =
        .ok (recordAlloc
          { st with
              filler := st.filler.Contribute t true
                { objects_per_span := 1, density := AccessDensityPrediction.kSparse }
              trackers := st.trackers ++ [st.next_hugepage]
              next_hugepage := st.next_hugepage + 1 }
          st.next_hugepage r.p (clamp (value &&& 0xFFFF) 1 (P.kPagesPerHugePage - 1))
          { objects_per_span := 1, density := AccessDensityPrediction.kSparse })) := by
  have hK := hP.1
  obtain ⟨hn1, hnK⟩ := allocateRequest_bounds hP value
  have hdon : allocateDonated P value = true ↔
      P.kPagesPerHugePage / 2 < (allocateRequest P value).1 := by
    unfold allocateDonated
    exact decide_eq_true_iff
  refine ⟨?_, hdon, fun h => allocateRequest_donated hP value (hdon.1 h), ?_, ?_⟩
  · rcases HugePageFiller.TryGet_linked hinv hn1 (allocateRequest P value).2 with
      hnone | ⟨f', pt, page, hget, hlinked⟩
    · right
      obtain ⟨t, r, hget, hwd, _, hc⟩ := contributeNewHugePage_eq st
        (show (allocateRequest P value).1 ≤ P.kPagesPerHugePage by omega)
        (allocateRequest P value).2 (allocateDonated P value)
      obtain ⟨st', page, hc', hinv', _⟩ := contributeNewHugePage_inv st hinv hn1
        (show (allocateRequest P value).1 ≤ P.kPagesPerHugePage by omega)
        (allocateRequest P value).2 (allocateDonated P value)
      refine ⟨t, r, hget, hwd, ?_⟩
      rw [hc] at hc'
      injection hc' with hc'
      injection hc' with hst hrest
      injection hrest with _ hpage
      rw [← hst, ← hpage] at hinv'
      unfold opAllocate
      simp only [checkSizes_ok hinv]
      rw [hnone]
      simp only
      unfold allocateDonated at hc
      rw [show ({ st with filler := st.filler } : Harness) = st from rfl, hc]
      simp only
      exact checkSizes_ok hinv' 282
    · left
      refine ⟨f', pt, page, hget, ?_⟩
      unfold opAllocate
      simp only [checkSizes_ok hinv]
      rw [hget]
      simp only
      have hinv' : (recordAlloc { st with filler := f' } pt page (allocateRequest P value).1
          (allocateRequest P value).2).Inv P := hlinked
      exact checkSizes_ok hinv' 282
  · intro hle
    unfold allocateDonated
    exact decide_eq_false (by omega)
  · have hc : 1 ≤ clamp (value &&& 0xFFFF) 1 (P.kPagesPerHugePage - 1) ∧
        clamp (value &&& 0xFFFF) 1 (P.kPagesPerHugePage - 1) ≤ P.kPagesPerHugePage - 1 :=
      clamp_bounds _ (by omega)
    obtain ⟨t, r, hget, hwd, _, hcn⟩ := contributeNewHugePage_eq st
      (show clamp (value &&& 0xFFFF) 1 (P.kPagesPerHugePage - 1) ≤ P.kPagesPerHugePage by omega)
      { objects_per_span := 1, density := AccessDensityPrediction.kSparse } true
    obtain ⟨st', page, hc', hinv', _⟩ := contributeNewHugePage_inv st hinv hc.1
      (show clamp (value &&& 0xFFFF) 1 (P.kPagesPerHugePage - 1) ≤ P.kPagesPerHugePage by omega)
      { objects_per_span := 1, density := AccessDensityPrediction.kSparse } true
    refine ⟨t, r, hget, hwd, ?_⟩
    rw [hcn] at hc'
    injection hc' with hc'
    injection hc' with hst hrest
    injection hrest with _ hpage
    rw [← hst, ← hpage] at hinv'
    unfold opDonateTail
    simp only
    rw [hcn]
    simp only
    exact checkSizes_ok hinv' 452

/-! ### The size of a run -/

/-- The operation loop reads one operation for every full group of five bytes. -/
theorem decodeOps_length : ∀ l : List Byte, (decodeOps l).length = l.length / 5
  | [] => rfl
  | [_] => by simp [decodeOps]
  | [_, _] => by simp [decodeOps]
  | [_, _, _] => by simp [decodeOps]
  | [_, _, _, _] => by simp [decodeOps]
  | _ :: _ :: _ :: _ :: _ :: rest => by
    rw [decodeOps, List.length_cons, decodeOps_length rest]
    simp only [List.length_cons]
    omega

theorem checkSizes_eq {line : Nat} {st st' : Harness} (h : checkSizes line st = .ok st') :
    st' = st := by
  unfold checkSizes at h
  split_ifs at h
  injection h with h
  exact h.symm

theorem swapRemove_length_le {α : Type} [Inhabited α] (v : List α) (i : Nat) :
    (swapRemove v i).length ≤ v.length := by
  unfold swapRemove
  rw [List.length_dropLast, List.length_set]
  omega

theorem opDeallocate_counts {P : Params} {st st' : Harness} {value : Nat}
    (h : opDeallocate P st value = .ok st') :
    st'.next_hugepage = st.next_hugepage ∧ st'.trackers.length ≤ st.trackers.length := by
  unfold opDeallocate at h
  by_cases he : st.trackers.isEmpty = true
  · rw [if_pos he] at h
    injection h with h
    subst h
    exact ⟨rfl, le_refl _⟩
  · rw [if_neg he] at h
    simp only at h
    split at h
    · cases h
    · split at h
      · cases h
      · split at h
        · cases h
        · have := checkSizes_eq h
          subst this
          refine ⟨rfl, ?_⟩
          simp only
          split
          · exact swapRemove_length_le _ _
          · exact le_refl _

/-- An operation that succeeds either creates no tracker (the counter of huge pages stays and
`trackers` does not grow) or creates exactly one (the counter and `trackers` grow by one). -/
theorem step_counts {P : Params} {st st' : Harness} {op value : Nat}
    (h : step P st op value = .ok st') :
    (st'.next_hugepage = st.next_hugepage ∧ st'.trackers.length ≤ st.trackers.length) ∨
    (st'.next_hugepage = st.next_hugepage + 1 ∧
      st'.trackers.length = st.trackers.length + 1) := by
  have hsame : ∀ x : Harness, (Except.ok x : Except Failure Harness) = .ok st' →
      x.next_hugepage = st.next_hugepage → x.trackers = st.trackers →
      (st'.next_hugepage = st.next_hugepage ∧ st'.trackers.length ≤ st.trackers.length) ∨
      (st'.next_hugepage = st.next_hugepage + 1 ∧
        st'.trackers.length = st.trackers.length + 1) := by
    intro x hx h1 h2
    injection hx with hx
    subst hx
    exact Or.inl ⟨h1, by rw [h2]⟩
  unfold step at h
  by_cases h0 : op &&& 0xF = 0
  · rw [if_pos h0] at h
    unfold opAllocate at h
    simp only at h
    split at h
    · cases h
    · split at h
      · cases h
      · split at h
        · have := checkSizes_eq h
          subst this
          exact Or.inl ⟨rfl, le_refl _⟩
        · split at h
          · cases h
          · rename_i st1 pt page hc
            have := checkSizes_eq h
            subst this
            unfold contributeNewHugePage at hc
            split at hc
            · cases hc
            · injection hc with hc
              injection hc with hst _
              subst hst
              right
              exact ⟨rfl, by simp [recordAlloc]⟩
  rw [if_neg h0] at h
  by_cases h1 : op &&& 0xF = 1
  · rw [if_pos h1] at h
    exact Or.inl (opDeallocate_counts h)
  rw [if_neg h1] at h
  by_cases h2 : op &&& 0xF = 2
  · rw [if_pos h2] at h
    unfold opRelease at h
    simp only at h
    split_ifs at h
    all_goals exact hsame _ h rfl rfl
  rw [if_neg h2] at h
  by_cases h3 : op &&& 0xF = 3
  · rw [if_pos h3] at h
    exact hsame _ h rfl rfl
  rw [if_neg h3] at h
  by_cases h4 : op &&& 0xF = 4
  · rw [if_pos h4] at h
    exact hsame _ h rfl rfl
  rw [if_neg h4] at h
  by_cases h6 : op &&& 0xF = 6
  · rw [if_pos h6] at h
    unfold opDonateTail at h
    simp only at h
    split at h
    · cases h
    · rename_i st1 pt page hc
      have := checkSizes_eq h
      subst this
      unfold contributeNewHugePage at hc
      split at hc
      · cases hc
      · injection hc with hc
        injection hc with hst _
        subst hst
        right
        exact ⟨rfl, by simp [recordAlloc]⟩
  rw [if_neg h6] at h
  by_cases h7 : op &&& 0xF = 7
  · rw [if_pos h7] at h
    unfold opReleaseHitLimit at h
    simp only at h
    split_ifs at h
    all_goals exact hsame _ h rfl rfl
  rw [if_neg h7] at h
  by_cases h10 : op &&& 0xF = 10
  · rw [if_pos h10] at h
    unfold opTreatHugepageTrackers at h
    simp only at h
    split at h
    · exact hsame _ h rfl rfl
    · cases h
  rw [if_neg h10] at h
  by_cases h11 : op &&& 0xF = 11
  · rw [if_pos h11] at h
    unfold opSetResidency at h
    split_ifs at h
    · exact hsame _ h rfl rfl
    · exact hsame _ h rfl rfl
  rw [if_neg h11] at h
  by_cases h12 : op &&& 0xF = 12
  · rw [if_pos h12] at h
    exact hsame _ h rfl rfl
  rw [if_neg h12] at h
  exact hsame st h rfl rfl

/-- A run of operations creates at most one tracker per operation, and `trackers` never holds
more trackers than were created. -/
theorem runOps_counts {P : Params} {st st' : Harness} {ops : List (Nat × Nat)}
    (h : runOps P st ops = .ok st') (h0 : st.trackers.length + 1 ≤ st.next_hugepage) :
    st'.next_hugepage ≤ st.next_hugepage + ops.length ∧
      st'.trackers.length + 1 ≤ st'.next_hugepage := by
  induction ops generalizing st with
  | nil =>
    unfold runOps at h
    injection h with h
    subst h
    exact ⟨le_refl _, h0⟩
  | cons o ops ih =>
    obtain ⟨op, value⟩ := o
    unfold runOps at h
    split at h
    · cases h
    · rename_i st1 hstep
      have h1 := step_counts hstep
      obtain ⟨h2, h3⟩ := ih h (by omega)
      rw [List.length_cons]
      exact ⟨by omega, h3⟩

/-- The released set never holds more pages than the trackers in the filler have. -/
theorem Linked.released_card_le {P : Params} {T : List PageTracker}
    {A : List (Nat × List (Range × SpanAllocInfo))} {L : List Nat} {next : Nat}
    {RP : Finset Nat} (h : Linked P T A L next RP) :
    RP.card ≤ P.kPagesPerHugePage * L.length := by
  rw [← h.unmapped_eq, ← h.length_eq]
  have hwf := h.wf
  clear h
  induction T with
  | nil => simp
  | cons t T ih =>
    rw [List.map_cons, List.sum_cons, List.length_cons, Nat.mul_succ]
    have h1 : t.released_bitmap.card ≤ P.kPagesPerHugePage := by
      have hsub : t.released_bitmap ⊆ Finset.range P.kPagesPerHugePage := by
        intro i hi
        rw [Finset.mem_range]
        exact (hwf t (List.mem_cons_self _ _)).released_lt i hi
      have := Finset.card_le_card hsub
      rw [Finset.card_range] at this
      exact this
    have h2 := ih (fun u hu => hwf u (List.mem_cons_of_mem _ hu))
    omega

/-- `FuzzFiller` on an input the size guard accepts runs all its operations and the shutdown
loop without a failed check. -/
theorem FuzzFiller_completes {P : Params} (hP : P.Valid) (g : Globals) (s : List Byte)
    (hguard : ¬ (s.length ≤ 3 ∨ s.length > 100000)) :
    ∃ r, FuzzFiller P g s = .ok (some r) ∧
      runOps P (initialHarness g s) (decodeOps (s.drop 3)) = .ok r.atShutdown := by
  obtain ⟨st, hst, hinv⟩ := runOps_inv hP (initialHarness_inv P g s) (decodeOps (s.drop 3))
  obtain ⟨f', hsd, hsize⟩ := shutdownLoop_linked st.filler
    (Linked.of_perm hinv (List.Perm.refl _) (List.Perm.refl _)
      (hinv.trackers_perm.trans hinv.keys_perm.symm))
  refine ⟨⟨st, f', st.allocs.map
    fun e => (e.1, List.replicate (e.2.length - 1) none ++ [some e.1])⟩, ?_, hst⟩
  unfold FuzzFiller
  rw [if_neg hguard, hst]
  simp only
  rw [if_neg (by
    rw [not_not]
    exact hinv.unmapped_eq.symm), hsd]
  simp only
  rw [if_neg (by
    rw [not_not]
    exact hsize)]

/-! ### The bookkeeping of the harness -/

/-- What the link says about the bookkeeping alone: the keys of `allocs` are the elements of
`trackers`, neither repeats one, and every entry is a non-empty vector of pairwise disjoint
ranges inside the huge page of its tracker. -/
theorem Linked.bookkeeping {P : Params} {T : List PageTracker}
    {A : List (Nat × List (Range × SpanAllocInfo))} {L : List Nat} {next : Nat}
    {RP : Finset Nat} (h : Linked P T A L next RP) :
    (A.map fun e => e.1).Perm L ∧ L.Nodup ∧ (A.map fun e => e.1).Nodup ∧
    ∀ e ∈ A, e.2 ≠ [] ∧
      (∀ a ∈ e.2, 1 ≤ a.1.n ∧ e.1 * P.kPagesPerHugePage ≤ a.1.p ∧
        a.1.p + a.1.n ≤ e.1 * P.kPagesPerHugePage + P.kPagesPerHugePage) ∧
      e.2.Pairwise fun a b => a.1.p + a.1.n ≤ b.1.p ∨ b.1.p + b.1.n ≤ a.1.p := by
  refine ⟨h.keys_perm.trans h.trackers_perm.symm, (h.trackers_perm.nodup_iff).2 h.nodup,
    h.keys_nodup, ?_⟩
  intro e he
  have hkey : e.1 ∈ T.map fun t => t.location :=
    h.keys_perm.mem_iff.1 (List.mem_map_of_mem (fun e => e.1) he)
  rw [List.mem_map] at hkey
  obtain ⟨t, ht, hte⟩ := hkey
  obtain ⟨hag, hne⟩ := h.agree e he t ht hte
  refine ⟨hne, ?_, hag.disjoint⟩
  intro a ha
  obtain ⟨h1, h2, h3, _⟩ := hag.inside a ha
  rw [show t.first_page P = e.1 * P.kPagesPerHugePage by rw [← hte]; rfl] at h2 h3
  exact ⟨h1, h2, h3⟩

/-- In a linked state the vector `allocs[pt]` of every element `pt` of `trackers` is not
empty. -/
theorem Linked.allocsAt_ne_nil {P : Params} {T : List PageTracker}
    {A : List (Nat × List (Range × SpanAllocInfo))} {L : List Nat} {next : Nat}
    {RP : Finset Nat} (h : Linked P T A L next RP) {pt : Nat} (hpt : pt ∈ L) :
    allocsAt A pt ≠ [] := by
  obtain ⟨t, ht, rfl⟩ := h.exists_tracker hpt
  obtain ⟨v, hv, _, hvne⟩ := h.exists_entry ht
  rw [allocsAt_of_mem h.keys_nodup hv]
  exact hvne

/-- C22: at the start of every operation (in the state after any number of operations of any
input) the keys of `allocs` are exactly the elements of `trackers`, no tracker occurs twice in
`trackers` (nor as a key), and the vector of every tracker is non-empty and holds pairwise
disjoint ranges inside that tracker's huge page. Consequently, for every value, when
`trackers` is not empty the index `lo` of Deallocate is in bounds, `allocs[pt]` is not empty,
and the index `hi` is in bounds; the check at line 299 does not fail and Deallocate goes
through. -/
theorem bookkeeping_invariant {P : Params} (hP : P.Valid) (g : Globals) (s : List Byte)
    (k : Nat) :
    ∃ st, stateAfter P g s k = .ok st ∧
      (st.allocs.map fun e => e.1).Perm st.trackers ∧
      st.trackers.Nodup ∧
      (st.allocs.map fun e => e.1).Nodup ∧
      (∀ e ∈ st.allocs, e.2 ≠ [] ∧
        (∀ a ∈ e.2, 1 ≤ a.1.n ∧ e.1 * P.kPagesPerHugePage ≤ a.1.p ∧
          a.1.p + a.1.n ≤ e.1 * P.kPagesPerHugePage + P.kPagesPerHugePage) ∧
        e.2.Pairwise fun a b => a.1.p + a.1.n ≤ b.1.p ∨ b.1.p + b.1.n ≤ a.1.p) ∧
      ∀ value : Nat,
        (st.trackers ≠ [] →
          min (value &&& 0xFFFF) (st.trackers.length - 1) < st.trackers.length ∧
          st.trackers.getD (min (value &&& 0xFFFF) (st.trackers.length - 1)) 0 ∈ st.trackers ∧
          allocsAt st.allocs
            (st.trackers.getD (min (value &&& 0xFFFF) (st.trackers.length - 1)) 0) ≠ [] ∧
          min (value >>> 16)
            ((allocsAt st.allocs
              (st.trackers.getD (min (value &&& 0xFFFF) (st.trackers.length - 1)) 0)).length - 1)
            < (allocsAt st.allocs
              (st.trackers.getD (min (value &&& 0xFFFF) (st.trackers.length - 1)) 0)).length) ∧
        opDeallocate P st value ≠ .error (Failure.check 299) ∧
        ∃ st', opDeallocate P st value = .ok st' := by
  obtain ⟨st, hst, hinv⟩ := stateAfter_inv hP g s k
  obtain ⟨h1, h2, h3, h4⟩ := Linked.bookkeeping hinv
  refine ⟨st, hst, h1, h2, h3, h4, ?_⟩
  intro value
  obtain ⟨st', hd, _, _⟩ := opDeallocate_inv hinv value
  refine ⟨?_, ?_, st', hd⟩
  · intro hne
    have hlen : 0 < st.trackers.length := List.length_pos.2 hne
    have hlo : min (value &&& 0xFFFF) (st.trackers.length - 1) < st.trackers.length := by
      have := Nat.min_le_right (value &&& 0xFFFF) (st.trackers.length - 1)
      omega
    have hmem : st.trackers.getD (min (value &&& 0xFFFF) (st.trackers.length - 1)) 0
        ∈ st.trackers := by
      rw [List.getD_eq_getElem _ _ hlo]
      exact List.getElem_mem _
    have hv := Linked.allocsAt_ne_nil hinv hmem
    refine ⟨hlo, hmem, hv, ?_⟩
    have hvlen := List.length_pos.2 hv
    have := Nat.min_le_right (value >>> 16)
      ((allocsAt st.allocs
        (st.trackers.getD (min (value &&& 0xFFFF) (st.trackers.length - 1)) 0)).length - 1)
    omega
  · rw [hd]
    intro h
    cases h

/-- Witness for C22: the theorem at the small constants and the example input, after three
operations. -/
theorem bookkeeping_invariant_witness :
    ∃ st, stateAfter tinyParams exampleGlobals exampleInput 3 = .ok st ∧
      (st.allocs.map fun e => e.1).Perm st.trackers ∧
      st.trackers.Nodup ∧
      (st.allocs.map fun e => e.1).Nodup ∧
      (∀ e ∈ st.allocs, e.2 ≠ [] ∧
        (∀ a ∈ e.2, 1 ≤ a.1.n ∧ e.1 * tinyParams.kPagesPerHugePage ≤ a.1.p ∧
          a.1.p + a.1.n ≤ e.1 * tinyParams.kPagesPerHugePage + tinyParams.kPagesPerHugePage) ∧
        e.2.Pairwise fun a b => a.1.p + a.1.n ≤ b.1.p ∨ b.1.p + b.1.n ≤ a.1.p) ∧
      ∀ value : Nat,
        (st.trackers ≠ [] →
          min (value &&& 0xFFFF) (st.trackers.length - 1) < st.trackers.length ∧
          st.trackers.getD (min (value &&& 0xFFFF) (st.trackers.length - 1)) 0 ∈ st.trackers ∧
          allocsAt st.allocs
            (st.trackers.getD (min (value &&& 0xFFFF) (st.trackers.length - 1)) 0) ≠ [] ∧
          min (value >>> 16)
            ((allocsAt st.allocs
              (st.trackers.getD (min (value &&& 0xFFFF) (st.trackers.length - 1)) 0)).length - 1)
            < (allocsAt st.allocs
              (st.trackers.getD (min (value &&& 0xFFFF) (st.trackers.length - 1)) 0)).length) ∧
        opDeallocate tinyParams st value ≠ .error (Failure.check 299) ∧
        ∃ st', opDeallocate tinyParams st value = .ok st' :=
  bookkeeping_invariant ⟨by decide, by decide, by decide⟩ exampleGlobals exampleInput 3

/-! ### The unback mock -/

/-- C23: `MockUnback` on any range `r`. With `unback_success` false the call returns false and
leaves the released set (and every other global) as it is. With `unback_success` true it
returns true, and the released set afterwards is the previous set united with the pages
`r.p, ..., r.p + r.n - 1`: a page is in it exactly when it was in it before or lies in the
range; no other global changes. Operation 4 flips `unback_success` and touches nothing
else. -/
theorem mock_unback_contract (r : Range) (g : Globals) :
    MockUnback r g =
      (if g.unback_success then
        (true, { g with ReleasedPages := g.ReleasedPages ∪ Finset.Ico r.p (r.p + r.n) })
       else (false, g)) ∧
    (g.unback_success = false →
      (MockUnback r g).1 = false ∧ (MockUnback r g).2.ReleasedPages = g.ReleasedPages) ∧
    (g.unback_success = true →
      (MockUnback r g).1 = true ∧
      (∀ p, p ∈ (MockUnback r g).2.ReleasedPages ↔
        p ∈ g.ReleasedPages ∨ (r.p ≤ p ∧ p < r.p + r.n)) ∧
      g.ReleasedPages ⊆ (MockUnback r g).2.ReleasedPages ∧
      (MockUnback r g).2.ReleasedPages.card ≤ g.ReleasedPages.card + r.n) ∧
    (∀ st : Harness,
      opToggleUnback st = { st with g := { st.g with unback_success := !st.g.unback_success } } ∧
      (opToggleUnback st).g.ReleasedPages = st.g.ReleasedPages) ∧
    (MockUnback ⟨11, 3⟩ freshGlobals).2.ReleasedPages = {11, 12, 13} ∧
    MockUnback ⟨11, 3⟩ { freshGlobals with unback_success := false, ReleasedPages := {5} } =
      (false, { freshGlobals with unback_success := false, ReleasedPages := {5} }) := by
  have heq : MockUnback r g =
      (if g.unback_success then
        (true, { g with ReleasedPages := g.ReleasedPages ∪ Finset.Ico r.p (r.p + r.n) })
       else (false, g)) := by
    unfold MockUnback
    cases hs : g.unback_success
    · simp
    · simp [insertRange_eq]
  refine ⟨heq, ?_, ?_, fun st => ⟨rfl, rfl⟩, by decide, by decide⟩
  · intro hs
    rw [heq, hs]
    exact ⟨rfl, rfl⟩
  · intro hs
    rw [heq, hs]
    simp only [if_true]
    refine ⟨trivial, ?_, Finset.subset_union_left, ?_⟩
    · intro p
      rw [Finset.mem_union, Finset.mem_Ico]
    · refine (Finset.card_union_le _ _).trans ?_
      rw [Nat.card_Ico]
      omega

/-! ### The virtual clock -/

/-- Every value the operation loop decodes is an unsigned 32-bit number. -/
theorem decodeOps_value_lt : ∀ (l : List Byte), ∀ o ∈ decodeOps l, o.2 < 2 ^ 32
  | [] => by simp [decodeOps]
  | [_] => by simp [decodeOps]
  | [_, _] => by simp [decodeOps]
  | [_, _, _] => by simp [decodeOps]
  | [_, _, _, _] => by simp [decodeOps]
  | _ :: b0 :: b1 :: b2 :: b3 :: rest => by
    intro o ho
    rw [decodeOps, List.mem_cons] at ho
    rcases ho with rfl | ho
    · have h0 := b0.isLt
      have h1 := b1.isLt
      have h2 := b2.isLt
      have h3 := b3.isLt
      simp only
      omega
    · exact decodeOps_value_lt rest o ho

theorem runOps_append (P : Params) (st : Harness) (l1 l2 : List (Nat × Nat)) :
    runOps P st (l1 ++ l2) =
      match runOps P st l1 with
      | .error e => .error e
      | .ok st' => runOps P st' l2 := by
  induction l1 generalizing st with
  | nil => rfl
  | cons o l1 ih =>
    obtain ⟨op, value⟩ := o
    rw [List.cons_append, runOps, runOps]
    cases step P st op value with
    | error e => rfl
    | ok st1 => exact ih st1

theorem PageTracker.Get_alloc_time {P : Params} {t t' : PageTracker} {n : Nat}
    {info : SpanAllocInfo} {r : Range} (h : t.Get P n info = .ok (t', r)) :
    t'.alloc_time = t.alloc_time := by
  unfold PageTracker.Get at h
  split_ifs at h
  split at h
  · cases h
  · injection h with h
    injection h with h _
    subst h
    rfl

theorem PageTracker.Put_alloc_time {P : Params} {t t' : PageTracker} {r : Range}
    {info : SpanAllocInfo} {b : Bool} (h : t.Put P r info = .ok (t', b)) :
    t'.alloc_time = t.alloc_time := by
  unfold PageTracker.Put at h
  split_ifs at h
  injection h with h
  injection h with h _
  subst h
  rfl

theorem PageTracker.releaseWhere_alloc_time {σ : Type} (P : Params)
    (unback : MemoryModifyFunction σ) (sel : Nat → Bool) (t : PageTracker) (s : σ) :
    (t.releaseWhere P unback sel s).1.alloc_time = t.alloc_time := by
  unfold PageTracker.releaseWhere
  rfl

theorem replaceTracker_times {c : Int} {t' : PageTracker} {ts : List PageTracker}
    (h : ∀ t ∈ ts, t.alloc_time ≤ c) (ht' : t'.alloc_time ≤ c) :
    ∀ t ∈ replaceTracker t' ts, t.alloc_time ≤ c := by
  intro t ht
  unfold replaceTracker at ht
  rw [List.mem_map] at ht
  obtain ⟨u, hu, rfl⟩ := ht
  split_ifs
  · exact ht'
  · exact h u hu

theorem removeTracker_times {c : Int} {loc : Nat} {ts : List PageTracker}
    (h : ∀ t ∈ ts, t.alloc_time ≤ c) : ∀ t ∈ removeTracker loc ts, t.alloc_time ≤ c := by
  intro t ht
  unfold removeTracker at ht
  exact h t (List.mem_filter.1 ht).1

/-- `TryGet` leaves the construction times of the trackers as they are. -/
theorem HugePageFiller.TryGet_times {P : Params} {f f' : HugePageFiller} {n : Nat}
    {info : SpanAllocInfo} {res : TryGetResult} {c : Int}
    (h : f.TryGet P n info = .ok (f', res)) (hc : ∀ t ∈ f.trackers, t.alloc_time ≤ c) :
    ∀ t ∈ f'.trackers, t.alloc_time ≤ c := by
  unfold HugePageFiller.TryGet at h
  split at h
  · injection h with h
    injection h with h _
    subst h
    exact hc
  · rename_i t hsel
    split at h
    · cases h
    · rename_i t' r hget
      injection h with h
      injection h with h _
      subst h
      have hmem := HugePageFiller.select_mem hsel
      exact replaceTracker_times hc
        (by rw [PageTracker.Get_alloc_time hget]; exact hc t hmem.1)

/-- `Put` leaves the construction times of the trackers as they are. -/
theorem HugePageFiller.Put_times {P : Params} {f f' : HugePageFiller} {pt : Nat} {r : Range}
    {info : SpanAllocInfo} {ret : Option PageTracker} {c : Int}
    (h : f.Put P pt r info = .ok (f', ret)) (hc : ∀ t ∈ f.trackers, t.alloc_time ≤ c) :
    ∀ t ∈ f'.trackers, t.alloc_time ≤ c := by
  unfold HugePageFiller.Put at h
  split at h
  · cases h
  · rename_i t hfind
    have hmem := List.mem_of_find?_eq_some hfind
    split at h
    · cases h
    · rename_i t' hput
      injection h with h
      injection h with h _
      subst h
      exact removeTracker_times hc
    · rename_i t' hput
      injection h with h
      injection h with h _
      subst h
      exact replaceTracker_times hc
        (by rw [PageTracker.Put_alloc_time hput]; exact hc t hmem)

theorem releaseWalk_times {σ : Type} (P : Params) (unback : MemoryModifyFunction σ)
    (allowed : Nat) {c : Int} (ts : List PageTracker) (released : Nat) (s : σ)
    (hc : ∀ t ∈ ts, t.alloc_time ≤ c) :
    ∀ t ∈ (releaseWalk P unback allowed ts released s).1, t.alloc_time ≤ c := by
  induction ts generalizing released s with
  | nil =>
    intro t ht
    simp [releaseWalk] at ht
  | cons u us ih =>
    unfold releaseWalk
    split_ifs
    · exact hc
    · intro t ht
      simp only [List.mem_cons] at ht
      rcases ht with rfl | ht
      · unfold PageTracker.ReleaseFree
        rw [PageTracker.releaseWhere_alloc_time]
        exact hc u (List.mem_cons_self _ _)
      · exact ih _ _ (fun x hx => hc x (List.mem_cons_of_mem _ hx)) t ht

/-- `ReleasePages` leaves the construction times of the trackers as they are. -/
theorem HugePageFiller.ReleasePages_times {σ : Type} (P : Params) (cb : FillerCallbacks σ)
    (f : HugePageFiller) (desired : Nat) (intervals : SkipSubreleaseIntervals)
    (release_partial_allocs hit_limit : Bool) (s : σ) {c : Int}
    (hc : ∀ t ∈ f.trackers, t.alloc_time ≤ c) :
    ∀ t ∈ (f.ReleasePages P cb desired intervals release_partial_allocs hit_limit
      s).1.trackers, t.alloc_time ≤ c := by
  unfold HugePageFiller.ReleasePages
  simp only
  exact releaseWalk_times P cb.unback _ _ 0 s
    (fun t ht => hc t ((List.perm_insertionSort _ _).mem_iff.1 ht))

/-- With the callbacks of the harness `ReleasePages` changes no global but the released
set. -/
theorem HugePageFiller.ReleasePages_mock_globals (P : Params) (f : HugePageFiller)
    (desired : Nat) (intervals : SkipSubreleaseIntervals)
    (release_partial_allocs hit_limit : Bool) (g : Globals) :
    ∃ X, (f.ReleasePages P mockCallbacks desired intervals release_partial_allocs hit_limit
      g).2.2 = g.withReleased X := by
  obtain ⟨ts', total, X, hw, _⟩ := releaseWalk_mock P
    (f.allowedToRelease P g.fake_clock desired intervals release_partial_allocs hit_limit)
    (f.trackers.insertionSort fun a b => releaseBefore a b = true) 0 g
  refine ⟨X, ?_⟩
  unfold HugePageFiller.ReleasePages
  simp only
  exact congrArg (fun x => x.2.2) hw

theorem treatTracker_alloc_time {σ : Type} (P : Params) (cb : FillerCallbacks σ)
    (enable_collapse enable_release_free_swapped : Bool) (pageflags : PageFlagsBase σ)
    (residency : Residency σ) (t : PageTracker) (s : σ) :
    (treatTracker P cb enable_collapse enable_release_free_swapped pageflags residency
      t s).1.alloc_time = t.alloc_time := by
  unfold treatTracker
  simp only
  cases enable_release_free_swapped <;> cases enable_collapse <;>
    simp [PageTracker.ReleaseFreeSwapped, PageTracker.releaseWhere_alloc_time]

theorem treatTrackers_times {σ : Type} (P : Params) (cb : FillerCallbacks σ)
    (enable_collapse enable_release_free_swapped : Bool) (pageflags : PageFlagsBase σ)
    (residency : Residency σ) {c : Int} (ts : List PageTracker) (s : σ)
    (hc : ∀ t ∈ ts, t.alloc_time ≤ c) :
    ∀ t ∈ (treatTrackers P cb enable_collapse enable_release_free_swapped pageflags residency
      ts s).1, t.alloc_time ≤ c := by
  induction ts generalizing s with
  | nil =>
    intro t ht
    simp [treatTrackers] at ht
  | cons u us ih =>
    unfold treatTrackers
    intro t ht
    simp only [List.mem_cons] at ht
    rcases ht with rfl | ht
    · rw [treatTracker_alloc_time]
      exact hc u (List.mem_cons_self _ _)
    · exact ih _ (fun x hx => hc x (List.mem_cons_of_mem _ hx)) t ht

/-- With the mocks of the harness `TreatHugepageTrackers` changes no global but the released
set. -/
theorem HugePageFiller.TreatHugepageTrackers_mock_globals (P : Params) (f : HugePageFiller)
    (enable_collapse enable_release_free_swapped : Bool) (g : Globals) :
    ∃ X, (f.TreatHugepageTrackers P mockCallbacks enable_collapse
      enable_release_free_swapped FakePageFlags (FakeResidency P) g).2 = g.withReleased X := by
  obtain ⟨ts', X, hw, _⟩ := treatTrackers_mock P enable_collapse
    enable_release_free_swapped f.trackers g
  refine ⟨X, ?_⟩
  unfold HugePageFiller.TreatHugepageTrackers
  rw [hw]

theorem HugePageFiller.FetchFullyFreedTracker_times {f : HugePageFiller} {c : Int}
    (hc : ∀ t ∈ f.trackers, t.alloc_time ≤ c) :
    ∀ t ∈ f.FetchFullyFreedTracker.1.trackers, t.alloc_time ≤ c := by
  unfold HugePageFiller.FetchFullyFreedTracker
  split
  · exact hc
  · exact removeTracker_times hc

theorem contributeNewHugePage_clock {P : Params} {st st' : Harness} {n : Nat}
    {info : SpanAllocInfo} {donated : Bool} {pt page : Nat}
    (h : contributeNewHugePage P st n info donated = .ok (st', pt, page)) :
    st'.g = st.g ∧ (st.TimesOk → st'.TimesOk) := by
  unfold contributeNewHugePage at h
  split at h
  · cases h
  · rename_i t r hget
    injection h with h
    injection h with h _
    subst h
    refine ⟨rfl, ?_⟩
    intro hc u hu
    simp only [HugePageFiller.Contribute, List.mem_append, List.mem_singleton] at hu
    rcases hu with hu | rfl
    · exact hc u hu
    · rw [show ({ t with density := info.density } : PageTracker).alloc_time = t.alloc_time
        from rfl, PageTracker.Get_alloc_time hget]
      exact le_refl _

theorem opAllocate_clock {P : Params} {st st' : Harness} {value : Nat}
    (h : opAllocate P st value = .ok st') :
    st'.g.fake_clock = st.g.fake_clock ∧ (st.TimesOk → st'.TimesOk) := by
  unfold opAllocate at h
  simp only at h
  split at h
  · cases h
  · split at h
    · cases h
    · rename_i f res htry
      split at h
      · have := checkSizes_eq h
        subst this
        exact ⟨rfl, fun hc => HugePageFiller.TryGet_times htry hc⟩
      · split at h
        · cases h
        · rename_i st1 pt page hcn
          have := checkSizes_eq h
          subst this
          obtain ⟨hg, ht⟩ := contributeNewHugePage_clock hcn
          refine ⟨show st1.g.fake_clock = st.g.fake_clock by rw [hg], fun hc => ?_⟩
          have h1 : st1.TimesOk := ht (HugePageFiller.TryGet_times htry hc)
          exact fun u hu => h1 u hu

theorem opDonateTail_clock {P : Params} {st st' : Harness} {value : Nat}
    (h : opDonateTail P st value = .ok st') :
    st'.g.fake_clock = st.g.fake_clock ∧ (st.TimesOk → st'.TimesOk) := by
  unfold opDonateTail at h
  simp only at h
  split at h
  · cases h
  · rename_i st1 pt page hcn
    have := checkSizes_eq h
    subst this
    obtain ⟨hg, ht⟩ := contributeNewHugePage_clock hcn
    refine ⟨show st1.g.fake_clock = st.g.fake_clock by rw [hg], fun hc => ?_⟩
    have h1 : st1.TimesOk := ht hc
    exact fun u hu => h1 u hu

theorem opDeallocate_clock {P : Params} {st st' : Harness} {value : Nat}
    (h : opDeallocate P st value = .ok st') :
    st'.g.fake_clock = st.g.fake_clock ∧ (st.TimesOk → st'.TimesOk) := by
  unfold opDeallocate at h
  by_cases he : st.trackers.isEmpty = true
  · rw [if_pos he] at h
    injection h with h
    subst h
    exact ⟨rfl, id⟩
  · rw [if_neg he] at h
    simp only at h
    split at h
    · cases h
    · split at h
      · cases h
      · rename_i f ret hput
        split at h
        · cases h
        · have := checkSizes_eq h
          subst this
          exact ⟨rfl, fun hc => HugePageFiller.Put_times hput hc⟩

theorem ReleasePages_clock (P : Params) (st : Harness) (desired : Nat)
    (intervals : SkipSubreleaseIntervals) (release_partial_allocs hit_limit : Bool) :
    (st.filler.ReleasePages P mockCallbacks desired intervals release_partial_allocs hit_limit
      st.g).2.2.fake_clock = st.g.fake_clock ∧
    (st.TimesOk →
      Harness.TimesOk
        { st with
            g := (st.filler.ReleasePages P mockCallbacks desired intervals
              release_partial_allocs hit_limit st.g).2.2
            filler := (st.filler.ReleasePages P mockCallbacks desired intervals
              release_partial_allocs hit_limit st.g).1 }) := by
  obtain ⟨X, hX⟩ := HugePageFiller.ReleasePages_mock_globals P st.filler desired intervals
    release_partial_allocs hit_limit st.g
  have hclock : (st.filler.ReleasePages P mockCallbacks desired intervals
      release_partial_allocs hit_limit st.g).2.2.fake_clock = st.g.fake_clock := by
    rw [hX]
    rfl
  refine ⟨hclock, fun hc => ?_⟩
  intro u hu
  have := HugePageFiller.ReleasePages_times P mockCallbacks st.filler desired intervals
    release_partial_allocs hit_limit st.g hc u hu
  exact this.trans (le_of_eq hclock.symm)

theorem opRelease_clock {P : Params} {st st' : Harness} {value : Nat}
    (h : opRelease P st value = .ok st') :
    st'.g.fake_clock = st.g.fake_clock ∧ (st.TimesOk → st'.TimesOk) := by
  have key := ReleasePages_clock P st (releaseRequest value).desired
    (releaseRequest value).intervals (releaseRequest value).release_partial_allocs
    (releaseRequest value).hit_limit
  unfold opRelease at h
  simp only at h
  split_ifs at h
  all_goals
    injection h with h
    subst h
    exact key

theorem opReleaseHitLimit_clock {P : Params} {st st' : Harness} {value : Nat}
    (h : opReleaseHitLimit P st value = .ok st') :
    st'.g.fake_clock = st.g.fake_clock ∧ (st.TimesOk → st'.TimesOk) := by
  have key := ReleasePages_clock P st (value &&& 0xFF)
    { peak_interval := 0, short_interval := 0, long_interval := 0 } false true
  unfold opReleaseHitLimit at h
  simp only at h
  split_ifs at h
  all_goals
    injection h with h
    subst h
    exact key

theorem opTreatHugepageTrackers_clock {P : Params} {st st' : Harness} {value : Nat}
    (h : opTreatHugepageTrackers P st value = .ok st') :
    st'.g.fake_clock = st.g.fake_clock ∧ (st.TimesOk → st'.TimesOk) := by
  unfold opTreatHugepageTrackers at h
  simp only at h
  obtain ⟨X, hX⟩ := HugePageFiller.TreatHugepageTrackers_mock_globals P st.filler
    (decide (value &&& 0x1 ≠ 0)) (decide ((value >>> 1) &&& 0x1 ≠ 0)) st.g
  have htimes : st.TimesOk → ∀ t ∈ (st.filler.TreatHugepageTrackers P mockCallbacks
      (decide (value &&& 0x1 ≠ 0)) (decide ((value >>> 1) &&& 0x1 ≠ 0)) FakePageFlags
      (FakeResidency P) st.g).1.FetchFullyFreedTracker.1.trackers,
      t.alloc_time ≤ st.g.fake_clock := by
    intro hc
    apply HugePageFiller.FetchFullyFreedTracker_times
    unfold HugePageFiller.TreatHugepageTrackers
    simp only
    exact treatTrackers_times P mockCallbacks _ _ FakePageFlags (FakeResidency P)
      st.filler.trackers st.g hc
  split at h
  · rename_i f' hfetch
    injection h with h
    subst h
    have hclock : (st.filler.TreatHugepageTrackers P mockCallbacks
        (decide (value &&& 0x1 ≠ 0)) (decide ((value >>> 1) &&& 0x1 ≠ 0)) FakePageFlags
        (FakeResidency P) st.g).2.fake_clock = st.g.fake_clock := by
      rw [hX]
      rfl
    refine ⟨hclock, fun hc => ?_⟩
    intro u hu
    have h1 := htimes hc u (by rw [hfetch]; exact hu)
    exact h1.trans (le_of_eq hclock.symm)
  · cases h

/-- One operation: only Advance clock (operation 3) changes `fake_clock`, and it adds its
value; no operation gives a tracker in the filler a construction time later than the clock. -/
theorem step_clock {P : Params} {st st' : Harness} {op value : Nat}
    (h : step P st op value = .ok st') :
    st'.g.fake_clock =
        (if op &&& 0xF = 3 then st.g.fake_clock + (value : Int) else st.g.fake_clock) ∧
      (st.TimesOk → st'.TimesOk) := by
  unfold step at h
  by_cases h0 : op &&& 0xF = 0
  · rw [if_pos h0] at h
    rw [if_neg (by omega)]
    exact opAllocate_clock h
  rw [if_neg h0] at h
  by_cases h1 : op &&& 0xF = 1
  · rw [if_pos h1] at h
    rw [if_neg (by omega)]
    exact opDeallocate_clock h
  rw [if_neg h1] at h
  by_cases h2 : op &&& 0xF = 2
  · rw [if_pos h2] at h
    rw [if_neg (by omega)]
    exact opRelease_clock h
  rw [if_neg h2] at h
  by_cases h3 : op &&& 0xF = 3
  · rw [if_pos h3] at h
    rw [if_pos h3]
    injection h with h
    subst h
    refine ⟨rfl, fun hc u hu => ?_⟩
    have h1 : u.alloc_time ≤ st.g.fake_clock := hc u hu
    have h2 : (0 : Int) ≤ (value : Int) := Int.ofNat_nonneg value
    show u.alloc_time ≤ st.g.fake_clock + (value : Int)
    omega
  rw [if_neg h3] at h
  rw [if_neg h3]
  by_cases h4 : op &&& 0xF = 4
  · rw [if_pos h4] at h
    injection h with h
    subst h
    exact ⟨rfl, fun hc => hc⟩
  rw [if_neg h4] at h
  by_cases h6 : op &&& 0xF = 6
  · rw [if_pos h6] at h
    exact opDonateTail_clock h
  rw [if_neg h6] at h
  by_cases h7 : op &&& 0xF = 7
  · rw [if_pos h7] at h
    exact opReleaseHitLimit_clock h
  rw [if_neg h7] at h
  by_cases h10 : op &&& 0xF = 10
  · rw [if_pos h10] at h
    exact opTreatHugepageTrackers_clock h
  rw [if_neg h10] at h
  by_cases h11 : op &&& 0xF = 11
  · rw [if_pos h11] at h
    injection h with h
    subst h
    unfold opSetResidency
    split_ifs
    · exact ⟨rfl, fun hc => hc⟩
    · exact ⟨rfl, fun hc => hc⟩
  rw [if_neg h11] at h
  by_cases h12 : op &&& 0xF = 12
  · rw [if_pos h12] at h
    injection h with h
    subst h
    exact ⟨rfl, fun hc => hc⟩
  rw [if_neg h12] at h
  injection h with h
  subst h
  exact ⟨rfl, fun hc => hc⟩

/-- A run of operations with 32-bit values: the clock does not go back, it advances by less
than `2^32` per operation, and no tracker gets a construction time later than the clock. -/
theorem runOps_clock {P : Params} {st st' : Harness} {ops : List (Nat × Nat)}
    (h : runOps P st ops = .ok st') (hv : ∀ o ∈ ops, o.2 < 2 ^ 32) :
    st.g.fake_clock ≤ st'.g.fake_clock ∧
      st'.g.fake_clock ≤ st.g.fake_clock + (ops.length : Int) * (2 ^ 32 - 1) ∧
      (st.TimesOk → st'.TimesOk) := by
  induction ops generalizing st with
  | nil =>
    unfold runOps at h
    injection h with h
    subst h
    exact ⟨le_refl _, by simp, id⟩
  | cons o ops ih =>
    obtain ⟨op, value⟩ := o
    unfold runOps at h
    split at h
    · cases h
    · rename_i st1 hstep
      obtain ⟨hc, ht⟩ := step_clock hstep
      obtain ⟨h1, h2, h3⟩ := ih h (fun o ho => hv o (List.mem_cons_of_mem _ ho))
      have hval : value < 2 ^ 32 := hv (op, value) (List.mem_cons_self _ _)
      have hval' : (value : Int) ≤ 2 ^ 32 - 1 := by omega
      have hval0 : (0 : Int) ≤ (value : Int) := Int.ofNat_nonneg value
      have hst1 : st.g.fake_clock ≤ st1.g.fake_clock ∧
          st1.g.fake_clock ≤ st.g.fake_clock + (2 ^ 32 - 1) := by
        rw [hc]
        split_ifs <;> constructor <;> omega
      refine ⟨hst1.1.trans h1, ?_, fun x => h3 (ht x)⟩
      rw [List.length_cons]
      push_cast
      have : st1.g.fake_clock + (ops.length : Int) * (2 ^ 32 - 1) ≤
          st.g.fake_clock + ((ops.length : Int) + 1) * (2 ^ 32 - 1) := by
        have := hst1.2
        linarith
      exact h2.trans this

/-- The operations of an accepted input are at most 19999. -/
theorem decodeOps_length_le {s : List Byte} (hs : s.length ≤ 100000) (k : Nat) :
    ((decodeOps (s.drop 3)).take k).length ≤ 19999 := by
  rw [List.length_take, decodeOps_length, List.length_drop]
  have : (s.length - 3) / 5 ≤ 19999 := by omega
  exact (min_le_right _ _).trans this

/-- C21: for every input of at most 100000 bytes and any two points `j <= k` of its run:
`fake_clock` starts at 0; the clock at `j` is at most the clock at `k`, so `mock_clock()`
never returns less than it returned earlier; the clock stays between 0 and
`19999 * (2^32 - 1)`, a value of `int64_t`; every tracker the filler owns at `j` has an
`alloc_time` that is at most the clock at `j` and at `k`; and the operation executed at `k`
has a value below `2^32`, changes the clock only if it is Advance clock (operation 3), which
adds that value, and the sum is a value of `int64_t` (no overflow). -/
theorem clock_monotonic {P : Params} (hP : P.Valid) (g : Globals) (s : List Byte)
    (hs : s.length ≤ 100000) (j k : Nat) (hjk : j ≤ k) :
    (initialHarness g s).g.fake_clock = 0 ∧
    ∃ a b, stateAfter P g s j = .ok a ∧ stateAfter P g s k = .ok b ∧
      0 ≤ a.g.fake_clock ∧ a.g.fake_clock ≤ b.g.fake_clock ∧
      mock_clock a.g ≤ mock_clock b.g ∧
      b.g.fake_clock ≤ 19999 * (2 ^ 32 - 1) ∧ isInt64 b.g.fake_clock = true ∧
      (∀ t ∈ a.filler.trackers, t.alloc_time ≤ a.g.fake_clock ∧
        t.alloc_time ≤ b.g.fake_clock) ∧
      ∀ op value, (decodeOps (s.drop 3))[k]? = some (op, value) →
        value < 2 ^ 32 ∧
        ∃ c, step P b op value = .ok c ∧ stateAfter P g s (k + 1) = .ok c ∧
          c.g.fake_clock =
            (if op &&& 0xF = 3 then b.g.fake_clock + (value : Int) else b.g.fake_clock) ∧
          isInt64 (b.g.fake_clock + (value : Int)) = true := by
  refine ⟨rfl, ?_⟩
  obtain ⟨a, ha, _⟩ := stateAfter_inv hP g s j
  obtain ⟨b, hb, hinvb⟩ := stateAfter_inv hP g s k
  have hvals : ∀ n, ∀ o ∈ (decodeOps (s.drop 3)).take n, o.2 < 2 ^ 32 :=
    fun n o ho => decodeOps_value_lt _ o (List.mem_of_mem_take ho)
  have hinit : (initialHarness g s).TimesOk := by
    intro t ht
    simp [initialHarness, HugePageFiller.create] at ht
  -- the run up to `j`
  obtain ⟨ha1, ha2, ha3⟩ := runOps_clock ha (hvals j)
  -- the run up to `k`
  obtain ⟨hb1, hb2, hb3⟩ := runOps_clock hb (hvals k)
  have hlenk := decodeOps_length_le hs k
  have hb0 : (initialHarness g s).g.fake_clock = 0 := rfl
  rw [hb0] at ha1 ha2 hb1 hb2
  have hbound : b.g.fake_clock ≤ 19999 * (2 ^ 32 - 1) := by
    have h1 : (((decodeOps (s.drop 3)).take k).length : Int) ≤ 19999 := by
      exact_mod_cast hlenk
    have h2 : (((decodeOps (s.drop 3)).take k).length : Int) * (2 ^ 32 - 1) ≤
        19999 * (2 ^ 32 - 1) := Int.mul_le_mul_of_nonneg_right h1 (by norm_num)
    omega
  -- from `j` to `k`
  have hsplit : (decodeOps (s.drop 3)).take k =
      (decodeOps (s.drop 3)).take j ++ ((decodeOps (s.drop 3)).take k).drop j := by
    have h1 := (List.take_append_drop j ((decodeOps (s.drop 3)).take k)).symm
    rw [List.take_take, min_eq_left hjk] at h1
    exact h1
  have hab : runOps P a (((decodeOps (s.drop 3)).take k).drop j) = .ok b := by
    have h1 := hb
    unfold stateAfter at h1 ha
    rw [hsplit, runOps_append, ha] at h1
    exact h1
  obtain ⟨hab1, _, _⟩ := runOps_clock hab
    (fun o ho => hvals k o (List.mem_of_mem_drop ho))
  have hint : ∀ x : Int, 0 ≤ x → x ≤ 19999 * (2 ^ 32 - 1) + 2 ^ 32 → isInt64 x = true := by
    intro x h1 h2
    unfold isInt64
    rw [Bool.and_eq_true, decide_eq_true_iff, decide_eq_true_iff]
    constructor <;> omega
  refine ⟨a, b, ha, hb, ha1, hab1, hab1, hbound, hint _ hb1 (by omega), ?_, ?_⟩
  · intro t ht
    have h1 := ha3 hinit t ht
    exact ⟨h1, h1.trans hab1⟩
  · intro op value hget
    have hmem : (op, value) ∈ decodeOps (s.drop 3) := List.getElem?_mem hget
    have hval := decodeOps_value_lt _ _ hmem
    have htake : (decodeOps (s.drop 3)).take (k + 1) =
        (decodeOps (s.drop 3)).take k ++ [(op, value)] := by
      rw [List.take_succ, hget]
      rfl
    obtain ⟨c, hc, _⟩ := stateAfter_inv hP g s (k + 1)
    have hstep : step P b op value = .ok c := by
      have h1 := hc
      unfold stateAfter at h1 hb
      rw [htake, runOps_append, hb] at h1
      simp only [runOps] at h1
      cases hst : step P b op value with
      | error e => rw [hst] at h1; cases h1
      | ok c' => rw [hst] at h1; exact h1
    refine ⟨hval, c, hstep, hc, (step_clock hstep).1, hint _ (by omega) ?_⟩
    have : (value : Int) < 2 ^ 32 := by exact_mod_cast hval
    omega

/-- Witness for C21: the theorem at the small constants and the input `clockInput`, between
its first and its fourth operation. -/
theorem clock_monotonic_witness :
    (initialHarness freshGlobals clockInput).g.fake_clock = 0 ∧
    ∃ a b, stateAfter tinyParams freshGlobals clockInput 1 = .ok a ∧
      stateAfter tinyParams freshGlobals clockInput 3 = .ok b ∧
      0 ≤ a.g.fake_clock ∧ a.g.fake_clock ≤ b.g.fake_clock ∧
      mock_clock a.g ≤ mock_clock b.g ∧
      b.g.fake_clock ≤ 19999 * (2 ^ 32 - 1) ∧ isInt64 b.g.fake_clock = true ∧
      (∀ t ∈ a.filler.trackers, t.alloc_time ≤ a.g.fake_clock ∧
        t.alloc_time ≤ b.g.fake_clock) ∧
      ∀ op value, (decodeOps (clockInput.drop 3))[3]? = some (op, value) →
        value < 2 ^ 32 ∧
        ∃ c, step tinyParams b op value = .ok c ∧
          stateAfter tinyParams freshGlobals clockInput (3 + 1) = .ok c ∧
          c.g.fake_clock =
            (if op &&& 0xF = 3 then b.g.fake_clock + (value : Int) else b.g.fake_clock) ∧
          isInt64 (b.g.fake_clock + (value : Int)) = true :=
  clock_monotonic ⟨by decide, by decide, by decide⟩ freshGlobals clockInput (by decide) 1 3
    (by decide)

/-! ### The calls of `Contribute` -/

theorem PageTracker.Get_fields {P : Params} {t t' : PageTracker} {n : Nat}
    {info : SpanAllocInfo} {r : Range} (h : t.Get P n info = .ok (t', r)) :
    t'.was_donated = t.was_donated ∧ t'.location = t.location ∧
      t'.nused_pages = t.nused_pages + n := by
  unfold PageTracker.Get at h
  split_ifs at h
  split at h
  · cases h
  · injection h with h
    injection h with h _
    subst h
    exact ⟨rfl, rfl, rfl⟩

theorem HugePageFiller.TryGet_contributed {P : Params} {f f' : HugePageFiller} {n : Nat}
    {info : SpanAllocInfo} {res : TryGetResult} (h : f.TryGet P n info = .ok (f', res)) :
    f'.contributed = f.contributed := by
  unfold HugePageFiller.TryGet at h
  split at h
  · injection h with h
    injection h with h _
    subst h
    rfl
  · split at h
    · cases h
    · injection h with h
      injection h with h _
      subst h
      rfl

theorem HugePageFiller.Put_contributed {P : Params} {f f' : HugePageFiller} {pt : Nat}
    {r : Range} {info : SpanAllocInfo} {ret : Option PageTracker}
    (h : f.Put P pt r info = .ok (f', ret)) : f'.contributed = f.contributed := by
  unfold HugePageFiller.Put at h
  split at h
  · cases h
  · split at h
    · cases h
    · injection h with h
      injection h with h _
      subst h
      rfl
    · injection h with h
      injection h with h _
      subst h
      rfl

theorem HugePageFiller.ReleasePages_contributed {σ : Type} (P : Params)
    (cb : FillerCallbacks σ) (f : HugePageFiller) (desired : Nat)
    (intervals : SkipSubreleaseIntervals) (release_partial_allocs hit_limit : Bool) (s : σ) :
    (f.ReleasePages P cb desired intervals release_partial_allocs hit_limit s).1.contributed =
      f.contributed := by
  unfold HugePageFiller.ReleasePages
  rfl

theorem HugePageFiller.TreatHugepageTrackers_contributed {σ : Type} (P : Params)
    (cb : FillerCallbacks σ) (f : HugePageFiller) (enable_collapse : Bool)
    (enable_release_free_swapped : Bool) (pageflags : PageFlagsBase σ)
    (residency : Residency σ) (s : σ) :
    (f.TreatHugepageTrackers P cb enable_collapse enable_release_free_swapped pageflags
      residency s).1.contributed = f.contributed := by
  unfold HugePageFiller.TreatHugepageTrackers
  rfl

theorem HugePageFiller.FetchFullyFreedTracker_contributed (f : HugePageFiller) :
    f.FetchFullyFreedTracker.1.contributed = f.contributed := by
  unfold HugePageFiller.FetchFullyFreedTracker
  split <;> rfl

/-- The block "create a new huge page" makes exactly one call of `Contribute`: the tracker on
the next huge page, constructed with `was_donated` equal to `donated` and holding the `n`
pages, with the `donated` and `info` of the call. -/
theorem contributeNewHugePage_contributed {P : Params} {st st' : Harness} {n : Nat}
    {info : SpanAllocInfo} {donated : Bool} {pt page : Nat}
    (h : contributeNewHugePage P st n info donated = .ok (st', pt, page)) :
    st'.next_hugepage = st.next_hugepage + 1 ∧
    ∃ t, st'.filler.contributed =
        st.filler.contributed ++ [{ tracker := t, donated := donated, info := info }] ∧
      t.location = st.next_hugepage ∧ t.was_donated = donated ∧ t.nused_pages = n := by
  unfold contributeNewHugePage at h
  split at h
  · cases h
  · rename_i t r hget
    injection h with h
    injection h with h _
    subst h
    obtain ⟨h1, h2, h3⟩ := PageTracker.Get_fields hget
    refine ⟨rfl, t, rfl, h2, h1, ?_⟩
    rw [h3]
    exact Nat.zero_add n

theorem opAllocate_contributed {P : Params} (hP : P.Valid) {st st' : Harness} {value : Nat}
    (h : opAllocate P st value = .ok st') :
    (st'.filler.contributed = st.filler.contributed ∧
        st'.next_hugepage = st.next_hugepage) ∨
      ∃ c, st'.filler.contributed = st.filler.contributed ++ [c] ∧
        st'.next_hugepage = st.next_hugepage + 1 ∧
        c.tracker.location = st.next_hugepage ∧ c.Consistent P := by
  unfold opAllocate at h
  simp only at h
  split at h
  · cases h
  · split at h
    · cases h
    · rename_i f res htry
      have hf := HugePageFiller.TryGet_contributed htry
      split at h
      · have := checkSizes_eq h
        subst this
        exact Or.inl ⟨hf, rfl⟩
      · split at h
        · cases h
        · rename_i st1 pt page hcn
          have := checkSizes_eq h
          subst this
          obtain ⟨hnext, t, hlog, hloc, hwd, hused⟩ := contributeNewHugePage_contributed hcn
          right
          refine ⟨_, by rw [← hf]; exact hlog, hnext, hloc, hwd, ?_, ?_⟩
          · intro hd
            exact allocateRequest_donated hP value (of_decide_eq_true hd)
          · intro hd
            have := of_decide_eq_false hd
            show t.nused_pages ≤ P.kPagesPerHugePage / 2
            omega

theorem opDonateTail_contributed {P : Params} {st st' : Harness} {value : Nat}
    (h : opDonateTail P st value = .ok st') :
    ∃ c, st'.filler.contributed = st.filler.contributed ++ [c] ∧
      st'.next_hugepage = st.next_hugepage + 1 ∧
      c.tracker.location = st.next_hugepage ∧ c.Consistent P := by
  unfold opDonateTail at h
  simp only at h
  split at h
  · cases h
  · rename_i st1 pt page hcn
    have := checkSizes_eq h
    subst this
    obtain ⟨hnext, t, hlog, hloc, hwd, _⟩ := contributeNewHugePage_contributed hcn
    exact ⟨_, hlog, hnext, hloc, hwd, fun _ => rfl, fun hd => by cases hd⟩

theorem opDeallocate_contributed {P : Params} {st st' : Harness} {value : Nat}
    (h : opDeallocate P st value = .ok st') :
    st'.filler.contributed = st.filler.contributed ∧
      st'.next_hugepage = st.next_hugepage := by
  unfold opDeallocate at h
  by_cases he : st.trackers.isEmpty = true
  · rw [if_pos he] at h
    injection h with h
    subst h
    exact ⟨rfl, rfl⟩
  · rw [if_neg he] at h
    simp only at h
    split at h
    · cases h
    · split at h
      · cases h
      · rename_i f ret hput
        split at h
        · cases h
        · have := checkSizes_eq h
          subst this
          exact ⟨HugePageFiller.Put_contributed hput, rfl⟩

/-- One operation makes at most one call of `Contribute`, for the tracker on the next huge
page, and the arguments of that call fit together. -/
theorem step_contributed {P : Params} (hP : P.Valid) {st st' : Harness} {op value : Nat}
    (h : step P st op value = .ok st') :
    (st'.filler.contributed = st.filler.contributed ∧
        st'.next_hugepage = st.next_hugepage) ∨
      ∃ c, st'.filler.contributed = st.filler.contributed ++ [c] ∧
        st'.next_hugepage = st.next_hugepage + 1 ∧
        c.tracker.location = st.next_hugepage ∧ c.Consistent P := by
  unfold step at h
  by_cases h0 : op &&& 0xF = 0
  · rw [if_pos h0] at h
    exact opAllocate_contributed hP h
  rw [if_neg h0] at h
  by_cases h1 : op &&& 0xF = 1
  · rw [if_pos h1] at h
    exact Or.inl (opDeallocate_contributed h)
  rw [if_neg h1] at h
  by_cases h2 : op &&& 0xF = 2
  · rw [if_pos h2] at h
    unfold opRelease at h
    simp only at h
    split_ifs at h
    all_goals
      injection h with h
      subst h
      exact Or.inl ⟨HugePageFiller.ReleasePages_contributed _ _ _ _ _ _ _ _, rfl⟩
  rw [if_neg h2] at h
  by_cases h3 : op &&& 0xF = 3
  · rw [if_pos h3] at h
    injection h with h
    subst h
    exact Or.inl ⟨rfl, rfl⟩
  rw [if_neg h3] at h
  by_cases h4 : op &&& 0xF = 4
  · rw [if_pos h4] at h
    injection h with h
    subst h
    exact Or.inl ⟨rfl, rfl⟩
  rw [if_neg h4] at h
  by_cases h6 : op &&& 0xF = 6
  · rw [if_pos h6] at h
    exact Or.inr (opDonateTail_contributed h)
  rw [if_neg h6] at h
  by_cases h7 : op &&& 0xF = 7
  · rw [if_pos h7] at h
    unfold opReleaseHitLimit at h
    simp only at h
    split_ifs at h
    all_goals
      injection h with h
      subst h
      exact Or.inl ⟨HugePageFiller.ReleasePages_contributed _ _ _ _ _ _ _ _, rfl⟩
  rw [if_neg h7] at h
  by_cases h10 : op &&& 0xF = 10
  · rw [if_pos h10] at h
    unfold opTreatHugepageTrackers at h
    simp only at h
    split at h
    · rename_i f' hfetch
      injection h with h
      subst h
      refine Or.inl ⟨?_, rfl⟩
      have h1 := HugePageFiller.FetchFullyFreedTracker_contributed
        (st.filler.TreatHugepageTrackers P mockCallbacks (decide (value &&& 0x1 ≠ 0))
          (decide ((value >>> 1) &&& 0x1 ≠ 0)) FakePageFlags (FakeResidency P) st.g).1
      rw [hfetch] at h1
      exact h1.trans (HugePageFiller.TreatHugepageTrackers_contributed _ _ _ _ _ _ _ _)
    · cases h
  rw [if_neg h10] at h
  by_cases h11 : op &&& 0xF = 11
  · rw [if_pos h11] at h
    injection h with h
    subst h
    unfold opSetResidency
    split_ifs
    · exact Or.inl ⟨rfl, rfl⟩
    · exact Or.inl ⟨rfl, rfl⟩
  rw [if_neg h11] at h
  by_cases h12 : op &&& 0xF = 12
  · rw [if_pos h12] at h
    injection h with h
    subst h
    exact Or.inl ⟨rfl, rfl⟩
  rw [if_neg h12] at h
  injection h with h
  subst h
  exact Or.inl ⟨rfl, rfl⟩

/-- Over a run of operations the calls of `Contribute` are those for the huge pages
`1, 2, ...` in this order, one per tracker created, each with arguments that fit together. -/
theorem runOps_contributed {P : Params} (hP : P.Valid) {st st' : Harness}
    {ops : List (Nat × Nat)} (h : runOps P st ops = .ok st')
    (h1 : (st.filler.contributed.map fun c => c.tracker.location) =
      List.range' 1 (st.next_hugepage - 1))
    (h2 : 1 ≤ st.next_hugepage)
    (h3 : ∀ c ∈ st.filler.contributed, c.Consistent P) :
    (st'.filler.contributed.map fun c => c.tracker.location) =
        List.range' 1 (st'.next_hugepage - 1) ∧
      1 ≤ st'.next_hugepage ∧ ∀ c ∈ st'.filler.contributed, c.Consistent P := by
  induction ops generalizing st with
  | nil =>
    unfold runOps at h
    injection h with h
    subst h
    exact ⟨h1, h2, h3⟩
  | cons o ops ih =>
    obtain ⟨op, value⟩ := o
    unfold runOps at h
    split at h
    · cases h
    · rename_i st1 hstep
      rcases step_contributed hP hstep with ⟨hl, hn⟩ | ⟨c, hl, hn, hloc, hc⟩
      · exact ih h (by rw [hl, hn]; exact h1) (by rw [hn]; exact h2)
          (by rw [hl]; exact h3)
      · refine ih h ?_ (by omega) ?_
        · rw [hl, hn, List.map_append, h1, List.map_singleton, hloc]
          obtain ⟨m, hm⟩ : ∃ m, st.next_hugepage = m + 1 :=
            ⟨st.next_hugepage - 1, by omega⟩
          rw [hm]
          simp only [Nat.add_sub_cancel]
          rw [List.range'_concat]
          simp [Nat.add_comm]
        · intro x hx
          rw [hl, List.mem_append, List.mem_singleton] at hx
          rcases hx with hx | rfl
          · exact h3 x hx
          · exact hc

/-- The operation at index `k` of an input is executed on the state after the first `k`
operations, and its result is the state after the first `k + 1`. -/
theorem stateAfter_succ {P : Params} (hP : P.Valid) (g : Globals) (s : List Byte) (k : Nat)
    {op value : Nat} (hget : (decodeOps (s.drop 3))[k]? = some (op, value)) :
    ∃ a b, stateAfter P g s k = .ok a ∧ step P a op value = .ok b ∧
      stateAfter P g s (k + 1) = .ok b := by
  obtain ⟨a, ha, _⟩ := stateAfter_inv hP g s k
  obtain ⟨b, hb, _⟩ := stateAfter_inv hP g s (k + 1)
  have htake : (decodeOps (s.drop 3)).take (k + 1) =
      (decodeOps (s.drop 3)).take k ++ [(op, value)] := by
    rw [List.take_succ, hget]
    rfl
  refine ⟨a, b, ha, ?_, hb⟩
  have h1 := hb
  unfold stateAfter at h1 ha
  rw [htake, runOps_append, ha] at h1
  simp only [runOps] at h1
  cases hst : step P a op value with
  | error e => rw [hst] at h1; cases h1
  | ok c => rw [hst] at h1; exact h1

/-! ### Donated trackers and the size of a run: the claims -/

/-- C16: in every state the operation loop reaches, the calls of `Contribute` made so far are
those for the huge pages `1, 2, ...`, one per tracker created, and in each of them the
tracker was constructed with `was_donated` equal to the `donated` argument, a donated tracker
was contributed with one object per span and Sparse, and a tracker contributed as not donated
holds at most `kPagesPerHugePage / 2` pages (`Contribute` records its arguments). In such a
state Allocate either is served by `TryGet` (no tracker is created) or constructs a tracker
with `was_donated` equal to `n > kPagesPerHugePage / 2` and contributes it with that same
`donated`; when that is true the `SpanAllocInfo` contributed is one object per span and
Sparse, and for `n <= kPagesPerHugePage / 2` the tracker is contributed as not donated. The
tail donation constructs its tracker with `was_donated` true and contributes it as donated
with one object per span and Sparse. Both operations succeed. -/
theorem donated_trackers_sparse_single {P : Params} (hP : P.Valid) (g : Globals)
    (s : List Byte) (k : Nat) (value : Nat) :
    ∃ st, stateAfter P g s k = .ok st ∧
      (st.filler.contributed.map fun c => c.tracker.location) =
        List.range' 1 (st.next_hugepage - 1) ∧
      (∀ c ∈ st.filler.contributed,
        c.tracker.was_donated = c.donated ∧
        (c.donated = true →
          c.info = { objects_per_span := 1, density := AccessDensityPrediction.kSparse }) ∧
        (c.donated = false → c.tracker.nused_pages ≤ P.kPagesPerHugePage / 2)) ∧
      (∀ (t : PageTracker) (d : Bool) (info : SpanAllocInfo),
        (st.filler.Contribute t d info).contributed =
          st.filler.contributed ++ [{ tracker := t, donated := d, info := info }]) ∧
      ((∃ f pt page,
          st.filler.TryGet P (allocateRequest P value).1 (allocateRequest P value).2 =
            .ok (f, { pt := some pt, page := page }) ∧
          opAllocate P st value =
            .ok (recordAlloc { st with filler := f } pt page (allocateRequest P value).1
              (allocateRequest P value).2)) ∨
        (∃ t r,
          (PageTracker.create st.next_hugepage (allocateDonated P value) st.g.fake_clock).Get P
            (allocateRequest P value).1 (allocateRequest P value).2 = .ok (t, r) ∧
          t.was_donated = allocateDonated P value ∧
          opAllocate P st value =
            .ok (recordAlloc
              { st with
                  filler := st.filler.Contribute t (allocateDonated P value)
                    (allocateRequest P value).2
                  trackers := st.trackers ++ [st.next_hugepage]
                  next_hugepage := st.next_hugepage + 1 }
              st.next_hugepage r.p (allocateRequest P value).1
              (allocateRequest P value).2))) ∧
      (allocateDonated P value = true ↔
        P.kPagesPerHugePage / 2 < (allocateRequest P value).1) ∧
      (allocateDonated P value = true →
        (allocateRequest P value).2 =
          { objects_per_span := 1, density := AccessDensityPrediction.kSparse }) ∧
      ((allocateRequest P value).1 ≤ P.kPagesPerHugePage / 2 →
        allocateDonated P value = false) ∧
      (∃ t r,
        (PageTracker.create st.next_hugepage true st.g.fake_clock).Get P
          (clamp (value &&& 0xFFFF) 1 (P.kPagesPerHugePage - 1))
          { objects_per_span := 1, density := AccessDensityPrediction.kSparse } = .ok (t, r) ∧
        t.was_donated = true ∧
        opDonateTail P st value =
          .ok (recordAlloc
            { st with
                filler := st.filler.Contribute t true
                  { objects_per_span := 1, density := AccessDensityPrediction.kSparse }
                trackers := st.trackers ++ [st.next_hugepage]
                next_hugepage := st.next_hugepage + 1 }
            st.next_hugepage r.p (clamp (value &&& 0xFFFF) 1 (P.kPagesPerHugePage - 1))
            { objects_per_span := 1, density := AccessDensityPrediction.kSparse })) := by
  obtain ⟨st, hst, hinv⟩ := stateAfter_inv hP g s k
  obtain ⟨h1, _, h3⟩ := runOps_contributed hP hst
    (show ((initialHarness g s).filler.contributed.map fun c => c.tracker.location) =
      List.range' 1 ((initialHarness g s).next_hugepage - 1) from rfl)
    (show 1 ≤ (initialHarness g s).next_hugepage from le_refl 1)
    (fun c hc => by simp [initialHarness, HugePageFiller.create] at hc)
  exact ⟨st, hst, h1, h3, fun _ _ _ => rfl, contribution_of_allocate hP hinv value⟩

/-- Witness for C16: the theorem at the small constants, in the state after the first
operation of `replayInput` (3 of 8 pages allocated), for the value 6 (six of eight pages:
donated). -/
theorem donated_trackers_sparse_single_witness :
    ∃ st, stateAfter tinyParams freshGlobals replayInput 1 = .ok st ∧
      (st.filler.contributed.map fun c => c.tracker.location) =
        List.range' 1 (st.next_hugepage - 1) ∧
      (∀ c ∈ st.filler.contributed,
        c.tracker.was_donated = c.donated ∧
        (c.donated = true →
          c.info = { objects_per_span := 1, density := AccessDensityPrediction.kSparse }) ∧
        (c.donated = false → c.tracker.nused_pages ≤ tinyParams.kPagesPerHugePage / 2)) ∧
      (∀ (t : PageTracker) (d : Bool) (info : SpanAllocInfo),
        (st.filler.Contribute t d info).contributed =
          st.filler.contributed ++ [{ tracker := t, donated := d, info := info }]) ∧
      ((∃ f pt page,
          st.filler.TryGet tinyParams (allocateRequest tinyParams 6).1
              (allocateRequest tinyParams 6).2 =
            .ok (f, { pt := some pt, page := page }) ∧
          opAllocate tinyParams st 6 =
            .ok (recordAlloc { st with filler := f } pt page (allocateRequest tinyParams 6).1
              (allocateRequest tinyParams 6).2)) ∨
        (∃ t r,
          (PageTracker.create st.next_hugepage (allocateDonated tinyParams 6)
              st.g.fake_clock).Get tinyParams
            (allocateRequest tinyParams 6).1 (allocateRequest tinyParams 6).2 = .ok (t, r) ∧
          t.was_donated = allocateDonated tinyParams 6 ∧
          opAllocate tinyParams st 6 =
            .ok (recordAlloc
              { st with
                  filler := st.filler.Contribute t (allocateDonated tinyParams 6)
                    (allocateRequest tinyParams 6).2
                  trackers := st.trackers ++ [st.next_hugepage]
                  next_hugepage := st.next_hugepage + 1 }
              st.next_hugepage r.p (allocateRequest tinyParams 6).1
              (allocateRequest tinyParams 6).2))) ∧
      (allocateDonated tinyParams 6 = true ↔
        tinyParams.kPagesPerHugePage / 2 < (allocateRequest tinyParams 6).1) ∧
      (allocateDonated tinyParams 6 = true →
        (allocateRequest tinyParams 6).2 =
          { objects_per_span := 1, density := AccessDensityPrediction.kSparse }) ∧
      ((allocateRequest tinyParams 6).1 ≤ tinyParams.kPagesPerHugePage / 2 →
        allocateDonated tinyParams 6 = false) ∧
      (∃ t r,
        (PageTracker.create st.next_hugepage true st.g.fake_clock).Get tinyParams
          (clamp (6 &&& 0xFFFF) 1 (tinyParams.kPagesPerHugePage - 1))
          { objects_per_span := 1, density := AccessDensityPrediction.kSparse } = .ok (t, r) ∧
        t.was_donated = true ∧
        opDonateTail tinyParams st 6 =
          .ok (recordAlloc
            { st with
                filler := st.filler.Contribute t true
                  { objects_per_span := 1, density := AccessDensityPrediction.kSparse }
                trackers := st.trackers ++ [st.next_hugepage]
                next_hugepage := st.next_hugepage + 1 }
            st.next_hugepage r.p (clamp (6 &&& 0xFFFF) 1 (tinyParams.kPagesPerHugePage - 1))
            { objects_per_span := 1, density := AccessDensityPrediction.kSparse })) :=
  donated_trackers_sparse_single ⟨by decide, by decide, by decide⟩ freshGlobals replayInput 1 6

/-- C20: an input of length `size` with `size <= 3` or `size > 100000` is returned from
before any operation. For every other input the operation loop decodes exactly
`(size - 3) / 5` operations and `FuzzFiller` executes all of them, one after the other, and
completes: the run starts in the initial state, the operation at every index
`k < (size - 3) / 5` is executed on the state after the first `k` operations and yields the
state after the first `k + 1`, and nothing is executed after the last one. In every state the
loop reaches, the number of trackers created so far (`next_hugepage - 1`) is at most the
number of operations executed, hence at most `size / 5`; `trackers` and the filler hold no
more trackers than were created; and the released set holds at most `kPagesPerHugePage` pages
per tracker, hence never more than the reserved `kPagesPerHugePage * size / 5`. -/
theorem operation_count_and_capacity {P : Params} (hP : P.Valid) (g : Globals)
    (s : List Byte) :
    (if s.length ≤ 3 ∨ s.length > 100000 then FuzzFiller P g s = .ok none
     else ∃ r, FuzzFiller P g s = .ok (some r) ∧
       runOps P (initialHarness g s) (decodeOps (s.drop 3)) = .ok r.atShutdown ∧
       stateAfter P g s ((s.length - 3) / 5) = .ok r.atShutdown) ∧
    (decodeOps (s.drop 3)).length = (s.length - 3) / 5 ∧
    stateAfter P g s 0 = .ok (initialHarness g s) ∧
    (∀ k op value, (decodeOps (s.drop 3))[k]? = some (op, value) →
      k < (s.length - 3) / 5 ∧
      ∃ a b, stateAfter P g s k = .ok a ∧ step P a op value = .ok b ∧
        stateAfter P g s (k + 1) = .ok b) ∧
    (∀ k, (s.length - 3) / 5 ≤ k →
      stateAfter P g s k = stateAfter P g s ((s.length - 3) / 5)) ∧
    ∀ k, ∃ st, stateAfter P g s k = .ok st ∧
      st.next_hugepage - 1 ≤ min k ((s.length - 3) / 5) ∧
      st.next_hugepage - 1 ≤ s.length / 5 ∧
      st.trackers.length ≤ st.next_hugepage - 1 ∧
      st.filler.size ≤ s.length / 5 ∧
      st.g.ReleasedPages.card ≤ P.kPagesPerHugePage * st.trackers.length ∧
      st.g.ReleasedPages.card ≤ P.kPagesPerHugePage * s.length / 5 := by
  have hlen : (decodeOps (s.drop 3)).length = (s.length - 3) / 5 := by
    rw [decodeOps_length, List.length_drop]
  refine ⟨?_, hlen, rfl, ?_, ?_, ?_⟩
  · by_cases hguard : s.length ≤ 3 ∨ s.length > 100000
    · rw [if_pos hguard]
      unfold FuzzFiller
      rw [if_pos hguard]
    · rw [if_neg hguard]
      obtain ⟨r, hr, hrun⟩ := FuzzFiller_completes hP g s hguard
      refine ⟨r, hr, hrun, ?_⟩
      unfold stateAfter
      rw [← hlen, List.take_length]
      exact hrun
  · intro k op value hget
    refine ⟨?_, stateAfter_succ hP g s k hget⟩
    obtain ⟨hk, _⟩ := List.getElem?_eq_some.1 hget
    rw [hlen] at hk
    exact hk
  · intro k hk
    unfold stateAfter
    rw [List.take_of_length_le (by rw [hlen]; exact hk),
      List.take_of_length_le (by rw [hlen])]
  · intro k
    obtain ⟨st, hst, hinv⟩ := stateAfter_inv hP g s k
    have hcount := runOps_counts hst (show (initialHarness g s).trackers.length + 1 ≤
      (initialHarness g s).next_hugepage from le_refl 1)
    rw [List.length_take, hlen] at hcount
    rw [show (initialHarness g s).next_hugepage = 1 from rfl] at hcount
    obtain ⟨hc1, hc2⟩ := hcount
    have hmin : min k ((s.length - 3) / 5) ≤ (s.length - 3) / 5 := min_le_right _ _
    have hdiv : (s.length - 3) / 5 ≤ s.length / 5 := Nat.div_le_div_right (Nat.sub_le _ _)
    have hT : st.trackers.length ≤ s.length / 5 := by omega
    have hcard := hinv.released_card_le
    refine ⟨st, hst, by omega, by omega, by omega, ?_, hcard, ?_⟩
    · rw [show st.filler.size = st.filler.trackers.length from rfl, hinv.length_eq]
      exact hT
    · exact (hcard.trans (Nat.mul_le_mul_left _ hT)).trans
        (Nat.mul_div_le_mul_div_assoc _ _ _)

/-- Witness for C20: the theorem at the small constants and the example input (43 bytes, 8
operations). -/
theorem operation_count_and_capacity_witness :
    (if exampleInput.length ≤ 3 ∨ exampleInput.length > 100000 then
        FuzzFiller tinyParams exampleGlobals exampleInput = .ok none
     else ∃ r, FuzzFiller tinyParams exampleGlobals exampleInput = .ok (some r) ∧
       runOps tinyParams (initialHarness exampleGlobals exampleInput)
         (decodeOps (exampleInput.drop 3)) = .ok r.atShutdown ∧
       stateAfter tinyParams exampleGlobals exampleInput ((exampleInput.length - 3) / 5) =
         .ok r.atShutdown) ∧
    (decodeOps (exampleInput.drop 3)).length = (exampleInput.length - 3) / 5 ∧
    stateAfter tinyParams exampleGlobals exampleInput 0 =
      .ok (initialHarness exampleGlobals exampleInput) ∧
    (∀ k op value, (decodeOps (exampleInput.drop 3))[k]? = some (op, value) →
      k < (exampleInput.length - 3) / 5 ∧
      ∃ a b, stateAfter tinyParams exampleGlobals exampleInput k = .ok a ∧
        step tinyParams a op value = .ok b ∧
        stateAfter tinyParams exampleGlobals exampleInput (k + 1) = .ok b) ∧
    (∀ k, (exampleInput.length - 3) / 5 ≤ k →
      stateAfter tinyParams exampleGlobals exampleInput k =
        stateAfter tinyParams exampleGlobals exampleInput ((exampleInput.length - 3) / 5)) ∧
    ∀ k, ∃ st, stateAfter tinyParams exampleGlobals exampleInput k = .ok st ∧
      st.next_hugepage - 1 ≤ min k ((exampleInput.length - 3) / 5) ∧
      st.next_hugepage - 1 ≤ exampleInput.length / 5 ∧
      st.trackers.length ≤ st.next_hugepage - 1 ∧
      st.filler.size ≤ exampleInput.length / 5 ∧
      st.g.ReleasedPages.card ≤ tinyParams.kPagesPerHugePage * st.trackers.length ∧
      st.g.ReleasedPages.card ≤ tinyParams.kPagesPerHugePage * exampleInput.length / 5 :=
  operation_count_and_capacity ⟨by decide, by decide, by decide⟩ exampleGlobals exampleInput

/-! ## Part 4. The model on the example input -/

/-- The example run after its first four operations (three Allocates and a Release): two
trackers, three recorded allocations, and the five free pages released and unmapped. -/
theorem example_state_after_release :
    (match stateAfter tinyParams exampleGlobals exampleInput 4 with
      | .ok st =>
        (st.trackers, st.allocs.map (fun e => (e.1, e.2.map fun a => (a.1.p, a.1.n))),
          st.filler.size, st.filler.unmapped_pages,
          decide (st.g.ReleasedPages = {13, 14, 15, 22, 23}))
      | .error _ => ([], [], 0, 0, false)) =
    ([1, 2], [(1, [(8, 3), (11, 2)]), (2, [(16, 6)])], 2, 5, true) := by
  decide

/-- In the example run after three Allocates, `Put` of one of the two ranges of tracker 1
returns null, and `Put` of the only range of tracker 2 returns tracker 2. -/
theorem example_put_results :
    (match stateAfter tinyParams exampleGlobals exampleInput 3 with
      | .ok st =>
        some
          ((match st.filler.Put tinyParams 1 ⟨8, 3⟩ ⟨1, AccessDensityPrediction.kSparse⟩ with
            | .ok (_, ret) => some (ret.map fun t => t.location)
            | .error _ => none),
           (match st.filler.Put tinyParams 2 ⟨16, 6⟩ ⟨1, AccessDensityPrediction.kSparse⟩ with
            | .ok (_, ret) => some (ret.map fun t => t.location)
            | .error _ => none))
      | .error _ => none) = some (some none, some (some 2)) := by
  decide

/-- The example run ends with the shutdown loop returning tracker 1 on the second of its two
`Put`s and tracker 2 on its only `Put`. -/
theorem example_shutdown_puts :
    (match FuzzFiller tinyParams exampleGlobals exampleInput with
      | .ok (some r) => some (r.puts, r.filler.size)
      | _ => none) = some ([(1, [none, some 1]), (2, [some 2])], 0) := by
  decide

/-- A `Put` of a range that is not allocated is the fatal double free, and a `Put` on a tracker
the filler does not own is fatal as well. -/
theorem example_put_fatal :
    (match stateAfter tinyParams exampleGlobals exampleInput 3 with
      | .ok st =>
        some
          ((match st.filler.Put tinyParams 1 ⟨13, 2⟩ ⟨1, AccessDensityPrediction.kSparse⟩ with
            | .ok _ => none
            | .error e => some e),
           (match st.filler.Put tinyParams 7 ⟨56, 1⟩ ⟨1, AccessDensityPrediction.kSparse⟩ with
            | .ok _ => none
            | .error e => some e))
      | .error _ => none) = some (some Failure.double_free, some Failure.not_owned) := by
  decide

/-- On an empty filler, Allocate of 5 of 8 pages creates tracker 1 as donated and Sparse,
Allocate of 3 pages creates it as not donated, and the tail donation creates it as donated. -/
theorem example_donated_flag :
    ((match opAllocate tinyParams (initialHarness freshGlobals replayInput) 5 with
      | .ok st => st.filler.trackers.map fun t =>
          (t.location, t.was_donated, decide (t.density = AccessDensityPrediction.kSparse))
      | .error _ => []),
     (match opAllocate tinyParams (initialHarness freshGlobals replayInput) 3 with
      | .ok st => st.filler.trackers.map fun t =>
          (t.location, t.was_donated, decide (t.density = AccessDensityPrediction.kSparse))
      | .error _ => []),
     (match opDonateTail tinyParams (initialHarness freshGlobals replayInput) 3 with
      | .ok st => st.filler.trackers.map fun t =>
          (t.location, t.was_donated, decide (t.density = AccessDensityPrediction.kSparse))
      | .error _ => [])) =
    ([(1, true, true)], [(1, false, true)], [(1, true, true)]) := by
  decide

/-- The run of `hitLimitInput` in a fresh process: the value `0x100` of operation 7 asks for
no page, and the five free pages stay. -/
theorem example_hit_limit_run :
    (match stateAfter tinyParams freshGlobals hitLimitInput 2 with
      | .ok st => (st.filler.free_pages tinyParams, st.filler.unmapped_pages)
      | .error _ => (0, 1)) = (5, 0) := by
  decide

/-- The calls of `Contribute` in the example run after its three Allocates (3, 2 and 6 of 8
pages): huge page 1 as not donated and huge page 2 as donated, each with a tracker
constructed with the same flag, one object per span and Sparse. -/
theorem example_contributions :
    (match stateAfter tinyParams exampleGlobals exampleInput 3 with
      | .ok st => st.filler.contributed.map fun c =>
          (c.tracker.location, c.tracker.was_donated, c.donated, c.tracker.nused_pages,
            c.info.objects_per_span, decide (c.info.density = AccessDensityPrediction.kSparse))
      | .error _ => []) = [(1, false, false, 3, 1, true), (2, true, true, 6, 1, true)] := by
  decide

/-- `Contribute` keeps its arguments apart: contributing the same tracker with another
`donated` flag or another `SpanAllocInfo` gives another filler. -/
theorem example_contribute_records :
    (∀ (f : HugePageFiller) (t : PageTracker) (d : Bool) (info : SpanAllocInfo),
      f.Contribute t d info ≠ f.Contribute t (!d) info) ∧
    (∀ (f : HugePageFiller) (t : PageTracker) (d : Bool) (density : AccessDensityPrediction),
      f.Contribute t d { objects_per_span := 1, density := density } ≠
        f.Contribute t d { objects_per_span := 17, density := density }) := by
  constructor
  · intro f t d info h
    have h1 := congrArg (fun x => x.contributed.map fun c => c.donated) h
    simp [HugePageFiller.Contribute] at h1
  · intro f t d density h
    have h1 := congrArg (fun x => x.contributed.map fun c => c.info.objects_per_span) h
    simp [HugePageFiller.Contribute] at h1

/-- The run of `clockInput`: the clock after each of its five operations, and the construction
times of the trackers the filler owns at the end. -/
theorem example_clock_run :
    ((List.range 6).map fun k =>
        match stateAfter tinyParams freshGlobals clockInput k with
        | .ok st => st.g.fake_clock
        | .error _ => -1) = [0, 0, 4294967295, 4294967295, 4294967296, 4294967296] ∧
    (match stateAfter tinyParams freshGlobals clockInput 5 with
      | .ok st => st.filler.trackers.map fun t => (t.location, t.alloc_time)
      | .error _ => []) = [(1, 0), (2, 4294967295)] := by
  decide

end TCMalloc
